import Mathlib

/-! Verification development for the sushi audio host

A shallow embedding of parts of the sushi sources and theorems about them.

* `sushi.receiver`    : `src/engine/receiver.cpp` (`AsynchronousEventReceiver::wait_for_response`)
* `sushi.EventFifo`   : `src/library/event_fifo.h`, over a model of the ring it wraps
* `sushi.engine`      : `src/engine/transport.h` (`Transport`), and a model of the engine's
  handling of RT events
* `sushi.performance` : `src/library/performance_timer.cpp` (`PerformanceTimer`)
* `sushi.midi`        : `src/library/midi_decoder.h` (message types)
* `sushi.event`       : `src/library/event.h` (keyboard, parameter and engine events)
* `sushi.midi_dispatcher` : `src/engine/midi_dispatcher.h`, with a model of the functions of
  midi_dispatcher.cpp
* `sushi.audio_frontend`  : `src/audio_frontends/xenomai_raspa_frontend.cpp`

Conventions of the embedding

* Member functions take the object state as an explicit argument and return the new state.
* The lock-free queue read by `wait_for_response` is shared with the realtime thread.
  The model makes the environment explicit: `queue` is what the queue holds when the call
  starts and `arrivals` lists what the realtime side pushes during the 1st, 2nd, ... sleep
  of the call.
* Values of type `float` and `double` are rationals: arithmetic is exact.
* A pointer is an `Option`, the null pointer being `none`.
-/

set_option autoImplicit false
set_option maxRecDepth 100000

namespace sushi

/-! ## Definitions -/

namespace receiver

/-- The constant `MAX_RETRIES` of receiver.cpp. -/
def MAX_RETRIES : Nat := 100

/-- Modelled from the spec: `ReturnableRtEvent::EventStatus` is declared in
library/rt_event.h, which is not among the sources; receiver.cpp only compares a status
with `HANDLED_OK`. -/
inductive EventStatus where
  | UNHANDLED
  | HANDLED_OK
  | HANDLED_ERROR
  deriving DecidableEq, Repr

/-- What receiver.cpp reads of an `RtEvent`: `type()` as the ordinal of the `RtEventType`
enumerator and, through `returnable_event()`, `event_id()` and `status()`. The last two are
only read when `type() >= RtEventType::STOP_ENGINE`. -/
structure RtEvent where
  type : Nat
  event_id : Nat
  status : EventStatus
  deriving DecidableEq, Repr

/-- The entry type `Node{id, status}` of `_receive_list`. -/
structure Node where
  id : Nat
  status : Bool
  deriving DecidableEq, Repr

/-- The entry pushed at receiver.cpp:45-46 for a returnable event. -/
def Node.ofEvent (event : RtEvent) : Node :=
  ⟨event.event_id, event.status == EventStatus.HANDLED_OK⟩

/-- Outcome of the inner `while (_queue->pop(event))` loop. `returned = some b` when the
loop executed `return b` (line 43), `none` when it ran until `pop` failed. `popped` records
the events the loop took from the queue, oldest first. -/
structure DrainResult where
  returned : Option Bool
  receive_list : List Node
  queue : List RtEvent
  popped : List RtEvent
  deriving DecidableEq, Repr

/-- The inner loop, receiver.cpp:36-48. The ordinal of `RtEventType::STOP_ENGINE`
(library/rt_event.h, not among the sources) is the parameter `STOP_ENGINE`. -/
def drain (STOP_ENGINE : Nat) (id : Nat) : List RtEvent → List Node → DrainResult
  | [], receive_list => ⟨none, receive_list, [], []⟩
  | event :: queue, receive_list =>
    if STOP_ENGINE ≤ event.type then
      if event.event_id = id then
        ⟨some (event.status == EventStatus.HANDLED_OK), receive_list, queue, [event]⟩
      else
        let r := drain STOP_ENGINE id queue (receive_list ++ [Node.ofEvent event])
        { r with popped := event :: r.popped }
    else
      let r := drain STOP_ENGINE id queue receive_list
      { r with popped := event :: r.popped }

/-- The `for` loop over `_receive_list`, receiver.cpp:49-57: the status of the first
entry with the awaited id together with the list after `erase`, or `none` when the loop
runs to the end. -/
def scan (id : Nat) : List Node → Option (Bool × List Node)
  | [] => none
  | node :: rest =>
    if node.id = id then some (node.status, rest)
    else
      match scan id rest with
      | some (status, rest') => some (status, node :: rest')
      | none => none

/-- State after a call of `wait_for_response`: the value returned, `_receive_list`, what
is left in the queue, the events the call popped (oldest first) and the value of the local
`retries` when the call returned. -/
structure WaitResult where
  result : Bool
  receive_list : List Node
  queue : List RtEvent
  popped : List RtEvent
  retries : Nat
  deriving DecidableEq, Repr

/-- The outer loop `while (retries < MAX_RETRIES)`, receiver.cpp:33-61, run for `n` more
rounds (`n = MAX_RETRIES - retries`); `retries` of the result counts the rounds completed
from here. After the sleep of a round the queue holds what arrived during it. -/
def wait_loop (STOP_ENGINE : Nat) (id : Nat) :
    Nat → List Node → List RtEvent → List (List RtEvent) → WaitResult
  | 0, receive_list, queue, _ => ⟨false, receive_list, queue, [], 0⟩
  | n + 1, receive_list, queue, arrivals =>
    let d := drain STOP_ENGINE id queue receive_list
    match d.returned with
    | some status => ⟨status, d.receive_list, d.queue, d.popped, 0⟩
    | none =>
      match scan id d.receive_list with
      | some (status, receive_list') => ⟨status, receive_list', d.queue, d.popped, 0⟩
      | none =>
        let r := wait_loop STOP_ENGINE id n d.receive_list (d.queue ++ arrivals.headD [])
          arrivals.tail
        { r with popped := d.popped ++ r.popped, retries := r.retries + 1 }

/-- The function `AsynchronousEventReceiver::wait_for_response(id, timeout)`. The length of
the sleep, `timeout / MAX_RETRIES`, has no effect on the state and is not modelled. -/
def wait_for_response (STOP_ENGINE : Nat) (id : Nat) (receive_list : List Node)
    (queue : List RtEvent) (arrivals : List (List RtEvent)) : WaitResult :=
  wait_loop STOP_ENGINE id MAX_RETRIES receive_list queue arrivals

/-- The entries a call appends to the receive list for the events `events` it popped:
one for each returnable event with another id than the awaited one, in order. -/
def stash (STOP_ENGINE : Nat) (id : Nat) (events : List RtEvent) : List Node :=
  (events.filter (fun e => STOP_ENGINE ≤ e.type ∧ e.event_id ≠ id)).map Node.ofEvent

/-- The events a call can pop: the queue at the start and what arrives during the sleeps
that are followed by another poll (all but the last). -/
def polled (queue : List RtEvent) (arrivals : List (List RtEvent)) : List RtEvent :=
  queue ++ (arrivals.take (MAX_RETRIES - 1)).flatten

/-- The statuses (true for `HANDLED_OK`) of the completions with event id `id` that a call
can find: the entries of the receive list and the returnable events polled. -/
def completions (STOP_ENGINE : Nat) (id : Nat) (receive_list : List Node)
    (events : List RtEvent) : List Bool :=
  (receive_list.filter (fun n => n.id = id)).map (fun n => n.status) ++
    (events.filter (fun e => STOP_ENGINE ≤ e.type ∧ e.event_id = id)).map
      (fun e => e.status == EventStatus.HANDLED_OK)

/-- The number of polling rounds that a call has begun: a call that returns inside a round
has completed `retries` rounds before it; a call that times out has completed all
`MAX_RETRIES` rounds. -/
def WaitResult.rounds (r : WaitResult) : Nat :=
  if r.retries = MAX_RETRIES then MAX_RETRIES else r.retries + 1

/-- The time that a call has slept, in milliseconds: `timeout / MAX_RETRIES` (a division
of integers) at the end of each completed round. -/
def WaitResult.slept (r : WaitResult) (timeout : Nat) : Nat :=
  r.retries * (timeout / MAX_RETRIES)

end receiver

/-! ### The event fifo -/

namespace memory_relaxed_aquire_release

/-- Modelled from the spec: the class template `CircularFifo<Element, Size>` of
library/circularfifo_memory_relaxed_aquire_release.h, which is not among the sources. The
spec describes a ring of slots of fixed capacity with a head and a tail index, `push`
returning false iff the ring is full and `pop` returning nothing when it is empty. The ring
has `Size + 1` slots of which one is kept free, so that it holds up to `Size` elements. -/
structure CircularFifo (Element : Type) (Size : Nat) where
  _tail : Fin (Size + 1)
  _array : Fin (Size + 1) → Element
  _head : Fin (Size + 1)

namespace CircularFifo

variable {Element : Type} {Size : Nat}

/-- Modelled from the spec: the successor of a ring index, wrapping at the number of
slots. -/
def increment (idx : Fin (Size + 1)) : Fin (Size + 1) :=
  ⟨(idx.val + 1) % (Size + 1), Nat.mod_lt _ (Nat.succ_pos Size)⟩

/-- Modelled from the spec: `push(e) -> bool`, false iff the ring is full. The item is
written to the slot at the tail, which then advances. -/
def push (f : CircularFifo Element Size) (item : Element) :
    Bool × CircularFifo Element Size :=
  let current_tail := f._tail
  let next_tail := increment current_tail
  if next_tail ≠ f._head then
    (true, { f with _array := Function.update f._array current_tail item, _tail := next_tail })
  else
    (false, f)

/-- Modelled from the spec: `pop() -> Option<Event>`, nothing when the ring is empty, else
the item of the slot at the head, which then advances. -/
def pop (f : CircularFifo Element Size) : Option Element × CircularFifo Element Size :=
  let current_head := f._head
  if current_head = f._tail then (none, f)
  else (some (f._array current_head), { f with _head := increment current_head })

/-- Modelled from the spec: `empty() -> bool` (`wasEmpty` in event_fifo.h). -/
def wasEmpty (f : CircularFifo Element Size) : Bool :=
  decide (f._head = f._tail)

/-- Number of steps of `increment` from `head` to `tail`. -/
def distance (head tail : Fin (Size + 1)) : Nat :=
  (tail.val + (Size + 1) - head.val) % (Size + 1)

/-- The items of `n` successive slots starting at `idx`. -/
def slotsFrom (array : Fin (Size + 1) → Element) : Fin (Size + 1) → Nat → List Element
  | _, 0 => []
  | idx, n + 1 => array idx :: slotsFrom array (increment idx) n

/-- The elements held by the ring, oldest first: the slots from the head up to the tail. -/
def contents (f : CircularFifo Element Size) : List Element :=
  slotsFrom f._array f._head (distance f._head f._tail)

end CircularFifo

end memory_relaxed_aquire_release

/-- The constant `MAX_EVENTS_IN_QUEUE` of event_fifo.h. -/
def MAX_EVENTS_IN_QUEUE : Nat := 100

/-- The class `EventFifo` of event_fifo.h. A `BaseEvent*` is an `Option BaseEvent`, the null
pointer being `none`. -/
structure EventFifo (BaseEvent : Type) where
  _fifo : memory_relaxed_aquire_release.CircularFifo (Option BaseEvent) MAX_EVENTS_IN_QUEUE

namespace EventFifo

variable {BaseEvent : Type}

/-- A newly constructed fifo: head and tail at slot 0; `slots` is the indeterminate
content of the slot array. -/
def new (slots : Fin (MAX_EVENTS_IN_QUEUE + 1) → Option BaseEvent) : EventFifo BaseEvent :=
  ⟨⟨0, slots, 0⟩⟩

/-- The function `EventFifo::push`, event_fifo.h:25. -/
def push (f : EventFifo BaseEvent) (event : Option BaseEvent) : Bool × EventFifo BaseEvent :=
  ((f._fifo.push event).1, ⟨(f._fifo.push event).2⟩)

/-- The function `EventFifo::pop`, event_fifo.h:27-32: `valid ? item : nullptr`. -/
def pop (f : EventFifo BaseEvent) : Option BaseEvent × EventFifo BaseEvent :=
  match f._fifo.pop with
  | (some item, g) => (item, ⟨g⟩)
  | (none, g) => (none, ⟨g⟩)

/-- The function `EventFifo::empty`, event_fifo.h:34. -/
def empty (f : EventFifo BaseEvent) : Bool :=
  f._fifo.wasEmpty

/-- The function `EventFifo::send_event`, event_fifo.h:36: the result of `push` is
dropped. -/
def send_event (f : EventFifo BaseEvent) (event : Option BaseEvent) : EventFifo BaseEvent :=
  (f.push event).2

/-- The pointers held by the fifo, oldest first. -/
def contents (f : EventFifo BaseEvent) : List (Option BaseEvent) :=
  f._fifo.contents

end EventFifo

/-- A call made on an `EventFifo`. -/
inductive FifoCall (BaseEvent : Type) where
  | push (event : Option BaseEvent)
  | pop

/-- A fifo together with the record of the calls made on it: the pointers of the pushes
that returned true and the values returned by the pops, each in call order. -/
structure FifoRun (BaseEvent : Type) where
  fifo : EventFifo BaseEvent
  pushed : List (Option BaseEvent)
  popped : List (Option BaseEvent)

namespace FifoRun

variable {BaseEvent : Type}

/-- One call. -/
def step (s : FifoRun BaseEvent) : FifoCall BaseEvent → FifoRun BaseEvent
  | .push event =>
    ⟨(s.fifo.push event).2,
      if (s.fifo.push event).1 then s.pushed ++ [event] else s.pushed, s.popped⟩
  | .pop => ⟨s.fifo.pop.2, s.pushed, s.popped ++ [s.fifo.pop.1]⟩

/-- A sequence of calls on the fifo `f`. -/
def run (calls : List (FifoCall BaseEvent)) (f : EventFifo BaseEvent) : FifoRun BaseEvent :=
  calls.foldl step ⟨f, [], []⟩

/-- The events delivered: the non-null values returned by the pops. -/
def delivered (s : FifoRun BaseEvent) : List (Option BaseEvent) :=
  s.popped.filter (fun p => p.isSome)

/-- Invariant of a run: the pushes accepted so far are the events delivered followed by the events held, and
none of them is a null pointer. -/
def Inv (s : FifoRun BaseEvent) : Prop :=
  s.pushed = s.delivered ++ s.fifo.contents ∧ ∀ p ∈ s.pushed, p ≠ none

end FifoRun

/-! ### The transport -/

namespace engine

/-- Modelled from the spec: the enum `PlayingMode`, declared outside the sources; the spec
lists the playing modes {stopped, playing, recording} and transport.h names `STOPPED` and
`PLAYING`. -/
inductive PlayingMode where
  | STOPPED
  | PLAYING
  | RECORDING
  deriving DecidableEq, Repr

/-- Modelled from the spec: the enum `SyncMode`, declared outside the sources; the spec
lists the sync modes {internal, midi, link} and transport.h names `INTERNAL`. -/
inductive SyncMode where
  | INTERNAL
  | MIDI
  | LINK
  deriving DecidableEq, Repr

/-- Modelled from the spec: the struct `TimeSignature`, declared outside the sources, a
numerator and a denominator, initialised as `{4, 4}` in transport.h. -/
structure TimeSignature where
  numerator : Int
  denominator : Int
  deriving DecidableEq, Repr

/-- The constant `DEFAULT_TEMPO` of transport.h. Values of type `float` and `double` are
rationals in this embedding. -/
def DEFAULT_TEMPO : ℚ := 120

/-- The data members of `Transport`, transport.h:179-191. `Time` is a count of
microseconds. -/
structure Transport where
  _sample_count : Int
  _time : Int
  _latency : Int
  _tempo : ℚ
  _current_bar_beat_count : ℚ
  _beat_count : ℚ
  _bar_start_beat_count : ℚ
  _beats_per_chunk : ℚ
  _beats_per_bar : ℚ
  _samplerate : ℚ
  _sync_mode : SyncMode
  _time_signature : TimeSignature
  _mode : PlayingMode
  deriving DecidableEq

namespace Transport

/-- The constructor `Transport(float sample_rate)` with the default member initialisers.
The member `_beats_per_bar` has no initialiser; its indeterminate value is the argument
`beats_per_bar`. -/
def new (sample_rate : ℚ) (beats_per_bar : ℚ) : Transport where
  _sample_count := 0
  _time := 0
  _latency := 0
  _tempo := DEFAULT_TEMPO
  _current_bar_beat_count := 0
  _beat_count := 0
  _bar_start_beat_count := 0
  _beats_per_chunk := 0
  _beats_per_bar := beats_per_bar
  _samplerate := sample_rate
  _sync_mode := SyncMode.INTERNAL
  _time_signature := ⟨4, 4⟩
  _mode := PlayingMode.PLAYING

def set_latency (t : Transport) (output_latency : Int) : Transport :=
  { t with _latency := output_latency }

def set_tempo (t : Transport) (tempo : ℚ) : Transport :=
  { t with _tempo := tempo }

def playing_mode (t : Transport) : PlayingMode := t._mode

def set_playing_mode (t : Transport) (mode : PlayingMode) : Transport :=
  { t with _mode := mode }

def sync_mode (t : Transport) : SyncMode := t._sync_mode

def set_sync_mode (t : Transport) (mode : SyncMode) : Transport :=
  { t with _sync_mode := mode }

def set_sample_rate (t : Transport) (sample_rate : ℚ) : Transport :=
  { t with _samplerate := sample_rate }

def current_process_time (t : Transport) : Int := t._time

def current_samples (t : Transport) : Int := t._sample_count

/-- The function `Transport::playing`, transport.h:129. -/
def playing (t : Transport) : Bool := t._mode != PlayingMode.STOPPED

def current_time_signature (t : Transport) : TimeSignature := t._time_signature

def current_tempo (t : Transport) : ℚ := t._tempo

def current_bar_beats (t : Transport) : ℚ := t._current_bar_beat_count

def current_beats (t : Transport) : ℚ := t._beat_count

def current_bar_start_beats (t : Transport) : ℚ := t._bar_start_beat_count

end Transport

/-- A call of one of the setters `set_playing_mode`, `set_sync_mode`, `set_tempo` and
`set_latency`. -/
inductive TransportCall where
  | set_playing_mode (mode : PlayingMode)
  | set_sync_mode (mode : SyncMode)
  | set_tempo (tempo : ℚ)
  | set_latency (output_latency : Int)

/-- The transport after one setter call. -/
def Transport.call (t : Transport) : TransportCall → Transport
  | .set_playing_mode mode => t.set_playing_mode mode
  | .set_sync_mode mode => t.set_sync_mode mode
  | .set_tempo tempo => t.set_tempo tempo
  | .set_latency output_latency => t.set_latency output_latency

/-- The transport after a sequence of setter calls. -/
def Transport.calls (t : Transport) (cs : List TransportCall) : Transport :=
  cs.foldl Transport.call t

/-- The mode of the last `set_playing_mode` call of a sequence, `mode` when there is
none. -/
def last_playing_mode (mode : PlayingMode) : List TransportCall → PlayingMode
  | [] => mode
  | .set_playing_mode m :: cs => last_playing_mode m cs
  | _ :: cs => last_playing_mode mode cs

end engine

/-! ### The performance timer -/

namespace performance

/-- The constant `AVERAGEING_FACTOR = 0.3f` of performance_timer.cpp, as a rational. -/
def AVERAGEING_FACTOR : ℚ := 3 / 10

/-- What performance_timer.cpp reads of a `TimingLogPoint` (declared in
performance_timer.h, not among the sources): the node id and `delta_time.count()`. -/
structure TimingLogPoint where
  id : Int
  delta_time : Int
  deriving DecidableEq

/-- The struct `ProcessTimings` (declared in performance_timer.h, not among the sources),
with its members in the order of the aggregate returned at performance_timer.cpp:102. -/
structure ProcessTimings where
  avg_case : ℚ
  min_case : ℚ
  max_case : ℚ
  deriving DecidableEq

/-- The locals `min_value`, `max_value` and `sum` of `_calculate_timings`. -/
structure Accumulator where
  min_value : ℚ
  max_value : ℚ
  sum : ℚ

/-- The body of the loop of `_calculate_timings`, performance_timer.cpp:97-100. -/
def accumulate (_period : ℚ) (acc : Accumulator) (entry : TimingLogPoint) : Accumulator :=
  let process_time := (entry.delta_time : ℚ) / _period
  ⟨min acc.min_value process_time, max acc.max_value process_time, acc.sum + process_time⟩

/-- The function `PerformanceTimer::_calculate_timings`, performance_timer.cpp:90-103, over
exact arithmetic; `_period` is the member set by `set_timing_period`. -/
def _calculate_timings (_period : ℚ) (entries : List TimingLogPoint) : ProcessTimings :=
  let acc := entries.foldl (accumulate _period) ⟨100, 0, 0⟩
  ⟨acc.sum / entries.length, acc.min_value, acc.max_value⟩

/-- The function `PerformanceTimer::_merge_timings`, performance_timer.cpp:105-118, over
exact arithmetic. -/
def _merge_timings (prev_timings new_timings : ProcessTimings) : ProcessTimings :=
  let avg_case :=
    if prev_timings.avg_case = 0 then new_timings.avg_case
    else (1 - AVERAGEING_FACTOR) * prev_timings.avg_case +
      AVERAGEING_FACTOR * new_timings.avg_case
  ⟨avg_case, min prev_timings.min_case new_timings.min_case,
    max prev_timings.max_case new_timings.max_case⟩

/-- The values `delta_time / period` of a list of log points. -/
def process_times (_period : ℚ) (entries : List TimingLogPoint) : List ℚ :=
  entries.map (fun entry => (entry.delta_time : ℚ) / _period)

/-- A record after a sequence of merges: `_merge_timings` applied to each new batch result
in turn. -/
def merge_all (prev_timings : ProcessTimings) (batches : List ProcessTimings) :
    ProcessTimings :=
  batches.foldl _merge_timings prev_timings

/-- A `std::map<int, V>` as the list of its key-value pairs in ascending key order. -/
abbrev IntMap (V : Type) := List (Int × V)

/-- The lookup `find` of a `std::map<int, V>`; `none` stands for `end()`. -/
def IntMap.find {V : Type} : IntMap V → Int → Option V
  | [], _ => none
  | (k, v) :: rest, key => if key = k then some v else IntMap.find rest key

/-- Assignment to the element of key `key` of a `std::map<int, V>`, inserted in key order
when the map has none. -/
def IntMap.set {V : Type} : IntMap V → Int → V → IntMap V
  | [], key, value => [(key, value)]
  | (k, v) :: rest, key, value =>
    if key < k then (key, value) :: (k, v) :: rest
    else if key = k then (key, value) :: rest
    else (k, v) :: IntMap.set rest key value

/-- The keys of a `std::map<int, V>`. -/
def IntMap.keys {V : Type} (m : IntMap V) : List Int :=
  m.map Prod.fst

/-- What performance_timer.cpp reads of a `TimingNode` (declared in performance_timer.h,
not among the sources): the member `timings`. -/
structure TimingNode where
  timings : ProcessTimings
  deriving DecidableEq

/-- The members of `PerformanceTimer` read by the functions below: the period and the
results map `_timings`. -/
structure PerformanceTimer where
  _period : ℚ
  _timings : IntMap TimingNode

namespace PerformanceTimer

/-- A timer whose results map is empty, as after construction. -/
def new (_period : ℚ) : PerformanceTimer :=
  ⟨_period, []⟩

/-- The function `PerformanceTimer::set_timing_period(TimePoint)`,
performance_timer.cpp:22-25. -/
def set_timing_period (t : PerformanceTimer) (timing_period : Int) : PerformanceTimer :=
  { t with _period := (timing_period : ℚ) }

/-- The function `PerformanceTimer::timings_for_node`, performance_timer.cpp:32-41. -/
def timings_for_node (t : PerformanceTimer) (id : Int) : Option ProcessTimings :=
  match IntMap.find t._timings id with
  | some node => some node.timings
  | none => none

/-- The first loop of `_update_timings`, performance_timer.cpp:74-79: the drained log
points grouped by node id, each group in the order of the queue. -/
def sort_data (drained : List TimingLogPoint) : IntMap (List TimingLogPoint) :=
  drained.foldl
    (fun sorted_data log_point =>
      IntMap.set sorted_data log_point.id
        ((IntMap.find sorted_data log_point.id).getD [] ++ [log_point]))
    []

/-- The body of the second loop of `_update_timings`, performance_timer.cpp:82-86.
`_timings[id]` inserts a default-constructed node when there is none; the default member
initialisers of `ProcessTimings` (performance_timer.h, not among the sources) are the
argument `default_timings`. -/
def update_node (default_timings : ProcessTimings) (_period : ℚ)
    (_timings : IntMap TimingNode) (node : Int × List TimingLogPoint) : IntMap TimingNode :=
  let id := node.1
  let timings := (IntMap.find _timings id).getD ⟨default_timings⟩
  let new_timings := _calculate_timings _period node.2
  IntMap.set _timings id { timings with timings := _merge_timings timings.timings new_timings }

/-- The function `PerformanceTimer::_update_timings`, performance_timer.cpp:72-88;
`drained` is what the pops of `_entry_queue` deliver. -/
def _update_timings (default_timings : ProcessTimings) (t : PerformanceTimer)
    (drained : List TimingLogPoint) : PerformanceTimer :=
  { t with _timings :=
      (sort_data drained).foldl (update_node default_timings t._period) t._timings }

/-- The function `PerformanceTimer::clear_timings_for_node`,
performance_timer.cpp:120-130. -/
def clear_timings_for_node (default_timings : ProcessTimings) (t : PerformanceTimer)
    (id : Int) : Bool × PerformanceTimer :=
  match IntMap.find t._timings id with
  | some node =>
    (true, { t with _timings := IntMap.set t._timings id { node with timings := default_timings } })
  | none => (false, t)

/-- The function `PerformanceTimer::clear_all_timings`, performance_timer.cpp:132-139. -/
def clear_all_timings (default_timings : ProcessTimings) (t : PerformanceTimer) :
    PerformanceTimer :=
  { t with _timings :=
      t._timings.map (fun entry => (entry.1, { entry.2 with timings := default_timings })) }

end PerformanceTimer

/-- A call on a `PerformanceTimer` that reads or writes the results map. -/
inductive TimerCall where
  | _update_timings (drained : List TimingLogPoint)
  | clear_timings_for_node (id : Int)
  | clear_all_timings
  | set_timing_period (timing_period : Int)

/-- The timer after one call. -/
def PerformanceTimer.call (default_timings : ProcessTimings) (t : PerformanceTimer) :
    TimerCall → PerformanceTimer
  | ._update_timings drained => t._update_timings default_timings drained
  | .clear_timings_for_node id => (t.clear_timings_for_node default_timings id).2
  | .clear_all_timings => t.clear_all_timings default_timings
  | .set_timing_period timing_period => t.set_timing_period timing_period

/-- The timer after a sequence of calls. -/
def PerformanceTimer.calls (default_timings : ProcessTimings) (t : PerformanceTimer)
    (cs : List TimerCall) : PerformanceTimer :=
  cs.foldl (PerformanceTimer.call default_timings) t

/-- The node ids of the log points that the `_update_timings` calls of a sequence have
aggregated. -/
def aggregated_ids : List TimerCall → List Int
  | [] => []
  | ._update_timings drained :: cs => drained.map (fun p => p.id) ++ aggregated_ids cs
  | _ :: cs => aggregated_ids cs

/-- The members of `PerformanceTimer` that `enable` and `_worker` read or write, with the
period and the results map in `timer`: the flag `_enabled`, the thread handle
`_process_thread`, of which only `joinable()` is read (true from the assignment of a started
thread until `join()` returns), and the ring `_entry_queue` of log points, oldest first. -/
structure RunningTimer where
  timer : PerformanceTimer
  _enabled : Bool
  _process_thread : Bool
  _entry_queue : List TimingLogPoint

/-- What a call of `enable` does besides writing the members: it starts a worker thread,
joins one, calls `_update_timings`. -/
inductive EnableStep where
  | thread_started
  | thread_joined
  | update_timings_called
  deriving DecidableEq, Repr

namespace RunningTimer

/-- The function `PerformanceTimer::_update_timings`, performance_timer.cpp:72-88, with the
ring: the pops deliver the log points of the ring until it is empty. -/
def _update_timings (default_timings : ProcessTimings) (s : RunningTimer) : RunningTimer :=
  { s with
    timer := s.timer._update_timings default_timings s._entry_queue
    _entry_queue := [] }

/-- The function `PerformanceTimer::_worker`, performance_timer.cpp:62-70: the body of the
loop, `_update_timings()` and a sleep, for each of the `iterations` times that the worker
reads the flag `_enabled` as true before it reads it as false and returns. -/
def _worker (default_timings : ProcessTimings) (s : RunningTimer) : Nat → RunningTimer
  | 0 => s
  | iterations + 1 => _worker default_timings (s._update_timings default_timings) iterations

/-- The function `PerformanceTimer::enable`, performance_timer.cpp:43-60, with the steps it
takes. `iterations` is the number of iterations that the worker still makes between the
clearing of the flag and the return of `join()`. -/
def enable (default_timings : ProcessTimings) (s : RunningTimer) (enabled : Bool)
    (iterations : Nat) : RunningTimer × List EnableStep :=
  if enabled && s._enabled == false then
    ({ s with _enabled := true, _process_thread := true }, [EnableStep.thread_started])
  else if !enabled && s._enabled == true then
    let cleared := { s with _enabled := false }
    let joined :=
      if cleared._process_thread then
        ({ _worker default_timings cleared iterations with _process_thread := false },
          [EnableStep.thread_joined])
      else (cleared, [])
    (joined.1._update_timings default_timings,
      joined.2 ++ [EnableStep.update_timings_called])
  else (s, [])

/-- A worker thread runs exactly when the flag `_enabled` is true. -/
def Inv (s : RunningTimer) : Prop :=
  s._process_thread = s._enabled

end RunningTimer

end performance

/-! ### Midi messages and events -/

namespace midi

/-- The constant `MAX_VALUE` of midi_decoder.h: the greatest midi velocity, pressure or
controller value. -/
def MAX_VALUE : Nat := 127

/-- Modelled from the spec: the enumerator `MidiChannel::OMNI`, declared outside the
sources; the spec gives the channel sentinel OMNI = 16, and midi_dispatcher.h sizes its
per-channel arrays `OMNI + 1`. -/
def MidiChannel.OMNI : Nat := 16

/-- The enum `MessageType` of midi_decoder.h. -/
inductive MessageType where
  | NOTE_OFF
  | NOTE_ON
  | POLY_KEY_PRESSURE
  | CONTROL_CHANGE
  | PROGRAM_CHANGE
  | CHANNEL_PRESSURE
  | PITCH_BEND
  | ALL_SOUND_OFF
  | RESET_ALL_CONTROLLERS
  | LOCAL_CONTROL_ON
  | LOCAL_CONTROL_OFF
  | ALL_NOTES_OFF
  | OMNI_MODE_OFF
  | OMNI_MODE_ON
  | MONO_MODE_ON
  | POLY_MODE_ON
  | SYSTEM_EXCLUSIVE
  | TIME_CODE
  | SONG_POSITION
  | SONG_SELECT
  | TUNE_REQUEST
  | END_OF_EXCLUSIVE
  | TIMING_CLOCK
  | START
  | CONTINUE
  | STOP
  | ACTIVE_SENSING
  | RESET
  | UNKNOWN
  deriving DecidableEq, Repr

/-- The struct `NoteOffMessage` of midi_decoder.h; the members are `uint8_t`. -/
structure NoteOffMessage where
  channel : Nat
  note : Nat
  velocity : Nat
  deriving DecidableEq, Repr

/-- The struct `NoteOnMessage` of midi_decoder.h. -/
structure NoteOnMessage where
  channel : Nat
  note : Nat
  velocity : Nat
  deriving DecidableEq, Repr

/-- The struct `ControlChangeMessage` of midi_decoder.h. -/
structure ControlChangeMessage where
  channel : Nat
  controller : Nat
  value : Nat
  deriving DecidableEq, Repr

/-- The struct `ProgramChangeMessage` of midi_decoder.h. -/
structure ProgramChangeMessage where
  channel : Nat
  program : Nat
  deriving DecidableEq, Repr

/-- The constant `MAX_PITCH_BEND` of midi_decoder.h:17-18, commented there as the
"Max value for midi pitch bend (14 bit value)". -/
def MAX_PITCH_BEND : Nat := 16384

/-- The constant `PITCH_BEND_MIDDLE` of midi_decoder.h:19-20, the "Middle value for pitch
bend". -/
def PITCH_BEND_MIDDLE : Nat := 8192

/-- The struct `PitchBendMessage` of midi_decoder.h:104-108: a `uint8_t` channel and a
`uint16_t` value. -/
structure PitchBendMessage where
  channel : Nat
  value : Nat
  deriving DecidableEq, Repr

end midi

/-- The type `MidiDataByte`, an array of four bytes (the unit tests initialise it with four
bytes and read `midi_data()[3]`). -/
abbrev MidiDataByte := Fin 4 → Nat

namespace event

/-- The enum `EventStatus::EventStatus` of event.h. -/
inductive EventStatus where
  | HANDLED_OK
  | ERROR
  | NOT_HANDLED
  | QUEUED_HANDLING
  | UNRECOGNIZED_RECEIVER
  | UNRECOGNIZED_EVENT
  | EVENT_SPECIFIC
  deriving DecidableEq, Repr

/-- The enum `KeyboardEvent::Subtype` of event.h. -/
inductive KeyboardSubtype where
  | NOTE_ON
  | NOTE_OFF
  | NOTE_AFTERTOUCH
  | AFTERTOUCH
  | PITCH_BEND
  | MODULATION
  | WRAPPED_MIDI
  deriving DecidableEq, Repr

/-- The class `KeyboardEvent` of event.h, one constructor for each of its three
constructors (lines 148-162, 164-174 and 176-182), with the timestamp of the base class
`Event`. The event id minted by the base class is not modelled. -/
inductive KeyboardEvent where
  | with_value (subtype : KeyboardSubtype) (processor_id : Nat) (channel : Int) (value : ℚ)
      (timestamp : Int)
  | with_note (subtype : KeyboardSubtype) (processor_id : Nat) (channel : Int) (note : Int)
      (velocity : ℚ) (timestamp : Int)
  | with_midi_data (subtype : KeyboardSubtype) (processor_id : Nat) (midi_data : MidiDataByte)
      (timestamp : Int)
  deriving DecidableEq

namespace KeyboardEvent

def subtype : KeyboardEvent → KeyboardSubtype
  | with_value s _ _ _ _ => s
  | with_note s _ _ _ _ _ => s
  | with_midi_data s _ _ _ => s

def processor_id : KeyboardEvent → Nat
  | with_value _ p _ _ _ => p
  | with_note _ p _ _ _ _ => p
  | with_midi_data _ p _ _ => p

def time : KeyboardEvent → Int
  | with_value _ _ _ _ t => t
  | with_note _ _ _ _ _ t => t
  | with_midi_data _ _ _ t => t

/-- The accessor `channel()`; `none` where the constructor leaves `_channel`
uninitialised. -/
def channel : KeyboardEvent → Option Int
  | with_value _ _ c _ _ => some c
  | with_note _ _ c _ _ _ => some c
  | with_midi_data _ _ _ _ => none

/-- The accessor `note()`; `none` where the constructor leaves `_note` uninitialised. -/
def note : KeyboardEvent → Option Int
  | with_value _ _ _ _ _ => some 0
  | with_note _ _ _ n _ _ => some n
  | with_midi_data _ _ _ _ => none

/-- The accessor `velocity()`; `none` where the constructor leaves `_velocity`
uninitialised. -/
def velocity : KeyboardEvent → Option ℚ
  | with_value _ _ _ v _ => some v
  | with_note _ _ _ _ v _ => some v
  | with_midi_data _ _ _ _ => none

/-- The accessor `midi_data()`; `none` where the constructor leaves `_midi_data`
uninitialised. -/
def midi_data : KeyboardEvent → Option MidiDataByte
  | with_value _ _ _ _ _ => none
  | with_note _ _ _ _ _ _ => none
  | with_midi_data _ _ d _ => some d

end KeyboardEvent

/-- The enum `ParameterChangeEvent::Subtype` of event.h. -/
inductive ParameterChangeSubtype where
  | BOOL_PARAMETER_CHANGE
  | INT_PARAMETER_CHANGE
  | FLOAT_PARAMETER_CHANGE
  | STRING_PROPERTY_CHANGE
  | BLOB_PROPERTY_CHANGE
  deriving DecidableEq, Repr

/-- The class `ParameterChangeEvent` of event.h, with the timestamp of the base class. -/
structure ParameterChangeEvent where
  subtype : ParameterChangeSubtype
  processor_id : Nat
  parameter_id : Nat
  float_value : ℚ
  time : Int
  deriving DecidableEq

/-- The class `ProgramChangeEvent` of event.h, with the timestamp of the base class. -/
structure ProgramChangeEvent where
  processor_id : Nat
  program_no : Int
  time : Int
  deriving DecidableEq

/-- The events that the midi dispatcher makes, as values of the base class `Event`. -/
inductive Event where
  | keyboard (e : KeyboardEvent)
  | parameter_change (e : ParameterChangeEvent)
  | program_change (e : ProgramChangeEvent)
  deriving DecidableEq

namespace Event

def time : Event → Int
  | keyboard e => e.time
  | parameter_change e => e.time
  | program_change e => e.time

def is_keyboard_event : Event → Bool
  | keyboard _ => true
  | _ => false

def is_parameter_change_event : Event → Bool
  | parameter_change _ => true
  | _ => false

end Event

end event

namespace midi_dispatcher

open event

/-- The struct `InputConnection` of midi_dispatcher.h. -/
structure InputConnection where
  target : Nat
  parameter : Nat
  min_range : ℚ
  max_range : ℚ
  relative : Bool
  virtual_abs_value : Nat
  deriving DecidableEq

/-- The struct `OutputConnection` of midi_dispatcher.h. -/
structure OutputConnection where
  channel : Int
  output : Int
  cc_number : Int
  min_range : ℚ
  max_range : ℚ
  deriving DecidableEq

/-- The enum `MidiDispatcherStatus` of midi_dispatcher.h. -/
inductive MidiDispatcherStatus where
  | OK
  | INVALID_MIDI_INPUT
  | INVALID_MIDI_OUTPUT
  | INVALID_CHAIN_NAME
  | INVALID_PROCESSOR
  | INVALID_PARAMETER
  | INVAlID_CHANNEL
  deriving DecidableEq, Repr

/-- Modelled from the spec: the function `make_note_on_event` of midi_dispatcher.cpp, which
is not among the sources. The spec has a note-on with velocity 0 produce a note-off event
and scenario 5 gives velocity 55 as about 0.433, i.e. `velocity / MAX_VALUE`; the unit test
TestMakeNoteOnWithZeroVelEvent expects the note-off to have velocity 0.5. -/
def make_note_on_event (c : InputConnection) (msg : midi.NoteOnMessage) (timestamp : Int) :
    Event :=
  if msg.velocity = 0 then
    Event.keyboard (KeyboardEvent.with_note KeyboardSubtype.NOTE_OFF c.target msg.channel
      msg.note (1 / 2) timestamp)
  else
    Event.keyboard (KeyboardEvent.with_note KeyboardSubtype.NOTE_ON c.target msg.channel
      msg.note ((msg.velocity : ℚ) / (midi.MAX_VALUE : ℚ)) timestamp)

/-- Modelled from the spec: the function `make_note_off_event` of midi_dispatcher.cpp, which
is not among the sources; the unit test TestMakeNoteOffEvent expects velocity 64 to give
about 0.5. -/
def make_note_off_event (c : InputConnection) (msg : midi.NoteOffMessage) (timestamp : Int) :
    Event :=
  Event.keyboard (KeyboardEvent.with_note KeyboardSubtype.NOTE_OFF c.target msg.channel
    msg.note ((msg.velocity : ℚ) / (midi.MAX_VALUE : ℚ)) timestamp)

/-- Modelled from the spec: the function `make_wrapped_midi_event` of midi_dispatcher.cpp,
which is not among the sources: the `size` bytes at `data` are delivered unchanged in a
`MidiDataByte` whose remaining bytes are 0 (unit test TestMakeWrappedMidiEvent). -/
def make_wrapped_midi_event (c : InputConnection) (data : List Nat) (size : Nat)
    (timestamp : Int) : Event :=
  Event.keyboard (KeyboardEvent.with_midi_data KeyboardSubtype.WRAPPED_MIDI c.target
    (fun i => if i.val < size then data.getD i.val 0 else 0) timestamp)

/-- Modelled from the spec: the value that a relative-mode connection takes for a
controller value: the spec applies the value, read as a two's-complement 7-bit delta, to
`virtual_abs_value`, which is a `uint8_t`. -/
def relative_abs_value (c : InputConnection) (value : Nat) : Nat :=
  (((c.virtual_abs_value : Int) + (if value < 64 then (value : Int) else (value : Int) - 128))
    % 256).toNat

/-- Modelled from the spec: the function `make_param_change_event` of midi_dispatcher.cpp,
which is not among the sources. In absolute mode the float value is
`min + (max - min) * (cc_value / 127)`; in relative mode the delta is applied to
`virtual_abs_value`, which the connection keeps. The result is the event and the
connection afterwards. -/
def make_param_change_event (c : InputConnection) (msg : midi.ControlChangeMessage)
    (timestamp : Int) : Event × InputConnection :=
  let abs_value := if c.relative then relative_abs_value c msg.value else msg.value
  let c' := if c.relative then { c with virtual_abs_value := abs_value } else c
  (Event.parameter_change
    ⟨ParameterChangeSubtype.FLOAT_PARAMETER_CHANGE, c.target, c.parameter,
      c.min_range + (c.max_range - c.min_range) * ((abs_value : ℚ) / (midi.MAX_VALUE : ℚ)),
      timestamp⟩, c')

/-- Modelled from the spec: the function `make_program_change_event` of
midi_dispatcher.cpp, which is not among the sources (unit test
TestMakeProgramChangeEvent). -/
def make_program_change_event (c : InputConnection) (msg : midi.ProgramChangeMessage)
    (timestamp : Int) : Event :=
  Event.program_change ⟨c.target, msg.program, timestamp⟩

/-- The element type of the routing tables of midi_dispatcher.h:199-203,
`std::array<std::vector<InputConnection>, midi::MidiChannel::OMNI + 1>`: the connections of
each channel index `0..OMNI`. -/
abbrev ChannelRoutes := Nat → List InputConnection

/-- The data members of `MidiDispatcher`, midi_dispatcher.h:199-205. A `std::map` is a
function to `Option`, `none` standing for a key that `find` does not find. -/
structure MidiDispatcher where
  _kb_routes_in : Int → Option ChannelRoutes
  _kb_routes_out : Nat → Option (List OutputConnection)
  _cc_routes : Int → Option (Nat → ChannelRoutes)
  _pc_routes : Int → Option ChannelRoutes
  _raw_routes_in : Int → Option ChannelRoutes
  _midi_inputs : Int
  _midi_outputs : Int

/-- The lookups of names that the dispatcher makes in the engine (`BaseEngine`, declared
outside the sources). -/
structure EngineNames where
  processor_id_from_name : String → Option Nat
  parameter_id_from_name : String → String → Option Nat

/-- The decoding functions declared in midi_decoder.h, whose definitions are not among the
sources. -/
structure Decoder where
  decode_message_type : MidiDataByte → midi.MessageType
  decode_channel : Nat → Nat
  decode_note_off : MidiDataByte → midi.NoteOffMessage
  decode_note_on : MidiDataByte → midi.NoteOnMessage
  decode_control_change : MidiDataByte → midi.ControlChangeMessage
  decode_program_change : MidiDataByte → midi.ProgramChangeMessage

/-- The connections of a routing table for an input port and a channel index; none when
the table has no entry for the port. -/
def routes_at (routes : Int → Option ChannelRoutes) (port : Int) (channel : Nat) :
    List InputConnection :=
  match routes port with
  | some r => r channel
  | none => []

/-- The connections of the control-change table for an input port, a controller number and
a channel index. -/
def cc_routes_at (routes : Int → Option (Nat → ChannelRoutes)) (port : Int) (cc_no : Nat)
    (channel : Nat) : List InputConnection :=
  match routes port with
  | some r => r cc_no channel
  | none => []

/-- The statement `routes[midi_input][channel].push_back(connection)`. -/
def push_route (routes : Int → Option ChannelRoutes) (midi_input : Int) (channel : Nat)
    (connection : InputConnection) : Int → Option ChannelRoutes :=
  fun port =>
    if port = midi_input then
      some (fun ch =>
        if ch = channel then routes_at routes midi_input ch ++ [connection]
        else routes_at routes midi_input ch)
    else routes port

/-- The statement `routes[midi_input][cc_no][channel].push_back(connection)`. -/
def push_cc_route (routes : Int → Option (Nat → ChannelRoutes)) (midi_input : Int)
    (cc_no : Nat) (channel : Nat) (connection : InputConnection) :
    Int → Option (Nat → ChannelRoutes) :=
  fun port =>
    if port = midi_input then
      some (fun cc ch =>
        if cc = cc_no ∧ ch = channel then cc_routes_at routes midi_input cc ch ++ [connection]
        else cc_routes_at routes midi_input cc ch)
    else routes port

namespace MidiDispatcher

/-- A dispatcher after construction: no routes, no midi inputs or outputs. -/
def new : MidiDispatcher :=
  ⟨fun _ => none, fun _ => none, fun _ => none, fun _ => none, fun _ => none, 0, 0⟩

/-- The function `MidiDispatcher::set_midi_inputs`, midi_dispatcher.h:92-95. -/
def set_midi_inputs (d : MidiDispatcher) (no_inputs : Int) : MidiDispatcher :=
  { d with _midi_inputs := no_inputs }

/-- The function `MidiDispatcher::set_midi_outputs`, midi_dispatcher.h:101-104. -/
def set_midi_outputs (d : MidiDispatcher) (no_outputs : Int) : MidiDispatcher :=
  { d with _midi_outputs := no_outputs }

/-- Modelled from the spec: the function `MidiDispatcher::connect_kb_to_track` of
midi_dispatcher.cpp, which is not among the sources: a connection to the track is added to
the keyboard-in table at the input port and the channel (`OMNI` or a specific one). The
input must be one of the `_midi_inputs` registered inputs, the channel an index of the
per-channel array and the track known to the engine; otherwise an error status is returned
and nothing is connected. A keyboard connection has a target only. -/
def connect_kb_to_track (eng : EngineNames) (d : MidiDispatcher) (midi_input : Int)
    (track_name : String) (channel : Nat) : MidiDispatcherStatus × MidiDispatcher :=
  if midi_input < 0 ∨ d._midi_inputs ≤ midi_input then
    (MidiDispatcherStatus.INVALID_MIDI_INPUT, d)
  else if midi.MidiChannel.OMNI < channel then (MidiDispatcherStatus.INVAlID_CHANNEL, d)
  else
    match eng.processor_id_from_name track_name with
    | none => (MidiDispatcherStatus.INVALID_CHAIN_NAME, d)
    | some id =>
      (MidiDispatcherStatus.OK,
        { d with _kb_routes_in :=
            push_route d._kb_routes_in midi_input channel (⟨id, 0, 0, 0, false, 0⟩ : InputConnection) })

/-- Modelled from the spec: the function `MidiDispatcher::connect_raw_midi_to_track` of
midi_dispatcher.cpp, which is not among the sources; as `connect_kb_to_track`, on the
raw-in table. -/
def connect_raw_midi_to_track (eng : EngineNames) (d : MidiDispatcher) (midi_input : Int)
    (track_name : String) (channel : Nat) : MidiDispatcherStatus × MidiDispatcher :=
  if midi_input < 0 ∨ d._midi_inputs ≤ midi_input then
    (MidiDispatcherStatus.INVALID_MIDI_INPUT, d)
  else if midi.MidiChannel.OMNI < channel then (MidiDispatcherStatus.INVAlID_CHANNEL, d)
  else
    match eng.processor_id_from_name track_name with
    | none => (MidiDispatcherStatus.INVALID_CHAIN_NAME, d)
    | some id =>
      (MidiDispatcherStatus.OK,
        { d with _raw_routes_in :=
            push_route d._raw_routes_in midi_input channel (⟨id, 0, 0, 0, false, 0⟩ : InputConnection) })

/-- Modelled from the spec: the function `MidiDispatcher::connect_pc_to_processor` of
midi_dispatcher.cpp, which is not among the sources; as `connect_kb_to_track`, on the pc-in
table. -/
def connect_pc_to_processor (eng : EngineNames) (d : MidiDispatcher) (midi_input : Int)
    (processor_name : String) (channel : Nat) : MidiDispatcherStatus × MidiDispatcher :=
  if midi_input < 0 ∨ d._midi_inputs ≤ midi_input then
    (MidiDispatcherStatus.INVALID_MIDI_INPUT, d)
  else if midi.MidiChannel.OMNI < channel then (MidiDispatcherStatus.INVAlID_CHANNEL, d)
  else
    match eng.processor_id_from_name processor_name with
    | none => (MidiDispatcherStatus.INVALID_PROCESSOR, d)
    | some id =>
      (MidiDispatcherStatus.OK,
        { d with _pc_routes :=
            push_route d._pc_routes midi_input channel (⟨id, 0, 0, 0, false, 0⟩ : InputConnection) })

/-- Modelled from the spec: the function `MidiDispatcher::connect_cc_to_parameter` of
midi_dispatcher.cpp, which is not among the sources: a connection with the target
processor and parameter, the range and the relative flag is added to the cc-in table at the
input port, the controller number and the channel. The spec leaves the initial
`virtual_abs_value` of the connection open; it is the argument `virtual_abs_value`. -/
def connect_cc_to_parameter (eng : EngineNames) (d : MidiDispatcher) (midi_input : Int)
    (processor_name : String) (parameter_name : String) (cc_no : Nat) (min_range : ℚ)
    (max_range : ℚ) (use_relative_mode : Bool) (channel : Nat) (virtual_abs_value : Nat) :
    MidiDispatcherStatus × MidiDispatcher :=
  if midi_input < 0 ∨ d._midi_inputs ≤ midi_input then
    (MidiDispatcherStatus.INVALID_MIDI_INPUT, d)
  else if midi.MidiChannel.OMNI < channel then (MidiDispatcherStatus.INVAlID_CHANNEL, d)
  else
    match eng.processor_id_from_name processor_name with
    | none => (MidiDispatcherStatus.INVALID_PROCESSOR, d)
    | some processor_id =>
      match eng.parameter_id_from_name processor_name parameter_name with
      | none => (MidiDispatcherStatus.INVALID_PARAMETER, d)
      | some parameter_id =>
        (MidiDispatcherStatus.OK,
          { d with _cc_routes :=
              push_cc_route d._cc_routes midi_input cc_no channel
                      (⟨processor_id, parameter_id, min_range, max_range, use_relative_mode,
                        virtual_abs_value⟩ : InputConnection) })

/-- Modelled from the spec: the state of the cc-in table after a control-change message:
the connections consulted, those of the port and the controller at `OMNI` and at the
channel of the message, keep the `virtual_abs_value` that `make_param_change_event` gives
them. -/
def update_cc_routes (routes : Int → Option (Nat → ChannelRoutes)) (port : Int)
    (msg : midi.ControlChangeMessage) (timestamp : Int) :
    Int → Option (Nat → ChannelRoutes) :=
  fun p =>
    if p = port then
      (routes p).map (fun table => fun cc ch =>
        if cc = msg.controller ∧ (ch = midi.MidiChannel.OMNI ∨ ch = msg.channel) then
          (table cc ch).map (fun c => (make_param_change_event c msg timestamp).2)
        else table cc ch)
    else routes p

/-- Modelled from the spec: the function `MidiDispatcher::send_midi` of midi_dispatcher.cpp,
which is not among the sources. The result is the list of the events posted to the event
dispatcher, in order, and the dispatcher afterwards. The message is forwarded as a
wrapped-midi event to the raw-in routes of the port, and by its decoded type a note-on or
note-off goes to the keyboard-in routes, a control change to the cc-in routes of its
controller and a program change to the pc-in routes; in each table the entries at `OMNI`
and the entries at the channel of the message match. -/
def send_midi (dec : Decoder) (d : MidiDispatcher) (port : Int) (data : MidiDataByte)
    (timestamp : Int) : List Event × MidiDispatcher :=
  let channel := dec.decode_channel (data 0)
  let raw :=
    (routes_at d._raw_routes_in port midi.MidiChannel.OMNI ++
      routes_at d._raw_routes_in port channel).map
      (fun c => make_wrapped_midi_event c (List.ofFn data) 4 timestamp)
  match dec.decode_message_type data with
  | midi.MessageType.CONTROL_CHANGE =>
    let msg := dec.decode_control_change data
    (raw ++
      (cc_routes_at d._cc_routes port msg.controller midi.MidiChannel.OMNI ++
        cc_routes_at d._cc_routes port msg.controller msg.channel).map
        (fun c => (make_param_change_event c msg timestamp).1),
      { d with _cc_routes := update_cc_routes d._cc_routes port msg timestamp })
  | midi.MessageType.NOTE_ON =>
    let msg := dec.decode_note_on data
    (raw ++
      (routes_at d._kb_routes_in port midi.MidiChannel.OMNI ++
        routes_at d._kb_routes_in port msg.channel).map
        (fun c => make_note_on_event c msg timestamp), d)
  | midi.MessageType.NOTE_OFF =>
    let msg := dec.decode_note_off data
    (raw ++
      (routes_at d._kb_routes_in port midi.MidiChannel.OMNI ++
        routes_at d._kb_routes_in port msg.channel).map
        (fun c => make_note_off_event c msg timestamp), d)
  | midi.MessageType.PROGRAM_CHANGE =>
    let msg := dec.decode_program_change data
    (raw ++
      (routes_at d._pc_routes port midi.MidiChannel.OMNI ++
        routes_at d._pc_routes port msg.channel).map
        (fun c => make_program_change_event c msg timestamp), d)
  | _ => (raw, d)

/-- Modelled from the spec: the function `MidiDispatcher::process` of midi_dispatcher.cpp,
which is not among the sources: an outbound keyboard event is converted into raw midi bytes
and handed to the midi frontend on the output port of each keyboard-out connection of its
track. The result is the status returned and the list of the `send_midi` calls made on the
frontend, each with its output, bytes and timestamp. The conversion (the inverse decoder,
not among the sources) is the argument `encode`. -/
def process (encode : OutputConnection → KeyboardEvent → Option MidiDataByte)
    (d : MidiDispatcher) (event : Event) : EventStatus × List (Int × MidiDataByte × Int) :=
  match event with
  | Event.keyboard typed_event =>
    match d._kb_routes_out typed_event.processor_id with
    | some cons =>
      (EventStatus.HANDLED_OK,
        cons.filterMap (fun c =>
          (encode c typed_event).map (fun bytes => (c.output, bytes, typed_event.time))))
    | none => (EventStatus.HANDLED_OK, [])
  | _ => (EventStatus.NOT_HANDLED, [])

end MidiDispatcher

/-- The events posted for the raw-in routes. -/
def raw_events (dec : Decoder) (d : MidiDispatcher) (port : Int) (data : MidiDataByte)
    (timestamp : Int) : List Event :=
  (routes_at d._raw_routes_in port midi.MidiChannel.OMNI ++
    routes_at d._raw_routes_in port (dec.decode_channel (data 0))).map
    (fun c => make_wrapped_midi_event c (List.ofFn data) 4 timestamp)

/-- The kind of an input route: the table it is in, with the controller number for a
control-change route. -/
inductive RouteKind where
  | KEYBOARD
  | CC (cc_no : Nat)
  | PC
  | RAW
  deriving DecidableEq

/-- An input route: a connection made on an input port and a channel (`OMNI` or a specific
one). -/
structure Route where
  kind : RouteKind
  midi_input : Int
  channel : Nat
  connection : InputConnection
  deriving DecidableEq

/-- A call that sets up the input side of a dispatcher. -/
inductive ConnectCall where
  | set_midi_inputs (no_inputs : Int)
  | connect_kb_to_track (midi_input : Int) (track_name : String) (channel : Nat)
  | connect_raw_midi_to_track (midi_input : Int) (track_name : String) (channel : Nat)
  | connect_pc_to_processor (midi_input : Int) (processor_name : String) (channel : Nat)
  | connect_cc_to_parameter (midi_input : Int) (processor_name : String)
      (parameter_name : String) (cc_no : Nat) (min_range : ℚ) (max_range : ℚ)
      (use_relative_mode : Bool) (channel : Nat) (virtual_abs_value : Nat)

/-- The status and the dispatcher after one call (`OK` for `set_midi_inputs`, which returns
nothing). -/
def MidiDispatcher.call (eng : EngineNames) (d : MidiDispatcher) :
    ConnectCall → MidiDispatcherStatus × MidiDispatcher
  | .set_midi_inputs n => (MidiDispatcherStatus.OK, d.set_midi_inputs n)
  | .connect_kb_to_track i name ch => d.connect_kb_to_track eng i name ch
  | .connect_raw_midi_to_track i name ch => d.connect_raw_midi_to_track eng i name ch
  | .connect_pc_to_processor i name ch => d.connect_pc_to_processor eng i name ch
  | .connect_cc_to_parameter i name par cc lo hi rel ch v =>
    d.connect_cc_to_parameter eng i name par cc lo hi rel ch v

/-- The route that a call asks for, when the engine knows the names. -/
def ConnectCall.route (eng : EngineNames) : ConnectCall → Option Route
  | .set_midi_inputs _ => none
  | .connect_kb_to_track i name ch =>
    (eng.processor_id_from_name name).map
      (fun id => ⟨RouteKind.KEYBOARD, i, ch, ⟨id, 0, 0, 0, false, 0⟩⟩)
  | .connect_raw_midi_to_track i name ch =>
    (eng.processor_id_from_name name).map
      (fun id => ⟨RouteKind.RAW, i, ch, ⟨id, 0, 0, 0, false, 0⟩⟩)
  | .connect_pc_to_processor i name ch =>
    (eng.processor_id_from_name name).map
      (fun id => ⟨RouteKind.PC, i, ch, ⟨id, 0, 0, 0, false, 0⟩⟩)
  | .connect_cc_to_parameter i name par cc lo hi rel ch v =>
    match eng.processor_id_from_name name, eng.parameter_id_from_name name par with
    | some id, some pid => some ⟨RouteKind.CC cc, i, ch, ⟨id, pid, lo, hi, rel, v⟩⟩
    | _, _ => none

/-- A dispatcher together with the routes connected on it: those of the connect calls that
returned `OK`, in call order. -/
structure Connected where
  dispatcher : MidiDispatcher
  routes : List Route

/-- One call: the route is recorded when the call returns `OK`. -/
def Connected.step (eng : EngineNames) (s : Connected) (call : ConnectCall) : Connected :=
  ⟨(s.dispatcher.call eng call).2,
    if (s.dispatcher.call eng call).1 = MidiDispatcherStatus.OK then
      s.routes ++ (call.route eng).toList
    else s.routes⟩

/-- A sequence of calls on a new dispatcher. -/
def Connected.run (eng : EngineNames) (calls : List ConnectCall) : Connected :=
  calls.foldl (Connected.step eng) ⟨MidiDispatcher.new, []⟩

/-- The channel filter of a route channel for a message channel: an `OMNI` route matches
every channel, a route of a specific channel matches only its own. -/
def matches_channel (route_channel : Nat) (channel : Nat) : Prop :=
  route_channel = midi.MidiChannel.OMNI ∨ route_channel = channel

instance (route_channel channel : Nat) : Decidable (matches_channel route_channel channel) :=
  inferInstanceAs (Decidable (_ ∨ _))

/-- A route of kind `kind` and channel `route_channel` takes the message: its channel is
`OMNI` or the channel of the message, the message is of the type that the table of the
route takes (every message for a raw route) and, for a control-change route, the controller
number is that of the message. -/
def RouteKind.takes (dec : Decoder) (data : MidiDataByte) : RouteKind → Nat → Prop
  | RouteKind.RAW, route_channel => matches_channel route_channel (dec.decode_channel (data 0))
  | RouteKind.KEYBOARD, route_channel =>
    (dec.decode_message_type data = midi.MessageType.NOTE_ON ∧
        matches_channel route_channel (dec.decode_note_on data).channel) ∨
      (dec.decode_message_type data = midi.MessageType.NOTE_OFF ∧
        matches_channel route_channel (dec.decode_note_off data).channel)
  | RouteKind.CC cc_no, route_channel =>
    dec.decode_message_type data = midi.MessageType.CONTROL_CHANGE ∧
      cc_no = (dec.decode_control_change data).controller ∧
      matches_channel route_channel (dec.decode_control_change data).channel
  | RouteKind.PC, route_channel =>
    dec.decode_message_type data = midi.MessageType.PROGRAM_CHANGE ∧
      matches_channel route_channel (dec.decode_program_change data).channel

instance (dec : Decoder) (data : MidiDataByte) :
    ∀ (kind : RouteKind) (route_channel : Nat), Decidable (kind.takes dec data route_channel)
  | RouteKind.RAW, _ => inferInstanceAs (Decidable (matches_channel _ _))
  | RouteKind.KEYBOARD, _ => inferInstanceAs (Decidable (_ ∨ _))
  | RouteKind.CC _, _ => inferInstanceAs (Decidable (_ ∧ _))
  | RouteKind.PC, _ => inferInstanceAs (Decidable (_ ∧ _))

/-- The route matches the message received on `port`: it was connected on that input port
and it takes the message. -/
def Route.matches (dec : Decoder) (r : Route) (port : Int) (data : MidiDataByte) : Prop :=
  r.midi_input = port ∧ r.kind.takes dec data r.channel

instance (dec : Decoder) (r : Route) (port : Int) (data : MidiDataByte) :
    Decidable (r.matches dec port data) :=
  inferInstanceAs (Decidable (_ ∧ _))

/-- The event made for a route from the message. -/
def Route.event (dec : Decoder) (r : Route) (data : MidiDataByte) (timestamp : Int) : Event :=
  match r.kind with
  | RouteKind.RAW => make_wrapped_midi_event r.connection (List.ofFn data) 4 timestamp
  | RouteKind.KEYBOARD =>
    if dec.decode_message_type data = midi.MessageType.NOTE_ON then
      make_note_on_event r.connection (dec.decode_note_on data) timestamp
    else make_note_off_event r.connection (dec.decode_note_off data) timestamp
  | RouteKind.CC _ =>
    (make_param_change_event r.connection (dec.decode_control_change data) timestamp).1
  | RouteKind.PC =>
    make_program_change_event r.connection (dec.decode_program_change data) timestamp

/-- The events posted for a route when the message is received on `port`: its event when
it matches, none otherwise. -/
def Route.posted (dec : Decoder) (r : Route) (port : Int) (data : MidiDataByte)
    (timestamp : Int) : List Event :=
  if r.matches dec port data then [r.event dec data timestamp] else []

/-- The events that one route contributes to the four parts of what `send_midi` posts: the
raw-in entries at `OMNI` and at the channel, and the entries of the table `kind` at `OMNI`
and at the channel `channel` of the decoded message. -/
def Route.parts (dec : Decoder) (r : Route) (port : Int) (data : MidiDataByte)
    (timestamp : Int) (kind : RouteKind) (channel : Nat) (f : InputConnection → Event) :
    List Event :=
  ((if r.kind = RouteKind.RAW ∧ r.midi_input = port ∧ r.channel = midi.MidiChannel.OMNI then
      [make_wrapped_midi_event r.connection (List.ofFn data) 4 timestamp] else []) ++
    (if r.kind = RouteKind.RAW ∧ r.midi_input = port ∧
        r.channel = dec.decode_channel (data 0) then
      [make_wrapped_midi_event r.connection (List.ofFn data) 4 timestamp] else [])) ++
  ((if r.kind = kind ∧ r.midi_input = port ∧ r.channel = midi.MidiChannel.OMNI then
      [f r.connection] else []) ++
    (if r.kind = kind ∧ r.midi_input = port ∧ r.channel = channel then
      [f r.connection] else []))

/-- The connections of the routes of a kind, an input port and a channel, in order. -/
def table_of (routes : List Route) (kind : RouteKind) (port : Int) (channel : Nat) :
    List InputConnection :=
  (routes.filter (fun r => r.kind = kind ∧ r.midi_input = port ∧ r.channel = channel)).map
    (fun r => r.connection)

/-- The routing tables of the dispatcher hold the connections of the routes connected. -/
def Connected.Inv (s : Connected) : Prop :=
  (∀ port ch, routes_at s.dispatcher._kb_routes_in port ch =
      table_of s.routes RouteKind.KEYBOARD port ch) ∧
    (∀ port ch, routes_at s.dispatcher._raw_routes_in port ch =
      table_of s.routes RouteKind.RAW port ch) ∧
    (∀ port ch, routes_at s.dispatcher._pc_routes port ch =
      table_of s.routes RouteKind.PC port ch) ∧
    (∀ port cc ch, cc_routes_at s.dispatcher._cc_routes port cc ch =
      table_of s.routes (RouteKind.CC cc) port ch)

/-- The decoded channels of a message are midi channels, 0 to 15. -/
def Decoder.channels_in_range (dec : Decoder) (data : MidiDataByte) : Prop :=
  dec.decode_channel (data 0) < midi.MidiChannel.OMNI ∧
    (dec.decode_note_on data).channel < midi.MidiChannel.OMNI ∧
    (dec.decode_note_off data).channel < midi.MidiChannel.OMNI ∧
    (dec.decode_control_change data).channel < midi.MidiChannel.OMNI ∧
    (dec.decode_program_change data).channel < midi.MidiChannel.OMNI

instance (dec : Decoder) (data : MidiDataByte) : Decidable (dec.channels_in_range data) :=
  inferInstanceAs (Decidable (_ ∧ _))

/-- Modelled from the spec: a decoder for the channel voice messages of the unit tests: the
status byte holds the message type in its high and the channel in its low four bits
(`0x92` is a note-on on channel 2, `0x83` a note-off on channel 3, `0xB4` a control change
on channel 4, `0xC5` a program change on channel 5), followed by the data bytes. -/
def status_byte_decoder : Decoder where
  decode_message_type := fun data =>
    if data 0 / 16 = 8 then midi.MessageType.NOTE_OFF
    else if data 0 / 16 = 9 then midi.MessageType.NOTE_ON
    else if data 0 / 16 = 11 then midi.MessageType.CONTROL_CHANGE
    else if data 0 / 16 = 12 then midi.MessageType.PROGRAM_CHANGE
    else midi.MessageType.UNKNOWN
  decode_channel := fun byte => byte % 16
  decode_note_off := fun data => ⟨data 0 % 16, data 1, data 2⟩
  decode_note_on := fun data => ⟨data 0 % 16, data 1, data 2⟩
  decode_control_change := fun data => ⟨data 0 % 16, data 1, data 2⟩
  decode_program_change := fun data => ⟨data 0 % 16, data 1⟩

/-- Modelled from the spec: the function `MidiDispatcher::clear_connections` of
midi_dispatcher.cpp, which is not among the sources. Its declaration, midi_dispatcher.h:172-176,
says that it "Clears all connections made with connect_kb_to_track and
connect_cc_to_parameter": the keyboard-in table and the cc-in table become empty maps, the
other members keep their values. -/
def MidiDispatcher.clear_connections (d : MidiDispatcher) : MidiDispatcher :=
  { d with _kb_routes_in := fun _ => none, _cc_routes := fun _ => none }

/-- The kinds of the routes made by `connect_kb_to_track` and `connect_cc_to_parameter`,
which `clear_connections` clears. -/
def RouteKind.cleared : RouteKind → Bool
  | RouteKind.KEYBOARD => true
  | RouteKind.CC _ => true
  | RouteKind.PC => false
  | RouteKind.RAW => false

/-- The call `clear_connections()` on a dispatcher with its routes: the keyboard and
control-change routes are no longer connected. -/
def Connected.clear_connections (s : Connected) : Connected :=
  ⟨s.dispatcher.clear_connections, s.routes.filter (fun r => !r.kind.cleared)⟩

/-- The calls `calls` on a new dispatcher, then `clear_connections()`, then the calls
`later`. -/
def Connected.run_cleared (eng : EngineNames) (calls later : List ConnectCall) : Connected :=
  later.foldl (Connected.step eng) (Connected.run eng calls).clear_connections

end midi_dispatcher

/-! ### Engine events and the audio frontend -/

namespace event

/-- Modelled from the spec: the part of `RtEvent` (library/rt_event.h, not among the
sources) made by the `to_rt_event` functions that event.h defines inline: the members of
the tagged union for tempo, time signature, playing mode and sync mode, each made by its
factory with a sample offset and the value carried; `other` stands for the remaining
members, which are routed to processors. -/
inductive RtEvent where
  | make_tempo_event (sample_offset : Int) (tempo : ℚ)
  | make_time_signature_event (sample_offset : Int) (signature : engine.TimeSignature)
  | make_playing_mode_event (sample_offset : Int) (mode : engine.PlayingMode)
  | make_sync_mode_event (sample_offset : Int) (mode : engine.SyncMode)
  | other
  deriving DecidableEq

/-- The tempo carried by a tempo event. -/
def RtEvent.tempo : RtEvent → Option ℚ
  | make_tempo_event _ tempo => some tempo
  | _ => none

/-- The class `SetEngineTempoEvent` of event.h:567-581, with the timestamp of the base
class. -/
structure SetEngineTempoEvent where
  _tempo : ℚ
  _timestamp : Int
  deriving DecidableEq

namespace SetEngineTempoEvent

def maps_to_rt_event (_ : SetEngineTempoEvent) : Bool := true

def to_rt_event (e : SetEngineTempoEvent) (sample_offset : Int) : RtEvent :=
  RtEvent.make_tempo_event sample_offset e._tempo

end SetEngineTempoEvent

/-- The class `SetEngineTimeSignatureEvent` of event.h:583-597. -/
structure SetEngineTimeSignatureEvent where
  _signature : engine.TimeSignature
  _timestamp : Int
  deriving DecidableEq

namespace SetEngineTimeSignatureEvent

def maps_to_rt_event (_ : SetEngineTimeSignatureEvent) : Bool := true

def to_rt_event (e : SetEngineTimeSignatureEvent) (sample_offset : Int) : RtEvent :=
  RtEvent.make_time_signature_event sample_offset e._signature

end SetEngineTimeSignatureEvent

/-- The class `SetEnginePlayingModeStateEvent` of event.h:599-613. -/
structure SetEnginePlayingModeStateEvent where
  _mode : engine.PlayingMode
  _timestamp : Int
  deriving DecidableEq

namespace SetEnginePlayingModeStateEvent

def maps_to_rt_event (_ : SetEnginePlayingModeStateEvent) : Bool := true

def to_rt_event (e : SetEnginePlayingModeStateEvent) (sample_offset : Int) : RtEvent :=
  RtEvent.make_playing_mode_event sample_offset e._mode

end SetEnginePlayingModeStateEvent

/-- The class `SetEngineSyncModeEvent` of event.h:615-629. -/
structure SetEngineSyncModeEvent where
  _mode : engine.SyncMode
  _timestamp : Int
  deriving DecidableEq

namespace SetEngineSyncModeEvent

def maps_to_rt_event (_ : SetEngineSyncModeEvent) : Bool := true

def to_rt_event (e : SetEngineSyncModeEvent) (sample_offset : Int) : RtEvent :=
  RtEvent.make_sync_mode_event sample_offset e._mode

end SetEngineSyncModeEvent

/-- The classes that event.h defines: `Event` and the classes derived from it. -/
inductive EventClass where
  | Event
  | KeyboardEvent
  | ParameterChangeEvent
  | StringPropertyChangeEvent
  | DataPropertyChangeEvent
  | ParameterChangeNotificationEvent
  | SetProcessorBypassEvent
  | EngineEvent
  | AddTrackEvent
  | RemoveTrackEvent
  | AddProcessorEvent
  | RemoveProcessorEvent
  | ProgramChangeEvent
  | EngineNotificationEvent
  | ClippingNotificationEvent
  | AsynchronousWorkEvent
  | AsynchronousProcessorWorkEvent
  | AsynchronousProcessorWorkCompletionEvent
  | AsynchronousBlobDeleteEvent
  | SetEngineTempoEvent
  | SetEngineTimeSignatureEvent
  | SetEnginePlayingModeStateEvent
  | SetEngineSyncModeEvent
  deriving DecidableEq, Repr

namespace EventClass

/-- The base class named in the head of each class of event.h; `Event` has none. -/
def base : EventClass → Option EventClass
  | .Event => none
  | .KeyboardEvent => some .Event
  | .ParameterChangeEvent => some .Event
  | .StringPropertyChangeEvent => some .ParameterChangeEvent
  | .DataPropertyChangeEvent => some .ParameterChangeEvent
  | .ParameterChangeNotificationEvent => some .ParameterChangeEvent
  | .SetProcessorBypassEvent => some .Event
  | .EngineEvent => some .Event
  | .AddTrackEvent => some .EngineEvent
  | .RemoveTrackEvent => some .EngineEvent
  | .AddProcessorEvent => some .EngineEvent
  | .RemoveProcessorEvent => some .EngineEvent
  | .ProgramChangeEvent => some .EngineEvent
  | .EngineNotificationEvent => some .Event
  | .ClippingNotificationEvent => some .EngineNotificationEvent
  | .AsynchronousWorkEvent => some .Event
  | .AsynchronousProcessorWorkEvent => some .AsynchronousWorkEvent
  | .AsynchronousProcessorWorkCompletionEvent => some .Event
  | .AsynchronousBlobDeleteEvent => some .AsynchronousWorkEvent
  | .SetEngineTempoEvent => some .Event
  | .SetEngineTimeSignatureEvent => some .Event
  | .SetEnginePlayingModeStateEvent => some .Event
  | .SetEngineSyncModeEvent => some .Event

/-- What the body of each class declares for `maps_to_rt_event()`: the value returned by
the declaration in that class (event.h:101, 186, 231, 318, 334, 546, 573, 589, 605, 621), or
`none` when the class has no declaration of its own. -/
def declares_maps_to_rt_event : EventClass → Option Bool
  | .Event => some false
  | .KeyboardEvent => some true
  | .ParameterChangeEvent => some true
  | .ParameterChangeNotificationEvent => some false
  | .SetProcessorBypassEvent => some true
  | .AsynchronousProcessorWorkCompletionEvent => some true
  | .SetEngineTempoEvent => some true
  | .SetEngineTimeSignatureEvent => some true
  | .SetEnginePlayingModeStateEvent => some true
  | .SetEngineSyncModeEvent => some true
  | _ => none

/-- What the body of each class declares for `process_asynchronously()` (event.h:80, 353,
502), or `none` when the class has no declaration of its own. -/
def declares_process_asynchronously : EventClass → Option Bool
  | .Event => some false
  | .EngineEvent => some true
  | .AsynchronousWorkEvent => some true
  | _ => none

/-- The call of a virtual function on an object of class `c`: the declaration of `c`
itself or else that of the nearest base class that has one, looked up through at most
`depth` classes; `none` when no declaration is found within them. -/
def virtual_call (declares : EventClass → Option Bool) : Nat → EventClass → Option Bool
  | 0, _ => none
  | depth + 1, c =>
    match declares c with
    | some value => some value
    | none =>
      match c.base with
      | some b => virtual_call declares depth b
      | none => none

/-- The number of classes of event.h, a bound on the length of an inheritance chain. -/
def CLASSES : Nat := 23

/-- The result of `maps_to_rt_event()` on an object of class `c`. -/
def maps_to_rt_event (c : EventClass) : Option Bool :=
  virtual_call declares_maps_to_rt_event CLASSES c

/-- The result of `process_asynchronously()` on an object of class `c`. -/
def process_asynchronously (c : EventClass) : Option Bool :=
  virtual_call declares_process_asynchronously CLASSES c

end EventClass

end event

namespace engine

/-- Modelled from the spec: the function `Transport::set_time_signature`, declared in
transport.h and defined in transport.cpp, which is not among the sources: the signature is
stored (the values derived from it are recomputed by `set_time`). -/
def Transport.set_time_signature (t : Transport) (signature : TimeSignature) : Transport :=
  { t with _time_signature := signature }

/-- Modelled from the spec: the state of the engine that the posting of a typed event and
`process_chunk` act on in scenario 3 (audio_engine.cpp and the event dispatcher are not
among the sources): the realtime flag, the main-in ring of RT events, oldest first, and the
transport. -/
structure AudioEngine where
  _realtime : Bool
  _main_in_queue : List event.RtEvent
  _transport : Transport

namespace AudioEngine

/-- Modelled from the spec: the capacity of the RT event ring, "fixed capacity (default
100)". -/
def RING_CAPACITY : Nat := 100

/-- Modelled from the spec: the event dispatcher's handling of a typed tempo event: "if
`maps_to_rt_event()` and realtime is enabled: convert to RtEvent, push to the main-in
ring"; the push fails on a full ring. The result is `none` when the event is not pushed. -/
def post_event (e : AudioEngine) (event : event.SetEngineTempoEvent) (sample_offset : Int) :
    Option AudioEngine :=
  if event.maps_to_rt_event = true ∧ e._realtime = true ∧
      e._main_in_queue.length < RING_CAPACITY then
    some { e with _main_in_queue := e._main_in_queue ++ [event.to_rt_event sample_offset] }
  else none

/-- Modelled from the spec: step 1-2 of `process_chunk` for one event drained from the ring:
an engine-internal event for tempo, time signature, playing mode or sync mode is applied
to the transport; any other event is routed to a processor. -/
def apply_rt_event (t : Transport) : event.RtEvent → Transport
  | event.RtEvent.make_tempo_event _ tempo => t.set_tempo tempo
  | event.RtEvent.make_time_signature_event _ signature => t.set_time_signature signature
  | event.RtEvent.make_playing_mode_event _ mode => t.set_playing_mode mode
  | event.RtEvent.make_sync_mode_event _ mode => t.set_sync_mode mode
  | event.RtEvent.other => t

/-- Modelled from the spec: the effect of `AudioEngine::process_chunk` on the ring and the
transport settings: the ring is drained in order and each event applied. The audio steps
of the chunk and the advance of the sample count are not modelled. -/
def process_chunk (e : AudioEngine) : AudioEngine :=
  { e with _main_in_queue := [],
           _transport := e._main_in_queue.foldl apply_rt_event e._transport }

end AudioEngine

end engine

namespace audio_frontend

/-- A call that an audio frontend makes on the engine, with its arguments; the sample
buffers are the lists of their samples. -/
inductive EngineCall (RtEvent : Type) where
  | send_rt_event (event : RtEvent)
  | update_time (timestamp : Int) (samples : Int)
  | process_chunk (in_buffer : List ℚ) (out_buffer : List ℚ)
  deriving DecidableEq

/-- The function `XenomaiRaspaFrontend::_internal_process_callback`,
xenomai_raspa_frontend.cpp:85-100, as the list of the calls it makes on the engine, in
order: the event queue is drained into `send_rt_event`, the output buffer is cleared and
`process_chunk` is called on the two buffers. -/
def _internal_process_callback {RtEvent : Type} (_event_queue : List RtEvent)
    (input : List ℚ) (output : List ℚ) : List (EngineCall RtEvent) :=
  _event_queue.map EngineCall.send_rt_event ++
    [EngineCall.process_chunk input (output.map (fun _ => 0))]

/-- The call is an `update_time` call. -/
def EngineCall.is_update_time {RtEvent : Type} : EngineCall RtEvent → Bool
  | EngineCall.update_time _ _ => true
  | _ => false

/-- The call is a `process_chunk` call. -/
def EngineCall.is_process_chunk {RtEvent : Type} : EngineCall RtEvent → Bool
  | EngineCall.process_chunk _ _ => true
  | _ => false

end audio_frontend

end sushi

/-! ## Theorems -/

namespace sushi

namespace receiver

/-! ### The inner loop -/

theorem stash_nil (S id : Nat) : stash S id [] = [] := rfl

theorem stash_append (S id : Nat) (l₁ l₂ : List RtEvent) :
    stash S id (l₁ ++ l₂) = stash S id l₁ ++ stash S id l₂ := by
  simp [stash]

theorem stash_cons_other (S id : Nat) (e : RtEvent) (l : List RtEvent)
    (h1 : S ≤ e.type) (h2 : e.event_id ≠ id) :
    stash S id (e :: l) = Node.ofEvent e :: stash S id l := by
  simp [stash, h1, h2]

theorem stash_cons_skip (S id : Nat) (e : RtEvent) (l : List RtEvent)
    (h : ¬ (S ≤ e.type ∧ e.event_id ≠ id)) :
    stash S id (e :: l) = stash S id l := by
  simp only [stash]
  rw [List.filter_cons_of_neg]
  simpa using h

theorem mem_stash (S id : Nat) (l : List RtEvent) (m : Node) :
    m ∈ stash S id l ↔ ∃ e ∈ l, (S ≤ e.type ∧ e.event_id ≠ id) ∧ Node.ofEvent e = m := by
  simp [stash, and_assoc]

theorem stash_id_ne (S id : Nat) (l : List RtEvent) (m : Node) (h : m ∈ stash S id l) :
    m.id ≠ id := by
  obtain ⟨e, _, ⟨_, h2⟩, rfl⟩ := (mem_stash S id l m).1 h
  exact h2

/-- The inner loop pops a prefix of the queue and leaves the rest. -/
theorem drain_split (S id : Nat) (q : List RtEvent) (rl : List Node) :
    q = (drain S id q rl).popped ++ (drain S id q rl).queue := by
  induction q generalizing rl with
  | nil => simp [drain]
  | cons e q ih =>
    simp only [drain]
    split_ifs
    · simp
    · simpa using ih _
    · simpa using ih _

/-- The inner loop appends to the receive list exactly the stash of what it popped. -/
theorem drain_receive_list (S id : Nat) (q : List RtEvent) (rl : List Node) :
    (drain S id q rl).receive_list = rl ++ stash S id (drain S id q rl).popped := by
  induction q generalizing rl with
  | nil => simp [drain, stash]
  | cons e q ih =>
    simp only [drain]
    split_ifs with h1 h2
    · simp [stash, h2]
    · simp only [ih, List.append_assoc, List.singleton_append]
      rw [stash_cons_other S id e _ h1 h2]
    · simp only [ih]
      rw [stash_cons_skip S id e _ (fun h => h1 h.1)]

/-- When the inner loop ends because the queue is empty, it has popped the whole queue and
none of the returnable events had the awaited id. -/
theorem drain_none (S id : Nat) (q : List RtEvent) (rl : List Node)
    (h : (drain S id q rl).returned = none) :
    (drain S id q rl).queue = [] ∧ (drain S id q rl).popped = q ∧
      ∀ e ∈ q, S ≤ e.type → e.event_id ≠ id := by
  induction q generalizing rl with
  | nil => simp [drain]
  | cons e q ih =>
    by_cases h1 : S ≤ e.type
    · by_cases h2 : e.event_id = id
      · simp [drain, h1, h2] at h
      · simp only [drain, h1, h2, if_true, if_false] at h ⊢
        obtain ⟨a, b, c⟩ := ih _ h
        refine ⟨a, by simp [b], ?_⟩
        intro x hx
        rcases List.mem_cons.1 hx with rfl | hx
        · exact fun _ => h2
        · exact c x hx
    · simp only [drain, h1, if_false] at h ⊢
      obtain ⟨a, b, c⟩ := ih _ h
      refine ⟨a, by simp [b], ?_⟩
      intro x hx
      rcases List.mem_cons.1 hx with rfl | hx
      · exact fun hS => absurd hS h1
      · exact c x hx

/-- When the inner loop returns, the last event it popped is returnable, has the awaited id
and gives the value returned; no earlier popped returnable event has the awaited id. -/
theorem drain_some (S id : Nat) (q : List RtEvent) (rl : List Node) (b : Bool)
    (h : (drain S id q rl).returned = some b) :
    ∃ init e, (drain S id q rl).popped = init ++ [e] ∧ S ≤ e.type ∧ e.event_id = id ∧
      b = (e.status == EventStatus.HANDLED_OK) ∧
      ∀ x ∈ init, S ≤ x.type → x.event_id ≠ id := by
  induction q generalizing rl with
  | nil => simp [drain] at h
  | cons e q ih =>
    by_cases h1 : S ≤ e.type
    · by_cases h2 : e.event_id = id
      · simp only [drain, h1, h2, if_true, Option.some.injEq] at h ⊢
        exact ⟨[], e, by simp, h1, h2, h.symm, by simp⟩
      · simp only [drain, h1, h2, if_true, if_false] at h ⊢
        obtain ⟨init, x, hp, hx1, hx2, hb, hinit⟩ := ih _ h
        refine ⟨e :: init, x, by simp [hp], hx1, hx2, hb, ?_⟩
        intro y hy
        rcases List.mem_cons.1 hy with rfl | hy
        · exact fun _ => h2
        · exact hinit y hy
    · simp only [drain, h1, if_false] at h ⊢
      obtain ⟨init, x, hp, hx1, hx2, hb, hinit⟩ := ih _ h
      refine ⟨e :: init, x, by simp [hp], hx1, hx2, hb, ?_⟩
      intro y hy
      rcases List.mem_cons.1 hy with rfl | hy
      · exact fun hS => absurd hS h1
      · exact hinit y hy

/-- The inner loop runs to the end of a queue without a returnable event of the awaited
id. -/
theorem drain_returned_none (S id : Nat) (q : List RtEvent) (rl : List Node)
    (h : ∀ e ∈ q, S ≤ e.type → e.event_id ≠ id) :
    (drain S id q rl).returned = none := by
  induction q generalizing rl with
  | nil => simp [drain]
  | cons e q ih =>
    simp only [drain]
    split_ifs with h1 h2
    · exact absurd h2 (h e (List.mem_cons_self _ _) h1)
    · exact ih _ (fun x hx => h x (List.mem_cons_of_mem _ hx))
    · exact ih _ (fun x hx => h x (List.mem_cons_of_mem _ hx))

/-! ### The scan of the receive list -/

theorem scan_none_iff (id : Nat) (l : List Node) :
    scan id l = none ↔ ∀ n ∈ l, n.id ≠ id := by
  induction l with
  | nil => simp [scan]
  | cons n l ih =>
    simp only [scan]
    split_ifs with h
    · simp [h]
    · cases hs : scan id l with
      | none => simpa [h] using ih.1 hs
      | some p =>
        simp only [List.mem_cons, forall_eq_or_imp, false_iff, not_and, reduceCtorEq]
        intro _ hall
        rw [ih.2 hall] at hs
        exact Option.noConfusion hs

/-- A successful scan returns the status of the first entry with the awaited id and
erases that entry, keeping all others in order. -/
theorem scan_some (id : Nat) (l l' : List Node) (s : Bool) (h : scan id l = some (s, l')) :
    ∃ a n b, l = a ++ n :: b ∧ l' = a ++ b ∧ n.id = id ∧ n.status = s ∧
      ∀ m ∈ a, m.id ≠ id := by
  induction l generalizing l' s with
  | nil => simp [scan] at h
  | cons n l ih =>
    simp only [scan] at h
    split_ifs at h with hn
    · simp only [Option.some.injEq, Prod.mk.injEq] at h
      exact ⟨[], n, l, by simp, by simp [h.2], hn, h.1, by simp⟩
    · cases hs : scan id l with
      | none => simp [hs] at h
      | some p =>
        obtain ⟨s1, r1⟩ := p
        simp only [hs, Option.some.injEq, Prod.mk.injEq] at h
        obtain ⟨a, m, b, hl, hl', hm1, hm2, ha⟩ := ih r1 s1 hs
        refine ⟨n :: a, m, b, by simp [hl], by simp [← h.2, hl'], hm1, by rw [hm2, h.1], ?_⟩
        intro x hx
        rcases List.mem_cons.1 hx with rfl | hx
        · exact hn
        · exact ha x hx

/-! ### The outer loop -/

theorem wait_loop_zero (S id : Nat) (rl : List Node) (q : List RtEvent)
    (arr : List (List RtEvent)) :
    wait_loop S id 0 rl q arr = ⟨false, rl, q, [], 0⟩ := rfl

/-- A round whose inner loop returns. -/
theorem wait_loop_returned (S id n : Nat) (rl : List Node) (q : List RtEvent)
    (arr : List (List RtEvent)) (b : Bool) (h : (drain S id q rl).returned = some b) :
    wait_loop S id (n + 1) rl q arr =
      ⟨b, (drain S id q rl).receive_list, (drain S id q rl).queue,
        (drain S id q rl).popped, 0⟩ := by
  simp only [wait_loop, h]

/-- A round whose scan of the receive list returns. -/
theorem wait_loop_scanned (S id n : Nat) (rl : List Node) (q : List RtEvent)
    (arr : List (List RtEvent)) (b : Bool) (rl' : List Node)
    (h : (drain S id q rl).returned = none)
    (hs : scan id (drain S id q rl).receive_list = some (b, rl')) :
    wait_loop S id (n + 1) rl q arr =
      ⟨b, rl', (drain S id q rl).queue, (drain S id q rl).popped, 0⟩ := by
  simp only [wait_loop, h, hs]

/-- A round that reaches the sleep. -/
theorem wait_loop_sleep (S id n : Nat) (rl : List Node) (q : List RtEvent)
    (arr : List (List RtEvent))
    (h : (drain S id q rl).returned = none)
    (hs : scan id (drain S id q rl).receive_list = none) :
    wait_loop S id (n + 1) rl q arr =
      { wait_loop S id n (rl ++ stash S id q) (arr.headD []) arr.tail with
        popped := q ++ (wait_loop S id n (rl ++ stash S id q) (arr.headD []) arr.tail).popped
        retries := (wait_loop S id n (rl ++ stash S id q) (arr.headD []) arr.tail).retries + 1 }
      := by
  obtain ⟨hq, hp, _⟩ := drain_none S id q rl h
  have hrl := drain_receive_list S id q rl
  rw [hp] at hrl
  rw [hrl] at hs
  simp only [wait_loop, h, hs, hq, hp, hrl, List.nil_append]

/-- The three ways a round can go. -/
theorem wait_loop_cases (S id : Nat) (rl : List Node) (q : List RtEvent) :
    (∃ b, (drain S id q rl).returned = some b) ∨
    ((drain S id q rl).returned = none ∧
      ∃ b rl', scan id (drain S id q rl).receive_list = some (b, rl')) ∨
    ((drain S id q rl).returned = none ∧ scan id (drain S id q rl).receive_list = none) := by
  cases h : (drain S id q rl).returned with
  | some b => exact Or.inl ⟨b, rfl⟩
  | none =>
    cases hs : scan id (drain S id q rl).receive_list with
    | none => exact Or.inr (Or.inr ⟨rfl, rfl⟩)
    | some p => exact Or.inr (Or.inl ⟨rfl, p.1, p.2, rfl⟩)

/-- The local `retries` never exceeds the number of rounds. -/
theorem wait_loop_retries_le (S id n : Nat) (rl : List Node) (q : List RtEvent)
    (arr : List (List RtEvent)) : (wait_loop S id n rl q arr).retries ≤ n := by
  induction n generalizing rl q arr with
  | zero => simp [wait_loop]
  | succ n ih =>
    rcases wait_loop_cases S id rl q with ⟨b, h⟩ | ⟨h, b, rl', hs⟩ | ⟨h, hs⟩
    · rw [wait_loop_returned S id n rl q arr b h]; simp
    · rw [wait_loop_scanned S id n rl q arr b rl' h hs]; simp
    · rw [wait_loop_sleep S id n rl q arr h hs]
      simpa using ih _ _ _

/-- Queue accounting: the events in the queue at the start and those arriving during the
completed sleeps are the events popped followed by the events left in the queue. -/
theorem wait_loop_split (S id n : Nat) (rl : List Node) (q : List RtEvent)
    (arr : List (List RtEvent)) :
    q ++ (arr.take (wait_loop S id n rl q arr).retries).flatten =
      (wait_loop S id n rl q arr).popped ++ (wait_loop S id n rl q arr).queue := by
  induction n generalizing rl q arr with
  | zero => simp [wait_loop]
  | succ n ih =>
    rcases wait_loop_cases S id rl q with ⟨b, h⟩ | ⟨h, b, rl', hs⟩ | ⟨h, hs⟩
    · rw [wait_loop_returned S id n rl q arr b h]
      simpa using drain_split S id q rl
    · rw [wait_loop_scanned S id n rl q arr b rl' h hs]
      simpa using drain_split S id q rl
    · rw [wait_loop_sleep S id n rl q arr h hs]
      have := ih (rl ++ stash S id q) (arr.headD []) arr.tail
      cases arr with
      | nil => simpa using this
      | cons a arr => simpa [List.append_assoc] using this

/-- A popped returnable event with the awaited id is the last event popped and decides the
value returned. -/
theorem wait_loop_awaited (S id n : Nat) (rl : List Node) (q : List RtEvent)
    (arr : List (List RtEvent)) (e : RtEvent)
    (he : e ∈ (wait_loop S id n rl q arr).popped) (h1 : S ≤ e.type) (h2 : e.event_id = id) :
    (wait_loop S id n rl q arr).popped.getLast? = some e ∧
      (wait_loop S id n rl q arr).result = (e.status == EventStatus.HANDLED_OK) := by
  induction n generalizing rl q arr with
  | zero => simp [wait_loop] at he
  | succ n ih =>
    rcases wait_loop_cases S id rl q with ⟨b, h⟩ | ⟨h, b, rl', hs⟩ | ⟨h, hs⟩
    · rw [wait_loop_returned S id n rl q arr b h] at he ⊢
      obtain ⟨init, x, hp, _, _, hb, hinit⟩ := drain_some S id q rl b h
      simp only [hp, List.mem_append, List.mem_singleton] at he ⊢
      rcases he with he | rfl
      · exact absurd h2 (hinit e he h1)
      · exact ⟨by simp, hb⟩
    · rw [wait_loop_scanned S id n rl q arr b rl' h hs] at he
      obtain ⟨_, hp, hno⟩ := drain_none S id q rl h
      simp only [hp] at he
      exact absurd h2 (hno e he h1)
    · rw [wait_loop_sleep S id n rl q arr h hs] at he ⊢
      obtain ⟨_, _, hno⟩ := drain_none S id q rl h
      simp only [List.mem_append] at he
      rcases he with he | he
      · exact absurd h2 (hno e he h1)
      · obtain ⟨hl, hr⟩ := ih _ _ _ he
        refine ⟨?_, hr⟩
        simp only
        rw [List.getLast?_append, hl]
        rfl

/-- The receive list after the loop: the list before it followed by the stash of the
popped events, from which a scan that returned has erased the first entry with the awaited
id. -/
theorem wait_loop_receive_list (S id n : Nat) (rl : List Node) (q : List RtEvent)
    (arr : List (List RtEvent)) :
    (wait_loop S id n rl q arr).receive_list =
        rl ++ stash S id (wait_loop S id n rl q arr).popped ∨
      ∃ a m b, rl ++ stash S id (wait_loop S id n rl q arr).popped = a ++ m :: b ∧
        (wait_loop S id n rl q arr).receive_list = a ++ b ∧ m.id = id ∧
        m.status = (wait_loop S id n rl q arr).result ∧ ∀ x ∈ a, x.id ≠ id := by
  induction n generalizing rl q arr with
  | zero => simp [wait_loop, stash]
  | succ n ih =>
    rcases wait_loop_cases S id rl q with ⟨b, h⟩ | ⟨h, b, rl', hs⟩ | ⟨h, hs⟩
    · rw [wait_loop_returned S id n rl q arr b h]
      exact Or.inl (drain_receive_list S id q rl)
    · rw [wait_loop_scanned S id n rl q arr b rl' h hs]
      obtain ⟨a, m, c, hl, hl', hm1, hm2, ha⟩ := scan_some id _ _ _ hs
      rw [drain_receive_list] at hl
      exact Or.inr ⟨a, m, c, hl, hl', hm1, hm2, ha⟩
    · rw [wait_loop_sleep S id n rl q arr h hs]
      simp only [stash_append, ← List.append_assoc]
      exact ih _ _ _

/-- No entry with another id than the awaited one is lost from the receive list, and every
popped returnable event with another id has its entry in it. -/
theorem wait_loop_keeps (S id n : Nat) (rl : List Node) (q : List RtEvent)
    (arr : List (List RtEvent)) (m : Node) (hm : m.id ≠ id)
    (h : m ∈ rl ++ stash S id (wait_loop S id n rl q arr).popped) :
    m ∈ (wait_loop S id n rl q arr).receive_list := by
  rcases wait_loop_receive_list S id n rl q arr with heq | ⟨a, x, b, hl, hl', hx, _, _⟩
  · rw [heq]; exact h
  · rw [hl] at h
    rw [hl']
    simp only [List.mem_append, List.mem_cons] at h ⊢
    rcases h with h | rfl | h
    · exact Or.inl h
    · exact absurd hx hm
    · exact Or.inr h

/-- The loop adds nothing to the receive list but the stash of the popped events. -/
theorem wait_loop_receive_list_subset (S id n : Nat) (rl : List Node) (q : List RtEvent)
    (arr : List (List RtEvent)) (m : Node)
    (h : m ∈ (wait_loop S id n rl q arr).receive_list) :
    m ∈ rl ++ stash S id (wait_loop S id n rl q arr).popped := by
  rcases wait_loop_receive_list S id n rl q arr with heq | ⟨a, x, b, hl, hl', _, _, _⟩
  · rw [← heq]; exact h
  · rw [hl]
    rw [hl'] at h
    simp only [List.mem_append, List.mem_cons] at h ⊢
    rcases h with h | h
    · exact Or.inl h
    · exact Or.inr (Or.inr h)

/-- A loop that completes all its rounds returns false, has found no entry with the
awaited id in the receive list and has popped no returnable event with that id. -/
theorem wait_loop_timeout (S id n : Nat) (rl : List Node) (q : List RtEvent)
    (arr : List (List RtEvent)) (h : (wait_loop S id n rl q arr).retries = n) :
    (wait_loop S id n rl q arr).result = false ∧
      (wait_loop S id n rl q arr).receive_list =
        rl ++ stash S id (wait_loop S id n rl q arr).popped ∧
      (0 < n → ∀ m ∈ (wait_loop S id n rl q arr).receive_list, m.id ≠ id) ∧
      ∀ e ∈ (wait_loop S id n rl q arr).popped, S ≤ e.type → e.event_id ≠ id := by
  induction n generalizing rl q arr with
  | zero => simp [wait_loop, stash]
  | succ n ih =>
    rcases wait_loop_cases S id rl q with ⟨b, hd⟩ | ⟨hd, b, rl', hs⟩ | ⟨hd, hs⟩
    · rw [wait_loop_returned S id n rl q arr b hd] at h
      simp at h
    · rw [wait_loop_scanned S id n rl q arr b rl' hd hs] at h
      simp at h
    · rw [wait_loop_sleep S id n rl q arr hd hs] at h ⊢
      simp only [add_left_inj] at h
      obtain ⟨h1, h2, h3, h4⟩ := ih _ _ _ h
      obtain ⟨_, hp, hno⟩ := drain_none S id q rl hd
      have hscan := (scan_none_iff id _).1 hs
      rw [drain_receive_list, hp] at hscan
      refine ⟨h1, ?_, ?_, ?_⟩
      · simp only [stash_append, ← List.append_assoc]
        exact h2
      · intro _ m hm
        simp only at hm
        rw [h2] at hm
        rcases List.mem_append.1 hm with hm | hm
        · exact hscan m hm
        · exact stash_id_ne S id _ m hm
      · intro e he
        simp only [List.mem_append] at he
        rcases he with he | he
        · exact hno e he
        · exact h4 e he

/-! ### Completions -/

theorem mem_completions (S id : Nat) (rl : List Node) (ev : List RtEvent) (b : Bool) :
    b ∈ completions S id rl ev ↔
      (∃ m ∈ rl, m.id = id ∧ m.status = b) ∨
      (∃ e ∈ ev, (S ≤ e.type ∧ e.event_id = id) ∧
        (e.status == EventStatus.HANDLED_OK) = b) := by
  simp [completions, and_assoc]

theorem completions_eq_nil (S id : Nat) (rl : List Node) (ev : List RtEvent)
    (h1 : ∀ m ∈ rl, m.id ≠ id) (h2 : ∀ e ∈ ev, S ≤ e.type → e.event_id ≠ id) :
    completions S id rl ev = [] := by
  simp only [completions, List.append_eq_nil, List.map_eq_nil_iff, List.filter_eq_nil_iff,
    decide_eq_true_eq, not_and]
  exact ⟨h1, h2⟩

theorem completions_mono (S id : Nat) (rl : List Node) (ev₁ ev₂ : List RtEvent) (b : Bool)
    (h : b ∈ completions S id rl ev₁) : b ∈ completions S id rl (ev₁ ++ ev₂) := by
  rw [mem_completions] at h ⊢
  rcases h with h | ⟨e, he, h⟩
  · exact Or.inl h
  · exact Or.inr ⟨e, List.mem_append_left _ he, h⟩

/-- After a round that reached the sleep, the completions that can still be found are
those of the start of the round. -/
theorem completions_sleep (S id : Nat) (rl : List Node) (q ev : List RtEvent)
    (h1 : ∀ m ∈ rl, m.id ≠ id) (h2 : ∀ e ∈ q, S ≤ e.type → e.event_id ≠ id) :
    completions S id (rl ++ stash S id q) ev = completions S id rl (q ++ ev) := by
  have a1 : rl.filter (fun n => decide (n.id = id)) = [] := by
    simpa [List.filter_eq_nil_iff] using h1
  have a2 : (stash S id q).filter (fun n => decide (n.id = id)) = [] := by
    simp only [List.filter_eq_nil_iff, decide_eq_true_eq]
    exact fun m hm => stash_id_ne S id q m hm
  have a3 : q.filter (fun e => decide (S ≤ e.type ∧ e.event_id = id)) = [] := by
    simpa [List.filter_eq_nil_iff] using h2
  simp only [completions, List.filter_append, a1, a2, a3, List.nil_append, List.map_nil]

theorem take_succ_flatten (arr : List (List RtEvent)) (n : Nat) :
    (arr.take (n + 1)).flatten = arr.headD [] ++ (arr.tail.take n).flatten := by
  cases arr <;> simp

/-- The value returned by a loop of at least one round is the status of a completion with
the awaited id that is in the receive list or is polled, or it is false and there is no
such completion. -/
theorem wait_loop_result (S id n : Nat) (rl : List Node) (q : List RtEvent)
    (arr : List (List RtEvent)) :
    (wait_loop S id (n + 1) rl q arr).result ∈
        completions S id rl (q ++ (arr.take n).flatten) ∨
      ((wait_loop S id (n + 1) rl q arr).result = false ∧
        completions S id rl (q ++ (arr.take n).flatten) = []) := by
  induction n generalizing rl q arr with
  | zero =>
    rcases wait_loop_cases S id rl q with ⟨b, h⟩ | ⟨h, b, rl', hs⟩ | ⟨h, hs⟩
    · rw [wait_loop_returned S id 0 rl q arr b h]
      obtain ⟨init, x, hp, hx1, hx2, hb, _⟩ := drain_some S id q rl b h
      refine Or.inl ((mem_completions _ _ _ _ _).2 (Or.inr ⟨x, ?_, ⟨hx1, hx2⟩, hb.symm⟩))
      have := drain_split S id q rl
      rw [hp] at this
      rw [this]
      simp
    · rw [wait_loop_scanned S id 0 rl q arr b rl' h hs]
      obtain ⟨a, m, c, hl, _, hm1, hm2, _⟩ := scan_some id _ _ _ hs
      have hm : m ∈ (drain S id q rl).receive_list := by rw [hl]; simp
      rw [drain_receive_list] at hm
      rcases List.mem_append.1 hm with hm | hm
      · exact Or.inl ((mem_completions _ _ _ _ _).2 (Or.inl ⟨m, hm, hm1, hm2⟩))
      · exact absurd hm1 (stash_id_ne S id _ m hm)
    · rw [wait_loop_sleep S id 0 rl q arr h hs]
      obtain ⟨_, hp, hno⟩ := drain_none S id q rl h
      have hscan := (scan_none_iff id _).1 hs
      rw [drain_receive_list, hp] at hscan
      refine Or.inr ⟨rfl, completions_eq_nil S id rl _ ?_ ?_⟩
      · exact fun m hm => hscan m (List.mem_append_left _ hm)
      · simpa using hno
  | succ n ih =>
    rcases wait_loop_cases S id rl q with ⟨b, h⟩ | ⟨h, b, rl', hs⟩ | ⟨h, hs⟩
    · rw [wait_loop_returned S id (n + 1) rl q arr b h]
      obtain ⟨init, x, hp, hx1, hx2, hb, _⟩ := drain_some S id q rl b h
      refine Or.inl ((mem_completions _ _ _ _ _).2 (Or.inr ⟨x, ?_, ⟨hx1, hx2⟩, hb.symm⟩))
      have := drain_split S id q rl
      rw [hp] at this
      rw [this]
      simp
    · rw [wait_loop_scanned S id (n + 1) rl q arr b rl' h hs]
      obtain ⟨a, m, c, hl, _, hm1, hm2, _⟩ := scan_some id _ _ _ hs
      have hm : m ∈ (drain S id q rl).receive_list := by rw [hl]; simp
      rw [drain_receive_list] at hm
      rcases List.mem_append.1 hm with hm | hm
      · exact Or.inl ((mem_completions _ _ _ _ _).2 (Or.inl ⟨m, hm, hm1, hm2⟩))
      · exact absurd hm1 (stash_id_ne S id _ m hm)
    · rw [wait_loop_sleep S id (n + 1) rl q arr h hs]
      obtain ⟨_, hp, hno⟩ := drain_none S id q rl h
      have hscan := (scan_none_iff id _).1 hs
      rw [drain_receive_list, hp] at hscan
      have hrl : ∀ m ∈ rl, m.id ≠ id := fun m hm => hscan m (List.mem_append_left _ hm)
      have key := ih (rl ++ stash S id q) (arr.headD []) arr.tail
      rw [completions_sleep S id rl q _ hrl hno, ← take_succ_flatten] at key
      exact key

/-- In a receive list with at most one entry of id `X`, an entry of that id splits the
list into two parts without that id. -/
theorem split_unique (X : Nat) (l : List Node) (m : Node) (hm : m ∈ l) (hid : m.id = X)
    (hu : (l.filter (fun n => n.id = X)).length ≤ 1) :
    ∃ a b, l = a ++ m :: b ∧ (∀ x ∈ a, x.id ≠ X) ∧ ∀ x ∈ b, x.id ≠ X := by
  obtain ⟨a, b, rfl⟩ := List.append_of_mem hm
  refine ⟨a, b, rfl, ?_, ?_⟩
  · intro x hx hxid
    have h1 : 0 < (a.filter (fun n => decide (n.id = X))).length :=
      List.length_pos_of_mem (List.mem_filter.2 ⟨hx, by simpa using hxid⟩)
    simp [List.filter_append, List.filter_cons, hid] at hu
    omega
  · intro x hx hxid
    have h1 : 0 < (b.filter (fun n => decide (n.id = X))).length :=
      List.length_pos_of_mem (List.mem_filter.2 ⟨hx, by simpa using hxid⟩)
    simp [List.filter_append, List.filter_cons, hid] at hu
    omega

/-- The scan finds an entry that no entry of the same id precedes. -/
theorem scan_append (id : Nat) (a b : List Node) (m : Node) (hm : m.id = id)
    (ha : ∀ x ∈ a, x.id ≠ id) : scan id (a ++ m :: b) = some (m.status, a ++ b) := by
  induction a with
  | nil => simp [scan, hm]
  | cons x a ih =>
    have hx : x.id ≠ id := ha x (List.mem_cons_self _ _)
    have := ih (fun y hy => ha y (List.mem_cons_of_mem _ hy))
    simp [scan, hx, this]

/-- A popped returnable event with another id than the awaited one has its entry in the
receive list after the call. -/
theorem popped_other_stashed (S id : Nat) (rl : List Node) (q : List RtEvent)
    (arr : List (List RtEvent)) (e : RtEvent)
    (hpop : e ∈ (wait_for_response S id rl q arr).popped)
    (hret : S ≤ e.type) (hid : e.event_id ≠ id) :
    Node.ofEvent e ∈ (wait_for_response S id rl q arr).receive_list := by
  apply wait_loop_keeps S id MAX_RETRIES rl q arr (Node.ofEvent e) hid
  exact List.mem_append_right _ ((mem_stash _ _ _ _).2 ⟨e, hpop, ⟨hret, hid⟩, rfl⟩)

/-! ### Claims on `wait_for_response` -/

/-- C1: `wait_for_response(id, timeout)` returns true only if a completion with event id
`id` and status `HANDLED_OK` is in the receive list or among the events polled; it returns
false only if there is no completion with that id or one with another status. When the
completions with that id agree on their status (in particular when there is one at most,
ids being unique), it returns true if and only if a completion with that id is found and
its status is `HANDLED_OK`. -/
theorem C1_wait_for_response_result (STOP_ENGINE id : Nat) (receive_list : List Node)
    (queue : List RtEvent) (arrivals : List (List RtEvent)) :
    ((wait_for_response STOP_ENGINE id receive_list queue arrivals).result = true →
        true ∈ completions STOP_ENGINE id receive_list (polled queue arrivals)) ∧
      ((wait_for_response STOP_ENGINE id receive_list queue arrivals).result = false →
        completions STOP_ENGINE id receive_list (polled queue arrivals) = [] ∨
        false ∈ completions STOP_ENGINE id receive_list (polled queue arrivals)) ∧
      ((∀ a ∈ completions STOP_ENGINE id receive_list (polled queue arrivals),
          ∀ b ∈ completions STOP_ENGINE id receive_list (polled queue arrivals), a = b) →
        ((wait_for_response STOP_ENGINE id receive_list queue arrivals).result = true ↔
          true ∈ completions STOP_ENGINE id receive_list (polled queue arrivals))) := by
  have key := wait_loop_result STOP_ENGINE id 99 receive_list queue arrivals
  have e1 : wait_loop STOP_ENGINE id (99 + 1) receive_list queue arrivals =
      wait_for_response STOP_ENGINE id receive_list queue arrivals := rfl
  have e2 : queue ++ (arrivals.take 99).flatten = polled queue arrivals := rfl
  rw [e1, e2] at key
  refine ⟨?_, ?_, ?_⟩
  · intro h
    rcases key with key | ⟨key, _⟩
    · rwa [h] at key
    · rw [h] at key; exact Bool.noConfusion key
  · intro h
    rcases key with key | ⟨_, key⟩
    · rw [h] at key; exact Or.inr key
    · exact Or.inl key
  · intro hu
    constructor
    · intro h
      rcases key with key | ⟨key, _⟩
      · rwa [h] at key
      · rw [h] at key; exact Bool.noConfusion key
    · intro h
      rcases key with key | ⟨_, key⟩
      · exact hu _ key _ h
      · rw [key] at h; exact absurd h (List.not_mem_nil _)

/-- Witness for C1: the awaited completion, `HANDLED_OK`, is behind another one in the
queue. -/
theorem C1_wait_for_response_result_witness :
    (wait_for_response 20 7 [⟨3, false⟩]
        [⟨20, 4, .HANDLED_ERROR⟩, ⟨20, 7, .HANDLED_OK⟩] []).result = true ∧
      true ∈ completions 20 7 [⟨3, false⟩]
        (polled [⟨20, 4, .HANDLED_ERROR⟩, ⟨20, 7, .HANDLED_OK⟩] []) :=
  ⟨by decide, (C1_wait_for_response_result 20 7 [⟨3, false⟩]
      [⟨20, 4, .HANDLED_ERROR⟩, ⟨20, 7, .HANDLED_OK⟩] []).1 (by decide)⟩

/-- C2: no completion is lost by `wait_for_response`. The events a call pops are exactly
those missing from the queue afterwards, and every returnable event (type at least
`STOP_ENGINE`) among them either has the awaited id, and is then the last event popped and
decides the value returned, or is in the receive list after the call with its id and its
`HANDLED_OK` flag. -/
theorem C2_no_completion_lost (STOP_ENGINE id : Nat) (receive_list : List Node)
    (queue : List RtEvent) (arrivals : List (List RtEvent)) (event : RtEvent)
    (hpop : event ∈ (wait_for_response STOP_ENGINE id receive_list queue arrivals).popped)
    (hret : STOP_ENGINE ≤ event.type) :
    queue ++ (arrivals.take
          (wait_for_response STOP_ENGINE id receive_list queue arrivals).retries).flatten =
        (wait_for_response STOP_ENGINE id receive_list queue arrivals).popped ++
          (wait_for_response STOP_ENGINE id receive_list queue arrivals).queue ∧
      (event.event_id = id →
        (wait_for_response STOP_ENGINE id receive_list queue arrivals).popped.getLast? =
            some event ∧
          (wait_for_response STOP_ENGINE id receive_list queue arrivals).result =
            (event.status == EventStatus.HANDLED_OK)) ∧
      (event.event_id ≠ id →
        (⟨event.event_id, event.status == EventStatus.HANDLED_OK⟩ : Node) ∈
          (wait_for_response STOP_ENGINE id receive_list queue arrivals).receive_list) := by
  refine ⟨wait_loop_split STOP_ENGINE id MAX_RETRIES receive_list queue arrivals, ?_, ?_⟩
  · intro hid
    exact wait_loop_awaited STOP_ENGINE id MAX_RETRIES receive_list queue arrivals event
      hpop hret hid
  · intro hid
    apply wait_loop_keeps STOP_ENGINE id MAX_RETRIES receive_list queue arrivals
      (Node.ofEvent event) hid
    exact List.mem_append_right _
      ((mem_stash _ _ _ _).2 ⟨event, hpop, ⟨hret, hid⟩, rfl⟩)

/-- Witness for C2: a call awaiting id 7 pops the completion of id 4 first. -/
theorem C2_no_completion_lost_witness :
    (⟨4, false⟩ : Node) ∈ (wait_for_response 20 7 []
      [⟨20, 4, .HANDLED_ERROR⟩, ⟨20, 7, .HANDLED_OK⟩] []).receive_list :=
  (C2_no_completion_lost 20 7 [] [⟨20, 4, .HANDLED_ERROR⟩, ⟨20, 7, .HANDLED_OK⟩] []
    ⟨20, 4, .HANDLED_ERROR⟩ (by decide) (by decide)).2.2 (by decide)

/-- C3: a caller arriving after its completion still sees it. Let a call awaiting `Y` pop
the completion `event` of another id `X`, so that it is stashed, and let it be the only
entry for `X` in the receive list. A later call awaiting `X`, on a queue (empty or not)
without a returnable event of id `X`, returns the status of `event` (true iff
`HANDLED_OK`) in its first round, and erases that entry from the receive list, which then
has no entry for `X`. -/
theorem C3_late_caller_sees_completion (STOP_ENGINE X Y : Nat) (receive_list : List Node)
    (queue : List RtEvent) (arrivals : List (List RtEvent)) (event : RtEvent)
    (queue' : List RtEvent) (arrivals' : List (List RtEvent))
    (hXY : X ≠ Y)
    (hpop : event ∈ (wait_for_response STOP_ENGINE Y receive_list queue arrivals).popped)
    (hret : STOP_ENGINE ≤ event.type) (hid : event.event_id = X)
    (huniq : ((wait_for_response STOP_ENGINE Y receive_list queue arrivals).receive_list.filter
      (fun n => n.id = X)).length ≤ 1)
    (hqueue : ∀ e ∈ queue', STOP_ENGINE ≤ e.type → e.event_id ≠ X) :
    (wait_for_response STOP_ENGINE X
        (wait_for_response STOP_ENGINE Y receive_list queue arrivals).receive_list
        queue' arrivals').result = (event.status == EventStatus.HANDLED_OK) ∧
      (wait_for_response STOP_ENGINE X
        (wait_for_response STOP_ENGINE Y receive_list queue arrivals).receive_list
        queue' arrivals').retries = 0 ∧
      (wait_for_response STOP_ENGINE X
        (wait_for_response STOP_ENGINE Y receive_list queue arrivals).receive_list
        queue' arrivals').receive_list =
        (wait_for_response STOP_ENGINE Y receive_list queue arrivals).receive_list.erase
          ⟨X, event.status == EventStatus.HANDLED_OK⟩ ++ stash STOP_ENGINE X queue' ∧
      ∀ m ∈ (wait_for_response STOP_ENGINE X
        (wait_for_response STOP_ENGINE Y receive_list queue arrivals).receive_list
        queue' arrivals').receive_list, m.id ≠ X := by
  have hne : event.event_id ≠ Y := by rw [hid]; exact hXY
  have hmem := (popped_other_stashed STOP_ENGINE Y receive_list queue arrivals event hpop hret hne)
  generalize (wait_for_response STOP_ENGINE Y receive_list queue arrivals).receive_list = rl
    at hmem huniq ⊢
  have hnode : Node.ofEvent event = ⟨X, event.status == EventStatus.HANDLED_OK⟩ := by
    simp [Node.ofEvent, hid]
  rw [hnode] at hmem
  obtain ⟨a, b, rfl, ha, hb⟩ := split_unique X rl _ hmem rfl huniq
  have hd := drain_returned_none STOP_ENGINE X queue' (a ++ ⟨X, event.status ==
    EventStatus.HANDLED_OK⟩ :: b) hqueue
  obtain ⟨_, hp, _⟩ := drain_none STOP_ENGINE X queue' _ hd
  have hrl := drain_receive_list STOP_ENGINE X queue'
    (a ++ ⟨X, event.status == EventStatus.HANDLED_OK⟩ :: b)
  rw [hp] at hrl
  have hs : scan X (drain STOP_ENGINE X queue' (a ++ ⟨X, event.status ==
      EventStatus.HANDLED_OK⟩ :: b)).receive_list =
      some (event.status == EventStatus.HANDLED_OK, a ++ (b ++ stash STOP_ENGINE X queue')) := by
    rw [hrl, List.append_assoc, List.cons_append]
    exact scan_append X a _ ⟨X, event.status == EventStatus.HANDLED_OK⟩ rfl ha
  have hw : wait_for_response STOP_ENGINE X
      (a ++ ⟨X, event.status == EventStatus.HANDLED_OK⟩ :: b) queue' arrivals' = _ :=
    wait_loop_scanned STOP_ENGINE X 99 _ queue' arrivals' _ _ hd hs
  rw [hw]
  have hnotin : (⟨X, event.status == EventStatus.HANDLED_OK⟩ : Node) ∉ a :=
    fun h => ha _ h rfl
  refine ⟨rfl, rfl, ?_, ?_⟩
  · simp only
    rw [List.erase_append_right _ hnotin, List.erase_cons_head, List.append_assoc]
  · intro m hm
    simp only [List.mem_append] at hm
    rcases hm with hm | hm | hm
    · exact ha m hm
    · exact hb m hm
    · exact stash_id_ne STOP_ENGINE X queue' m hm

/-- Witness for C3: a call awaiting id 7 times out and stashes the completion of id 4; the
later call awaiting id 4 finds it with an empty queue. -/
theorem C3_late_caller_sees_completion_witness :
    (wait_for_response 20 4 (wait_for_response 20 7 [] [⟨20, 4, .HANDLED_OK⟩] []).receive_list
        [] []).result = (EventStatus.HANDLED_OK == EventStatus.HANDLED_OK) ∧
      (wait_for_response 20 4 (wait_for_response 20 7 [] [⟨20, 4, .HANDLED_OK⟩] []).receive_list
        [] []).retries = 0 :=
  ⟨(C3_late_caller_sees_completion 20 4 7 [] [⟨20, 4, .HANDLED_OK⟩] [] ⟨20, 4, .HANDLED_OK⟩
      [] [] (by decide) (by decide) (by decide) rfl (by decide) (by simp)).1,
   (C3_late_caller_sees_completion 20 4 7 [] [⟨20, 4, .HANDLED_OK⟩] [] ⟨20, 4, .HANDLED_OK⟩
      [] [] (by decide) (by decide) (by decide) rfl (by decide) (by simp)).2.1⟩

/-- Counterexample to C4: `wait_for_response(1)` times out on an empty queue; the completion
of id 1 arrives; a later `wait_for_response(2)` pops it, and afterwards the receive list
holds an entry for id 1. -/
theorem C4_counterexample :
    (wait_for_response 20 1 [] [] []).result = false ∧
      (wait_for_response 20 1 [] [] []).retries = MAX_RETRIES ∧
      (wait_for_response 20 2 (wait_for_response 20 1 [] [] []).receive_list
        ((wait_for_response 20 1 [] [] []).queue ++ [⟨20, 1, .HANDLED_OK⟩]) []).queue = [] ∧
      (wait_for_response 20 2 (wait_for_response 20 1 [] [] []).receive_list
        ((wait_for_response 20 1 [] [] []).queue ++ [⟨20, 1, .HANDLED_OK⟩]) []).receive_list =
        [⟨1, true⟩] := by
  decide

/-- C4, amended: a late completion is drained and retained. When `wait_for_response(X)` has
timed out it has returned false and left no entry for `X` in the receive list; when the
completion `event` for `X` arrives afterwards and a later call for another id `Y` pops it
from the queue, that call appends it to the receive list, which then holds an entry for
`X` with the `HANDLED_OK` flag of the completion. -/
theorem C4_late_completion_retained (STOP_ENGINE X Y : Nat) (receive_list : List Node)
    (queue : List RtEvent) (arrivals : List (List RtEvent)) (event : RtEvent)
    (queue' : List RtEvent) (arrivals' : List (List RtEvent))
    (htimeout : (wait_for_response STOP_ENGINE X receive_list queue arrivals).retries =
      MAX_RETRIES)
    (hXY : X ≠ Y) (hret : STOP_ENGINE ≤ event.type) (hid : event.event_id = X)
    (hpop : event ∈ (wait_for_response STOP_ENGINE Y
      (wait_for_response STOP_ENGINE X receive_list queue arrivals).receive_list
      queue' arrivals').popped) :
    (wait_for_response STOP_ENGINE X receive_list queue arrivals).result = false ∧
      (∀ m ∈ (wait_for_response STOP_ENGINE X receive_list queue arrivals).receive_list,
        m.id ≠ X) ∧
      (⟨X, event.status == EventStatus.HANDLED_OK⟩ : Node) ∈
        (wait_for_response STOP_ENGINE Y
          (wait_for_response STOP_ENGINE X receive_list queue arrivals).receive_list
          queue' arrivals').receive_list := by
  obtain ⟨h1, _, h3, _⟩ :=
    wait_loop_timeout STOP_ENGINE X MAX_RETRIES receive_list queue arrivals htimeout
  refine ⟨h1, h3 (by decide), ?_⟩
  have hne : event.event_id ≠ Y := by rw [hid]; exact hXY
  have := popped_other_stashed STOP_ENGINE Y _ queue' arrivals' event hpop hret hne
  simpa [Node.ofEvent, hid] using this

/-- Witness for C4, amended: the scenario of the counterexample. -/
theorem C4_late_completion_retained_witness :
    (⟨1, true⟩ : Node) ∈ (wait_for_response 20 2 (wait_for_response 20 1 [] [] []).receive_list
      [⟨20, 1, .HANDLED_OK⟩] []).receive_list :=
  (C4_late_completion_retained 20 1 2 [] [] [] ⟨20, 1, .HANDLED_OK⟩ [⟨20, 1, .HANDLED_OK⟩] []
    (by decide) (by decide) (by decide) rfl (by decide)).2.2

end receiver

/-! ### The ring -/

namespace memory_relaxed_aquire_release

namespace CircularFifo

variable {Element : Type} {Size : Nat}

theorem increment_val (idx : Fin (Size + 1)) :
    (increment idx).val = if idx.val + 1 = Size + 1 then 0 else idx.val + 1 := by
  simp only [increment]
  split_ifs with h
  · rw [h, Nat.mod_self]
  · exact Nat.mod_eq_of_lt (by have := idx.isLt; omega)

theorem distance_eq (head tail : Fin (Size + 1)) :
    distance head tail =
      if head.val ≤ tail.val then tail.val - head.val else tail.val + (Size + 1) - head.val := by
  simp only [distance]
  have h1 := head.isLt
  have h2 := tail.isLt
  split_ifs with h
  · have : tail.val + (Size + 1) - head.val = (tail.val - head.val) + (Size + 1) := by omega
    rw [this, Nat.add_mod_right]
    exact Nat.mod_eq_of_lt (by omega)
  · exact Nat.mod_eq_of_lt (by omega)

theorem distance_le (head tail : Fin (Size + 1)) : distance head tail ≤ Size := by
  rw [distance_eq]
  have h1 := head.isLt
  have h2 := tail.isLt
  split_ifs <;> omega

theorem distance_eq_zero_iff (head tail : Fin (Size + 1)) :
    distance head tail = 0 ↔ head = tail := by
  rw [distance_eq, Fin.ext_iff]
  have h1 := head.isLt
  have h2 := tail.isLt
  split_ifs <;> omega

theorem distance_increment_head (head tail : Fin (Size + 1)) (h : head ≠ tail) :
    distance head tail = distance (increment head) tail + 1 := by
  rw [distance_eq, distance_eq, increment_val]
  have h1 := head.isLt
  have h2 := tail.isLt
  have h3 : head.val ≠ tail.val := fun h' => h (Fin.ext h')
  split_ifs <;> omega

theorem distance_increment_tail (head tail : Fin (Size + 1)) (h : increment tail ≠ head) :
    distance head (increment tail) = distance head tail + 1 := by
  have h3 : (increment tail).val ≠ head.val := fun h' => h (Fin.ext h')
  rw [distance_eq, distance_eq]
  rw [increment_val] at h3 ⊢
  have h1 := head.isLt
  have h2 := tail.isLt
  split_ifs at h3 ⊢ <;> omega

theorem increment_tail_eq_head_iff (head tail : Fin (Size + 1)) :
    increment tail = head ↔ distance head tail = Size := by
  rw [distance_eq, Fin.ext_iff, increment_val]
  have h1 := head.isLt
  have h2 := tail.isLt
  split_ifs <;> omega

/-- Writing the slot at the tail appends the item to the slots between head and tail. -/
theorem slotsFrom_update (array : Fin (Size + 1) → Element) (tail : Fin (Size + 1))
    (item : Element) (n : Nat) (head : Fin (Size + 1)) (h : distance head tail = n) :
    slotsFrom (Function.update array tail item) head (n + 1) =
      slotsFrom array head n ++ [item] := by
  induction n generalizing head with
  | zero =>
    have := (distance_eq_zero_iff head tail).1 h
    subst this
    simp [slotsFrom]
  | succ n ih =>
    have hne : head ≠ tail := by
      intro heq
      rw [(distance_eq_zero_iff head tail).2 heq] at h
      omega
    have hd := distance_increment_head head tail hne
    have := ih (increment head) (by omega)
    rw [slotsFrom, this, Function.update_noteq hne]
    rfl

/-- The ring never holds more than `Size` elements. -/
theorem length_contents_le (f : CircularFifo Element Size) : f.contents.length ≤ Size := by
  have : ∀ (n : Nat) (idx : Fin (Size + 1)), (slotsFrom f._array idx n).length = n := by
    intro n
    induction n with
    | zero => intro idx; rfl
    | succ n ih => intro idx; simp [slotsFrom, ih]
  simp only [contents, this]
  exact distance_le _ _

theorem length_contents (f : CircularFifo Element Size) :
    f.contents.length = distance f._head f._tail := by
  have : ∀ (n : Nat) (idx : Fin (Size + 1)), (slotsFrom f._array idx n).length = n := by
    intro n
    induction n with
    | zero => intro idx; rfl
    | succ n ih => intro idx; simp [slotsFrom, ih]
  simp only [contents, this]

/-- The ring refuses a push exactly when it holds `Size` elements. -/
theorem push_false_iff (f : CircularFifo Element Size) (item : Element) :
    (f.push item).1 = false ↔ f.contents.length = Size := by
  rw [length_contents, ← increment_tail_eq_head_iff]
  simp only [push]
  split_ifs with h
  · simp [h]
  · simp only [ne_eq, not_not] at h
    simp [h]

/-- A refused push changes nothing. -/
theorem push_false (f : CircularFifo Element Size) (item : Element)
    (h : (f.push item).1 = false) : (f.push item).2 = f := by
  by_cases h' : increment f._tail ≠ f._head
  · simp [push, h'] at h
  · simp [push, h']

/-- An accepted push makes the item the newest element. -/
theorem push_true (f : CircularFifo Element Size) (item : Element)
    (h : (f.push item).1 = true) : (f.push item).2.contents = f.contents ++ [item] := by
  by_cases h' : increment f._tail ≠ f._head
  · have hp : f.push item = (true, { f with
        _array := Function.update f._array f._tail item, _tail := increment f._tail }) := by
      simp only [push]
      rw [if_pos h']
    rw [hp]
    simp only [contents]
    rw [distance_increment_tail _ _ h']
    exact slotsFrom_update f._array f._tail item _ f._head rfl
  · simp [push, h'] at h

/-- On an empty ring `pop` fails and changes nothing. -/
theorem pop_nil (f : CircularFifo Element Size) (h : f.contents = []) : f.pop = (none, f) := by
  have hl := length_contents f
  rw [h, List.length_nil] at hl
  have := (distance_eq_zero_iff _ _).1 hl.symm
  simp [pop, this]

/-- On a ring that is not empty `pop` takes the oldest element. -/
theorem pop_cons (f : CircularFifo Element Size) (x : Element) (rest : List Element)
    (h : f.contents = x :: rest) : f.pop.1 = some x ∧ f.pop.2.contents = rest := by
  have hl := length_contents f
  rw [h, List.length_cons] at hl
  have hne : f._head ≠ f._tail := by
    intro heq
    rw [(distance_eq_zero_iff _ _).2 heq] at hl
    omega
  have hd := distance_increment_head _ _ hne
  simp only [contents] at h
  rw [hd, slotsFrom] at h
  simp only [List.cons.injEq] at h
  simp only [pop, hne, if_false, contents]
  exact ⟨by rw [h.1], h.2⟩

theorem wasEmpty_iff (f : CircularFifo Element Size) : f.wasEmpty = true ↔ f.contents = [] := by
  rw [← List.length_eq_zero, length_contents, distance_eq_zero_iff]
  simp [wasEmpty]

end CircularFifo

end memory_relaxed_aquire_release

/-! ### Claims on `EventFifo` -/

namespace EventFifo

variable {BaseEvent : Type}

theorem contents_new (slots : Fin (MAX_EVENTS_IN_QUEUE + 1) → Option BaseEvent) :
    (EventFifo.new slots).contents = [] := by
  simp [EventFifo.new, contents, memory_relaxed_aquire_release.CircularFifo.contents,
    memory_relaxed_aquire_release.CircularFifo.distance,
    memory_relaxed_aquire_release.CircularFifo.slotsFrom]

theorem event_pop_nil (f : EventFifo BaseEvent) (h : f.contents = []) : f.pop = (none, f) := by
  have := memory_relaxed_aquire_release.CircularFifo.pop_nil f._fifo h
  simp [pop, this]

theorem event_pop_cons (f : EventFifo BaseEvent) (x : Option BaseEvent)
    (rest : List (Option BaseEvent)) (h : f.contents = x :: rest) :
    f.pop.1 = x ∧ f.pop.2.contents = rest := by
  obtain ⟨h1, h2⟩ := memory_relaxed_aquire_release.CircularFifo.pop_cons f._fifo x rest h
  cases hp : f._fifo.pop with
  | mk a g =>
    rw [hp] at h1 h2
    simp only at h1 h2
    subst h1
    simp only [pop, hp, contents]
    exact ⟨trivial, h2⟩

end EventFifo

namespace FifoRun

variable {BaseEvent : Type}

theorem inv_step (s : FifoRun BaseEvent) (call : FifoCall BaseEvent) (h : Inv s)
    (hcall : ∀ e, call = FifoCall.push e → e ≠ none) : Inv (s.step call) := by
  obtain ⟨h1, h2⟩ := h
  cases call with
  | push e =>
    cases hb : (s.fifo.push e).1 with
    | false =>
      have hf : (s.fifo._fifo.push e).1 = false := hb
      have := memory_relaxed_aquire_release.CircularFifo.push_false s.fifo._fifo e hf
      have hfifo : (s.fifo.push e).2 = s.fifo := by
        simp only [EventFifo.push, this]
      simp only [Inv, step, hb, hfifo, delivered, Bool.false_eq_true, if_false]
      exact ⟨h1, h2⟩
    | true =>
      have hf : (s.fifo._fifo.push e).1 = true := hb
      have := memory_relaxed_aquire_release.CircularFifo.push_true s.fifo._fifo e hf
      have hc : (s.fifo.push e).2.contents = s.fifo.contents ++ [e] := this
      simp only [Inv, step, hb, hc, delivered, if_true]
      refine ⟨by rw [h1, List.append_assoc]; rfl, ?_⟩
      intro p hp
      rcases List.mem_append.1 hp with hp | hp
      · exact h2 p hp
      · rw [List.mem_singleton.1 hp]; exact hcall e rfl
  | pop =>
    cases hc : s.fifo.contents with
    | nil =>
      rw [hc, List.append_nil] at h1
      simp only [Inv, step, EventFifo.event_pop_nil s.fifo hc, delivered, List.filter_append, hc]
      simp only [List.filter_cons, Option.isSome_none, Bool.false_eq_true, if_false,
        List.filter_nil, List.append_nil]
      exact ⟨h1, h2⟩
    | cons x rest =>
      obtain ⟨hp1, hp2⟩ := EventFifo.event_pop_cons s.fifo x rest hc
      have hx : x ≠ none := h2 x (by rw [h1, hc]; simp)
      have hsome : x.isSome = true := Option.isSome_iff_ne_none.2 hx
      simp only [Inv, step, hp1, hp2, delivered, List.filter_append, List.filter_cons, hsome,
        if_true, List.filter_nil]
      refine ⟨?_, h2⟩
      rw [h1, hc]
      simp [delivered]

theorem inv_foldl (calls : List (FifoCall BaseEvent)) (s : FifoRun BaseEvent) (h : Inv s)
    (hcalls : ∀ e, FifoCall.push e ∈ calls → e ≠ none) : Inv (calls.foldl step s) := by
  induction calls generalizing s with
  | nil => exact h
  | cons c calls ih =>
    simp only [List.foldl_cons]
    apply ih
    · exact inv_step s c h (fun e he => hcalls e (by rw [he]; exact List.mem_cons_self _ _))
    · exact fun e he => hcalls e (List.mem_cons_of_mem _ he)

end FifoRun

/-- C5: `EventFifo::push` returns false exactly when the fifo already holds its capacity of
`MAX_EVENTS_IN_QUEUE` (100) events, which it never exceeds; a push that returns true makes
the event the newest element; a push that returns false leaves the fifo unchanged. -/
theorem C5_push_false_iff_full {BaseEvent : Type} (f : EventFifo BaseEvent)
    (event : Option BaseEvent) :
    MAX_EVENTS_IN_QUEUE = 100 ∧
      f.contents.length ≤ MAX_EVENTS_IN_QUEUE ∧
      ((f.push event).1 = false ↔ f.contents.length = MAX_EVENTS_IN_QUEUE) ∧
      ((f.push event).1 = true → (f.push event).2.contents = f.contents ++ [event]) ∧
      ((f.push event).1 = false → (f.push event).2 = f) := by
  refine ⟨rfl, memory_relaxed_aquire_release.CircularFifo.length_contents_le f._fifo,
    memory_relaxed_aquire_release.CircularFifo.push_false_iff f._fifo event,
    fun h => memory_relaxed_aquire_release.CircularFifo.push_true f._fifo event h, ?_⟩
  intro h
  have := memory_relaxed_aquire_release.CircularFifo.push_false f._fifo event h
  simp only [EventFifo.push, this]

/-- C6: `EventFifo` delivers events in enqueue order. After every sequence of pushes of
events (non-null pointers) and pops on a new fifo, the non-null values returned by the pops
are, in order, a prefix of the events of the pushes that returned true, and the next `pop`
returns `nullptr` exactly when all of those events have been delivered, which is also when
`empty()` returns true. -/
theorem C6_fifo_order {BaseEvent : Type}
    (slots : Fin (MAX_EVENTS_IN_QUEUE + 1) → Option BaseEvent)
    (calls : List (FifoCall BaseEvent))
    (hcalls : ∀ e, FifoCall.push e ∈ calls → e ≠ none) :
    (FifoRun.run calls (EventFifo.new slots)).delivered <+:
        (FifoRun.run calls (EventFifo.new slots)).pushed ∧
      ((FifoRun.run calls (EventFifo.new slots)).fifo.pop.1 = none ↔
        (FifoRun.run calls (EventFifo.new slots)).delivered.length =
          (FifoRun.run calls (EventFifo.new slots)).pushed.length) ∧
      ((FifoRun.run calls (EventFifo.new slots)).fifo.empty = true ↔
        (FifoRun.run calls (EventFifo.new slots)).delivered.length =
          (FifoRun.run calls (EventFifo.new slots)).pushed.length) := by
  have hinv : FifoRun.Inv (FifoRun.run calls (EventFifo.new slots)) := by
    apply FifoRun.inv_foldl calls _ _ hcalls
    exact ⟨by simp [FifoRun.delivered, EventFifo.contents_new], by simp⟩
  obtain ⟨h1, h2⟩ := hinv
  generalize FifoRun.run calls (EventFifo.new slots) = s at h1 h2 ⊢
  have hlen : s.delivered.length = s.pushed.length ↔ s.fifo.contents = [] := by
    rw [h1, List.length_append, ← List.length_eq_zero]
    omega
  refine ⟨⟨s.fifo.contents, h1.symm⟩, ?_, ?_⟩
  · rw [hlen]
    cases hc : s.fifo.contents with
    | nil => simp [EventFifo.event_pop_nil s.fifo hc]
    | cons x rest =>
      obtain ⟨hp1, _⟩ := EventFifo.event_pop_cons s.fifo x rest hc
      have hx : x ≠ none := h2 x (by rw [h1, hc]; simp)
      simp [hp1, hx]
  · rw [hlen]
    exact memory_relaxed_aquire_release.CircularFifo.wasEmpty_iff s.fifo._fifo

/-- Witness for C5: after 100 accepted pushes on a new fifo the next push returns false
and leaves the fifo unchanged. -/
theorem C5_push_false_iff_full_witness :
    ((FifoRun.run (List.replicate 100 (FifoCall.push (some 0)))
        (EventFifo.new (fun _ => (none : Option Nat)))).fifo.push (some 1)).2 =
      (FifoRun.run (List.replicate 100 (FifoCall.push (some 0)))
        (EventFifo.new (fun _ => (none : Option Nat)))).fifo :=
  (C5_push_false_iff_full (FifoRun.run (List.replicate 100 (FifoCall.push (some 0)))
    (EventFifo.new (fun _ => (none : Option Nat)))).fifo (some 1)).2.2.2.2 (by decide)

/-- Witness for C6: two pushes and three pops on a new fifo. -/
theorem C6_fifo_order_witness :
    (FifoRun.run [.push (some 1), .push (some 2), .pop, .pop, .pop]
        (EventFifo.new (fun _ => (none : Option Nat)))).popped = [some 1, some 2, none] ∧
      (FifoRun.run [.push (some 1), .push (some 2), .pop, .pop, .pop]
        (EventFifo.new (fun _ => (none : Option Nat)))).delivered <+:
      (FifoRun.run [.push (some 1), .push (some 2), .pop, .pop, .pop]
        (EventFifo.new (fun _ => (none : Option Nat)))).pushed :=
  ⟨by decide, (C6_fifo_order (fun _ => (none : Option Nat))
    [.push (some 1), .push (some 2), .pop, .pop, .pop] (by simp)).1⟩

/-! ### Claims on `Transport` -/

namespace engine

theorem playing_mode_calls (t : Transport) (cs : List TransportCall) :
    (t.calls cs).playing_mode = last_playing_mode t.playing_mode cs := by
  induction cs generalizing t with
  | nil => rfl
  | cons c cs ih =>
    have := ih (t.call c)
    cases c <;> simpa [Transport.calls, last_playing_mode] using this

/-- C7: in every transport state reached from a newly constructed transport by a sequence
of `set_playing_mode`, `set_sync_mode`, `set_tempo` and `set_latency` calls, `playing()`
returns true if and only if the playing mode is not `STOPPED`; the playing mode is the one
of the last `set_playing_mode` call, or `PLAYING` when there was none. -/
theorem C7_playing_iff_not_stopped (sample_rate beats_per_bar : ℚ)
    (cs : List TransportCall) :
    (((Transport.new sample_rate beats_per_bar).calls cs).playing = true ↔
        ((Transport.new sample_rate beats_per_bar).calls cs).playing_mode ≠
          PlayingMode.STOPPED) ∧
      ((Transport.new sample_rate beats_per_bar).calls cs).playing_mode =
        last_playing_mode PlayingMode.PLAYING cs := by
  refine ⟨?_, playing_mode_calls _ cs⟩
  generalize (Transport.new sample_rate beats_per_bar).calls cs = t
  simp [Transport.playing, Transport.playing_mode]

/-- C8: a newly constructed `Transport` has tempo 120, time signature 4/4, sync mode
`INTERNAL`, playing mode `PLAYING`, sample count 0, and beat count, bar-start beat and
beat within the bar all 0. -/
theorem C8_transport_defaults (sample_rate beats_per_bar : ℚ) :
    (Transport.new sample_rate beats_per_bar).current_tempo = 120 ∧
      (Transport.new sample_rate beats_per_bar).current_time_signature = ⟨4, 4⟩ ∧
      (Transport.new sample_rate beats_per_bar).sync_mode = SyncMode.INTERNAL ∧
      (Transport.new sample_rate beats_per_bar).playing_mode = PlayingMode.PLAYING ∧
      (Transport.new sample_rate beats_per_bar).current_samples = 0 ∧
      (Transport.new sample_rate beats_per_bar).current_beats = 0 ∧
      (Transport.new sample_rate beats_per_bar).current_bar_start_beats = 0 ∧
      (Transport.new sample_rate beats_per_bar).current_bar_beats = 0 :=
  ⟨rfl, rfl, rfl, rfl, rfl, rfl, rfl, rfl⟩

end engine

/-! ### Claims on `PerformanceTimer` -/

namespace performance

theorem foldl_accumulate (_period : ℚ) (entries : List TimingLogPoint) (acc : Accumulator) :
    (entries.foldl (accumulate _period) acc).sum =
        acc.sum + (process_times _period entries).sum ∧
      (entries.foldl (accumulate _period) acc).min_value =
        (process_times _period entries).foldl min acc.min_value ∧
      (entries.foldl (accumulate _period) acc).max_value =
        (process_times _period entries).foldl max acc.max_value := by
  induction entries generalizing acc with
  | nil => simp [process_times]
  | cons e entries ih =>
    obtain ⟨h1, h2, h3⟩ := ih (accumulate _period acc e)
    simp only [List.foldl_cons, h1, h2, h3]
    simp [process_times, accumulate, add_assoc]

theorem foldl_min_spec (l : List ℚ) (a : ℚ) :
    l.foldl min a ≤ a ∧ (∀ v ∈ l, l.foldl min a ≤ v) ∧ (l.foldl min a = a ∨ l.foldl min a ∈ l) := by
  induction l generalizing a with
  | nil => simp
  | cons x l ih =>
    obtain ⟨h1, h2, h3⟩ := ih (min a x)
    simp only [List.foldl_cons, List.mem_cons, forall_eq_or_imp]
    refine ⟨le_trans h1 (min_le_left _ _), ⟨le_trans h1 (min_le_right _ _), h2⟩, ?_⟩
    rcases h3 with h3 | h3
    · rcases min_choice a x with h | h
      · left; rw [h3, h]
      · right; left; rw [h3, h]
    · right; right; exact h3

theorem foldl_max_spec (l : List ℚ) (a : ℚ) :
    a ≤ l.foldl max a ∧ (∀ v ∈ l, v ≤ l.foldl max a) ∧ (l.foldl max a = a ∨ l.foldl max a ∈ l) := by
  induction l generalizing a with
  | nil => simp
  | cons x l ih =>
    obtain ⟨h1, h2, h3⟩ := ih (max a x)
    simp only [List.foldl_cons, List.mem_cons, forall_eq_or_imp]
    refine ⟨le_trans (le_max_left _ _) h1, ⟨le_trans (le_max_right _ _) h1, h2⟩, ?_⟩
    rcases h3 with h3 | h3
    · rcases max_choice a x with h | h
      · left; rw [h3, h]
      · right; left; rw [h3, h]
    · right; right; exact h3

/-- What `_calculate_timings` returns: `avg_case` is the arithmetic mean of the values
`delta_time / period`; `min_case` is the least of 100 and these values; `max_case` is the
greatest of 0 and these values. -/
theorem calculate_timings_spec (_period : ℚ) (entries : List TimingLogPoint) :
    (_calculate_timings _period entries).avg_case =
        (process_times _period entries).sum / entries.length ∧
      ((_calculate_timings _period entries).min_case ≤ 100 ∧
        (∀ v ∈ process_times _period entries, (_calculate_timings _period entries).min_case ≤ v) ∧
        ((_calculate_timings _period entries).min_case = 100 ∨
          (_calculate_timings _period entries).min_case ∈ process_times _period entries)) ∧
      (0 ≤ (_calculate_timings _period entries).max_case ∧
        (∀ v ∈ process_times _period entries, v ≤ (_calculate_timings _period entries).max_case) ∧
        ((_calculate_timings _period entries).max_case = 0 ∨
          (_calculate_timings _period entries).max_case ∈ process_times _period entries)) := by
  obtain ⟨h1, h2, h3⟩ := foldl_accumulate _period entries ⟨100, 0, 0⟩
  simp only [_calculate_timings, h1, h2, h3, zero_add]
  exact ⟨trivial, foldl_min_spec _ 100, foldl_max_spec _ 0⟩

/-- C9, at the failing input: for the single log point with `delta_time = 101` and period 1
the only value of `delta_time / period` is 101, and `_calculate_timings` returns the average
101 and the maximum 101 but the minimum 100, the initial value of `min_value`. -/
theorem C9_calculate_timings_min_seed :
    process_times 1 [⟨0, 101⟩] = [101] ∧
      (_calculate_timings 1 [⟨0, 101⟩]).avg_case = 101 ∧
      (_calculate_timings 1 [⟨0, 101⟩]).max_case = 101 ∧
      (_calculate_timings 1 [⟨0, 101⟩]).min_case = 100 := by
  refine ⟨?_, ?_, ?_, ?_⟩ <;>
    norm_num [process_times, _calculate_timings, accumulate]

/-- Counterexample to C10: merging into a record whose average is 0 (as in a new record)
gives the new average, not 0.7 * 0 + 0.3 * new. -/
theorem C10_counterexample :
    (_merge_timings ⟨0, 100, 0⟩ ⟨1 / 2, 1 / 2, 1 / 2⟩).avg_case = 1 / 2 ∧
      (_merge_timings ⟨0, 100, 0⟩ ⟨1 / 2, 1 / 2, 1 / 2⟩).avg_case ≠
        7 / 10 * (0 : ℚ) + 3 / 10 * (1 / 2) := by
  norm_num [_merge_timings]

/-- C10, amended: for every previous record whose average is not 0 and every new batch
result, `_merge_timings` sets the merged average by exponential smoothing with factor 0.3,
merged.avg = 0.7 * prev.avg + 0.3 * new.avg (over exact arithmetic); when the previous
average is 0 the merged average is the new average. -/
theorem C10_merge_timings_avg (prev_timings new_timings : ProcessTimings) :
    (prev_timings.avg_case ≠ 0 →
        (_merge_timings prev_timings new_timings).avg_case =
          7 / 10 * prev_timings.avg_case + 3 / 10 * new_timings.avg_case) ∧
      (prev_timings.avg_case = 0 →
        (_merge_timings prev_timings new_timings).avg_case = new_timings.avg_case) := by
  constructor
  · intro h
    simp only [_merge_timings, h, if_false, AVERAGEING_FACTOR]
    norm_num
  · intro h
    simp only [_merge_timings, h, if_true]

/-- Witness for C10, amended: a previous average of 1 and a new average of 2 merge to
13/10. -/
theorem C10_merge_timings_avg_witness :
    (_merge_timings ⟨1, 1, 1⟩ ⟨2, 2, 2⟩).avg_case = 7 / 10 * (1 : ℚ) + 3 / 10 * 2 :=
  (C10_merge_timings_avg ⟨1, 1, 1⟩ ⟨2, 2, 2⟩).1 (by norm_num)

end performance

/-! ### Claims on the results map of `PerformanceTimer` -/

namespace performance

theorem merge_timings_min (prev_timings new_timings : ProcessTimings) :
    (_merge_timings prev_timings new_timings).min_case =
      min prev_timings.min_case new_timings.min_case := rfl

theorem merge_timings_max (prev_timings new_timings : ProcessTimings) :
    (_merge_timings prev_timings new_timings).max_case =
      max prev_timings.max_case new_timings.max_case := rfl

/-- Across a sequence of merges the minimum does not increase and the maximum does not
decrease. -/
theorem merge_all_bounds (prev_timings : ProcessTimings) (batches : List ProcessTimings) :
    (merge_all prev_timings batches).min_case ≤ prev_timings.min_case ∧
      prev_timings.max_case ≤ (merge_all prev_timings batches).max_case := by
  induction batches generalizing prev_timings with
  | nil => exact ⟨le_refl _, le_refl _⟩
  | cons b batches ih =>
    obtain ⟨h1, h2⟩ := ih (_merge_timings prev_timings b)
    simp only [merge_all, List.foldl_cons] at h1 h2 ⊢
    rw [merge_timings_min] at h1
    rw [merge_timings_max] at h2
    exact ⟨le_trans h1 (min_le_left _ _), le_trans (le_max_left _ _) h2⟩

theorem merge_all_append (prev_timings : ProcessTimings) (b₁ b₂ : List ProcessTimings) :
    merge_all prev_timings (b₁ ++ b₂) = merge_all (merge_all prev_timings b₁) b₂ := by
  simp [merge_all, List.foldl_append]

/-- C11: `_merge_timings` keeps running extrema: the merged minimum is the lesser of the
previous and the new minimum and the merged maximum the greater of the previous and the new
maximum; so across any sequence of merges, continued by any further merges, the minimum of
a record never increases and its maximum never decreases. -/
theorem C11_merge_timings_extrema (prev_timings new_timings : ProcessTimings)
    (batches more : List ProcessTimings) :
    (_merge_timings prev_timings new_timings).min_case =
        min prev_timings.min_case new_timings.min_case ∧
      (_merge_timings prev_timings new_timings).max_case =
        max prev_timings.max_case new_timings.max_case ∧
      (merge_all prev_timings (batches ++ more)).min_case ≤
        (merge_all prev_timings batches).min_case ∧
      (merge_all prev_timings batches).max_case ≤
        (merge_all prev_timings (batches ++ more)).max_case := by
  refine ⟨rfl, rfl, ?_, ?_⟩
  · rw [merge_all_append]
    exact (merge_all_bounds _ more).1
  · rw [merge_all_append]
    exact (merge_all_bounds _ more).2

/-! #### The map -/

theorem find_isSome_iff {V : Type} (m : IntMap V) (key : Int) :
    (IntMap.find m key).isSome = true ↔ key ∈ IntMap.keys m := by
  induction m with
  | nil => simp [IntMap.find, IntMap.keys]
  | cons e m ih =>
    obtain ⟨k, v⟩ := e
    simp only [IntMap.find, IntMap.keys, List.map_cons, List.mem_cons]
    split_ifs with h
    · simp [h]
    · simp only [h, false_or]
      exact ih

theorem find_set {V : Type} (m : IntMap V) (key : Int) (value : V) (key' : Int) :
    IntMap.find (IntMap.set m key value) key' =
      if key' = key then some value else IntMap.find m key' := by
  induction m with
  | nil => simp [IntMap.find, IntMap.set]
  | cons e m ih =>
    obtain ⟨k, v⟩ := e
    by_cases h1 : key < k
    · simp only [IntMap.set, h1, if_true, IntMap.find]
    · by_cases h2 : key = k
      · subst h2
        simp only [IntMap.set, h1, if_false, if_true, IntMap.find]
        by_cases hk : key' = key
        · simp only [hk, if_true]
        · simp only [hk, if_false]
      · simp only [IntMap.set, h1, h2, if_false, IntMap.find, ih]
        by_cases hk : key' = k
        · have hne : key' ≠ key := fun h => h2 (h ▸ hk)
          simp only [hk, if_true]
          rw [if_neg (fun h => h2 h.symm)]
        · simp only [hk, if_false]

theorem mem_keys_set {V : Type} (m : IntMap V) (key : Int) (value : V) (key' : Int) :
    key' ∈ IntMap.keys (IntMap.set m key value) ↔ key' = key ∨ key' ∈ IntMap.keys m := by
  rw [← find_isSome_iff, ← find_isSome_iff, find_set]
  split_ifs with h
  · simp [h]
  · simp [h]

theorem mem_keys_foldl_sort (drained : List TimingLogPoint)
    (acc : IntMap (List TimingLogPoint)) (key : Int) :
    key ∈ IntMap.keys (drained.foldl
        (fun sorted_data log_point =>
          IntMap.set sorted_data log_point.id
            ((IntMap.find sorted_data log_point.id).getD [] ++ [log_point])) acc) ↔
      key ∈ IntMap.keys acc ∨ ∃ p ∈ drained, p.id = key := by
  induction drained generalizing acc with
  | nil => simp
  | cons p drained ih =>
    simp only [List.foldl_cons, ih, mem_keys_set, List.mem_cons, exists_eq_or_imp]
    constructor
    · rintro ((h | h) | h)
      · exact Or.inr (Or.inl h.symm)
      · exact Or.inl h
      · exact Or.inr (Or.inr h)
    · rintro (h | h | h)
      · exact Or.inl (Or.inr h)
      · exact Or.inl (Or.inl h.symm)
      · exact Or.inr h

/-- The groups built by `_update_timings` are those of the node ids of the drained log
points. -/
theorem mem_keys_sort_data (drained : List TimingLogPoint) (key : Int) :
    key ∈ IntMap.keys (PerformanceTimer.sort_data drained) ↔ ∃ p ∈ drained, p.id = key := by
  simp only [PerformanceTimer.sort_data, mem_keys_foldl_sort]
  simp [IntMap.keys]

theorem mem_keys_foldl_update (default_timings : ProcessTimings) (_period : ℚ)
    (groups : IntMap (List TimingLogPoint)) (m : IntMap TimingNode) (key : Int) :
    key ∈ IntMap.keys (groups.foldl (PerformanceTimer.update_node default_timings _period) m) ↔
      key ∈ IntMap.keys m ∨ key ∈ IntMap.keys groups := by
  induction groups generalizing m with
  | nil => simp [IntMap.keys]
  | cons g groups ih =>
    simp only [List.foldl_cons, ih, PerformanceTimer.update_node, mem_keys_set]
    simp only [IntMap.keys, List.map_cons, List.mem_cons]
    constructor
    · rintro ((h | h) | h)
      · exact Or.inr (Or.inl h)
      · exact Or.inl h
      · exact Or.inr (Or.inr h)
    · rintro (h | h | h)
      · exact Or.inl (Or.inr h)
      · exact Or.inl (Or.inl h)
      · exact Or.inr h

/-- After `_update_timings` the map has a record for the ids it had one for and for the
node ids of the drained log points. -/
theorem mem_keys_update_timings (default_timings : ProcessTimings) (t : PerformanceTimer)
    (drained : List TimingLogPoint) (key : Int) :
    key ∈ IntMap.keys (t._update_timings default_timings drained)._timings ↔
      key ∈ IntMap.keys t._timings ∨ ∃ p ∈ drained, p.id = key := by
  simp only [PerformanceTimer._update_timings, mem_keys_foldl_update, mem_keys_sort_data]

theorem mem_keys_clear_timings_for_node (default_timings : ProcessTimings)
    (t : PerformanceTimer) (id key : Int) :
    key ∈ IntMap.keys (t.clear_timings_for_node default_timings id).2._timings ↔
      key ∈ IntMap.keys t._timings := by
  simp only [PerformanceTimer.clear_timings_for_node]
  cases h : IntMap.find t._timings id with
  | none => simp
  | some node =>
    simp only [mem_keys_set]
    constructor
    · rintro (rfl | h')
      · exact (find_isSome_iff _ _).1 (by rw [h]; rfl)
      · exact h'
    · exact fun h' => Or.inr h'

theorem keys_clear_all_timings (default_timings : ProcessTimings) (t : PerformanceTimer) :
    IntMap.keys (t.clear_all_timings default_timings)._timings = IntMap.keys t._timings := by
  simp [PerformanceTimer.clear_all_timings, IntMap.keys, Function.comp_def]

theorem mem_keys_calls (default_timings : ProcessTimings) (cs : List TimerCall)
    (t : PerformanceTimer) (key : Int) :
    key ∈ IntMap.keys (t.calls default_timings cs)._timings ↔
      key ∈ IntMap.keys t._timings ∨ key ∈ aggregated_ids cs := by
  induction cs generalizing t with
  | nil => simp [PerformanceTimer.calls, aggregated_ids]
  | cons c cs ih =>
    have := ih (t.call default_timings c)
    simp only [PerformanceTimer.calls, List.foldl_cons] at this ⊢
    rw [this]
    cases c with
    | _update_timings drained =>
      simp only [PerformanceTimer.call, mem_keys_update_timings, aggregated_ids,
        List.mem_append, List.mem_map, or_assoc]
    | clear_timings_for_node id =>
      simp only [PerformanceTimer.call, mem_keys_clear_timings_for_node, aggregated_ids]
    | clear_all_timings =>
      simp only [PerformanceTimer.call, keys_clear_all_timings, aggregated_ids]
    | set_timing_period p =>
      simp only [PerformanceTimer.call, PerformanceTimer.set_timing_period, aggregated_ids]

/-- C12: `timings_for_node(id)` returns a value if and only if the results map has a record
for `id`, and then the timings of that record. After any sequence of `_update_timings`,
`clear_timings_for_node`, `clear_all_timings` and `set_timing_period` calls on a new timer
the map has a record exactly for the node ids of the log points that the `_update_timings`
calls have aggregated; for every other id `timings_for_node` returns `nullopt`. -/
theorem C12_timings_for_node (default_timings : ProcessTimings) (_period : ℚ)
    (cs : List TimerCall) (id : Int) :
    (((PerformanceTimer.new _period).calls default_timings cs).timings_for_node id =
        (IntMap.find ((PerformanceTimer.new _period).calls default_timings cs)._timings id).map
          (fun node => node.timings)) ∧
      ((((PerformanceTimer.new _period).calls default_timings cs).timings_for_node id).isSome
          = true ↔ id ∈ aggregated_ids cs) ∧
      (id ∉ aggregated_ids cs →
        ((PerformanceTimer.new _period).calls default_timings cs).timings_for_node id = none)
    := by
  have hkeys := mem_keys_calls default_timings cs (PerformanceTimer.new _period) id
  simp only [PerformanceTimer.new, IntMap.keys, List.map_nil, List.not_mem_nil, false_or]
    at hkeys
  have hsome : ∀ t : PerformanceTimer,
      (t.timings_for_node id).isSome = (IntMap.find t._timings id).isSome := by
    intro t
    simp only [PerformanceTimer.timings_for_node]
    cases IntMap.find t._timings id <;> rfl
  refine ⟨?_, ?_, ?_⟩
  · simp only [PerformanceTimer.timings_for_node]
    cases IntMap.find ((PerformanceTimer.new _period).calls default_timings cs)._timings id
      <;> rfl
  · rw [hsome, find_isSome_iff]
    exact hkeys
  · intro hnot
    have h1 := hsome ((PerformanceTimer.new _period).calls default_timings cs)
    have h2 : (IntMap.find ((PerformanceTimer.new _period).calls default_timings cs)._timings
        id).isSome ≠ true := fun h => hnot (hkeys.1 ((find_isSome_iff _ _).1 h))
    rw [← h1] at h2
    cases h3 : ((PerformanceTimer.new _period).calls default_timings cs).timings_for_node id
      with
    | none => rfl
    | some v => rw [h3] at h2; exact absurd rfl h2

/-- Witness for C12: after one aggregation of log points of the nodes 3 and 5, node 7 has
no record. -/
theorem C12_timings_for_node_witness :
    ((PerformanceTimer.new 1).calls ⟨0, 100, 0⟩
      [._update_timings [⟨3, 10⟩, ⟨5, 20⟩, ⟨3, 30⟩]]).timings_for_node 7 = none :=
  (C12_timings_for_node ⟨0, 100, 0⟩ 1 [._update_timings [⟨3, 10⟩, ⟨5, 20⟩, ⟨3, 30⟩]] 7).2.2
    (by decide)

end performance

/-! ### Claims on the events made by the midi dispatcher -/

namespace midi_dispatcher

open event

/-- C13: for every input connection `c` and every note-on message `msg` with velocity 0,
`make_note_on_event(c, msg, t)` returns a keyboard event with subtype `NOTE_OFF`, processor
id `c.target`, channel `msg.channel`, note `msg.note`, velocity 0.5 and timestamp `t`. -/
theorem C13_note_on_zero_velocity (c : InputConnection) (msg : midi.NoteOnMessage)
    (timestamp : Int) (hvel : msg.velocity = 0) :
    ∃ e : KeyboardEvent, make_note_on_event c msg timestamp = Event.keyboard e ∧
      (make_note_on_event c msg timestamp).is_keyboard_event = true ∧
      e.subtype = KeyboardSubtype.NOTE_OFF ∧
      e.processor_id = c.target ∧
      e.channel = some (msg.channel : Int) ∧
      e.note = some (msg.note : Int) ∧
      e.velocity = some (1 / 2) ∧
      e.time = timestamp ∧
      (make_note_on_event c msg timestamp).time = timestamp := by
  refine ⟨KeyboardEvent.with_note KeyboardSubtype.NOTE_OFF c.target msg.channel msg.note
    (1 / 2) timestamp, ?_, ?_, rfl, rfl, rfl, rfl, rfl, rfl, ?_⟩ <;>
    simp [make_note_on_event, hvel, Event.is_keyboard_event, Event.time, KeyboardEvent.time]

/-- Witness for C13: the connection and the message of the unit test
TestMakeNoteOnWithZeroVelEvent. -/
theorem C13_note_on_zero_velocity_witness :
    ∃ e : KeyboardEvent,
      make_note_on_event ⟨25, 26, 0, 1, false, 64⟩ ⟨1, 60, 0⟩ 0 = Event.keyboard e ∧
      (make_note_on_event ⟨25, 26, 0, 1, false, 64⟩ ⟨1, 60, 0⟩ 0).is_keyboard_event = true ∧
      e.subtype = KeyboardSubtype.NOTE_OFF ∧
      e.processor_id = 25 ∧
      e.channel = some 1 ∧
      e.note = some 60 ∧
      e.velocity = some (1 / 2) ∧
      e.time = 0 ∧
      (make_note_on_event ⟨25, 26, 0, 1, false, 64⟩ ⟨1, 60, 0⟩ 0).time = 0 :=
  C13_note_on_zero_velocity ⟨25, 26, 0, 1, false, 64⟩ ⟨1, 60, 0⟩ 0 rfl

/-- C14: for every input connection `c` and every note-on message `msg` with velocity `v`
in 1..127, `make_note_on_event(c, msg, t)` returns a keyboard event with subtype `NOTE_ON`,
processor id `c.target`, channel `msg.channel`, note `msg.note`, velocity `v / 127`, which
lies in (0, 1], and timestamp `t`; velocity 64 gives 0.5 within 0.05 and velocity 55 gives
0.433 within 0.001. -/
theorem C14_note_on_velocity (c : InputConnection) (msg : midi.NoteOnMessage)
    (timestamp : Int) (hlo : 1 ≤ msg.velocity) (hhi : msg.velocity ≤ 127) :
    (∃ e : KeyboardEvent, make_note_on_event c msg timestamp = Event.keyboard e ∧
      e.subtype = KeyboardSubtype.NOTE_ON ∧
      e.processor_id = c.target ∧
      e.channel = some (msg.channel : Int) ∧
      e.note = some (msg.note : Int) ∧
      e.velocity = some ((msg.velocity : ℚ) / 127) ∧
      0 < (msg.velocity : ℚ) / 127 ∧ (msg.velocity : ℚ) / 127 ≤ 1 ∧
      e.time = timestamp) ∧
    (∃ v : ℚ, (make_note_on_event c ⟨msg.channel, msg.note, 64⟩ timestamp) =
        Event.keyboard (KeyboardEvent.with_note KeyboardSubtype.NOTE_ON c.target msg.channel
          msg.note v timestamp) ∧ |v - 1 / 2| < 1 / 20) ∧
    (∃ v : ℚ, (make_note_on_event c ⟨msg.channel, msg.note, 55⟩ timestamp) =
        Event.keyboard (KeyboardEvent.with_note KeyboardSubtype.NOTE_ON c.target msg.channel
          msg.note v timestamp) ∧ |v - 433 / 1000| < 1 / 1000) := by
  have hne : msg.velocity ≠ 0 := by omega
  have hpos : (0 : ℚ) < (msg.velocity : ℚ) := by exact_mod_cast hlo
  have hle : (msg.velocity : ℚ) ≤ 127 := by exact_mod_cast hhi
  refine ⟨⟨KeyboardEvent.with_note KeyboardSubtype.NOTE_ON c.target msg.channel msg.note
    ((msg.velocity : ℚ) / 127) timestamp, ?_, rfl, rfl, rfl, rfl, rfl, ?_, ?_, rfl⟩, ?_, ?_⟩
  · simp [make_note_on_event, hne, midi.MAX_VALUE]
  · positivity
  · rw [div_le_one (by norm_num)]
    exact hle
  · refine ⟨64 / 127, ?_, ?_⟩
    · simp [make_note_on_event, midi.MAX_VALUE]
    · rw [abs_lt]; constructor <;> norm_num
  · refine ⟨55 / 127, ?_, ?_⟩
    · simp [make_note_on_event, midi.MAX_VALUE]
    · rw [abs_lt]; constructor <;> norm_num

/-- Witness for C14: the note-on of scenario 5 of the spec, channel 2, note 62, velocity
55. -/
theorem C14_note_on_velocity_witness :
    ∃ e : KeyboardEvent,
      make_note_on_event ⟨25, 26, 0, 1, false, 64⟩ ⟨2, 62, 55⟩ 0 = Event.keyboard e ∧
      e.subtype = KeyboardSubtype.NOTE_ON ∧
      e.processor_id = 25 ∧
      e.channel = some 2 ∧
      e.note = some 62 ∧
      e.velocity = some (55 / 127) ∧
      0 < ((55 : Nat) : ℚ) / 127 ∧ ((55 : Nat) : ℚ) / 127 ≤ 1 ∧
      e.time = 0 :=
  (C14_note_on_velocity ⟨25, 26, 0, 1, false, 64⟩ ⟨2, 62, 55⟩ 0 (by decide) (by decide)).1

/-- C15: for every absolute-mode connection `c` with range [min_range, max_range] and every
control-change message with value `v` in 0..127, `make_param_change_event` returns a
parameter-change event addressed to the target processor and parameter of the connection
whose float value is `min_range + (max_range - min_range) * v / 127`; the value 0 gives
`min_range` and the value 127 gives `max_range`. The connection is left as it is. -/
theorem C15_param_change_value (c : InputConnection) (msg : midi.ControlChangeMessage)
    (timestamp : Int) (habs : c.relative = false) (hv : msg.value ≤ 127) :
    ∃ e : ParameterChangeEvent,
      make_param_change_event c msg timestamp = (Event.parameter_change e, c) ∧
      e.processor_id = c.target ∧
      e.parameter_id = c.parameter ∧
      e.time = timestamp ∧
      e.float_value = c.min_range + (c.max_range - c.min_range) * (msg.value : ℚ) / 127 ∧
      c.min_range ⊓ c.max_range ≤ e.float_value ∧ e.float_value ≤ c.min_range ⊔ c.max_range ∧
      (msg.value = 0 → e.float_value = c.min_range) ∧
      (msg.value = 127 → e.float_value = c.max_range) := by
  refine ⟨⟨ParameterChangeSubtype.FLOAT_PARAMETER_CHANGE, c.target, c.parameter,
    c.min_range + (c.max_range - c.min_range) * ((msg.value : ℚ) / (midi.MAX_VALUE : ℚ)),
    timestamp⟩, ?_, rfl, rfl, rfl, ?_, ?_, ?_, ?_, ?_⟩
  · simp [make_param_change_event, habs]
  · simp only [midi.MAX_VALUE]
    push_cast
    ring
  · have h0 : (0 : ℚ) ≤ (msg.value : ℚ) / 127 := by positivity
    have h1 : (msg.value : ℚ) / 127 ≤ 1 := by
      rw [div_le_one (by norm_num)]
      exact_mod_cast hv
    simp only [midi.MAX_VALUE]
    push_cast
    rcases le_total c.min_range c.max_range with h | h
    · rw [min_eq_left h]
      nlinarith
    · rw [min_eq_right h]
      nlinarith
  · have h0 : (0 : ℚ) ≤ (msg.value : ℚ) / 127 := by positivity
    have h1 : (msg.value : ℚ) / 127 ≤ 1 := by
      rw [div_le_one (by norm_num)]
      exact_mod_cast hv
    simp only [midi.MAX_VALUE]
    push_cast
    rcases le_total c.min_range c.max_range with h | h
    · rw [max_eq_right h]
      nlinarith
    · rw [max_eq_left h]
      nlinarith
  · intro h
    simp [h]
  · intro h
    simp only [h, midi.MAX_VALUE]
    norm_num

/-- Witness for C15: scenario 2 of the spec, range [0, 100] and controller value 127. -/
theorem C15_param_change_value_witness :
    ∃ e : ParameterChangeEvent,
      make_param_change_event ⟨25, 26, 0, 100, false, 64⟩ ⟨4, 67, 127⟩ 0 =
        (Event.parameter_change e, ⟨25, 26, 0, 100, false, 64⟩) ∧
      e.processor_id = 25 ∧ e.parameter_id = 26 ∧ e.float_value = 100 := by
  obtain ⟨e, h1, h2, h3, _, _, _, _, _, h9⟩ :=
    C15_param_change_value ⟨25, 26, 0, 100, false, 64⟩ ⟨4, 67, 127⟩ 0 rfl (by decide)
  exact ⟨e, h1, h2, h3, h9 rfl⟩

/-- C16: for every byte sequence `data` of length `n <= 4`,
`make_wrapped_midi_event(c, data, n, t)` returns a keyboard event with subtype
`WRAPPED_MIDI`, processor id `c.target` and timestamp `t` whose `midi_data` holds the `n`
input bytes unchanged in the positions 0..n-1 and 0 in every remaining position. -/
theorem C16_wrapped_midi_bytes (c : InputConnection) (data : List Nat) (n : Nat)
    (timestamp : Int) (hlen : data.length = n) (hn : n ≤ 4) :
    ∃ (e : KeyboardEvent) (bytes : MidiDataByte),
      make_wrapped_midi_event c data n timestamp = Event.keyboard e ∧
      e.subtype = KeyboardSubtype.WRAPPED_MIDI ∧
      e.processor_id = c.target ∧
      e.time = timestamp ∧
      e.midi_data = some bytes ∧
      (∀ i : Fin 4, i.val < n → data[i.val]? = some (bytes i)) ∧
      (∀ i : Fin 4, n ≤ i.val → bytes i = 0) ∧
      (List.ofFn bytes).take n = data := by
  refine ⟨_, fun i => if i.val < n then data.getD i.val 0 else 0, rfl, rfl, rfl, rfl, rfl,
    ?_, ?_, ?_⟩
  · intro i hi
    simp only [hi, if_true]
    rw [List.getD_eq_getElem?_getD]
    have : i.val < data.length := by omega
    simp [List.getElem?_eq_getElem this]
  · intro i hi
    have : ¬ i.val < n := by omega
    simp only [this, if_false]
  · subst hlen
    apply List.ext_getElem?
    intro k
    by_cases hk : k < data.length
    · have hk4 : k < 4 := by omega
      interval_cases k <;>
        simp [List.getElem?_take, hk, List.getElem?_eq_getElem, List.getD_eq_getElem?_getD]
    · have : data.length ≤ k := by omega
      simp [List.getElem?_take, hk, List.getElem?_eq_none this]

/-- Witness for C16: the three bytes of the unit test TestMakeWrappedMidiEvent. -/
theorem C16_wrapped_midi_bytes_witness :
    ∃ (e : KeyboardEvent) (bytes : MidiDataByte),
      make_wrapped_midi_event ⟨25, 26, 0, 1, false, 64⟩ [3, 46, 64] 3 0 = Event.keyboard e ∧
      e.subtype = KeyboardSubtype.WRAPPED_MIDI ∧
      e.processor_id = 25 ∧
      e.time = 0 ∧
      e.midi_data = some bytes ∧
      (∀ i : Fin 4, i.val < 3 → [3, 46, 64][i.val]? = some (bytes i)) ∧
      (∀ i : Fin 4, 3 ≤ i.val → bytes i = 0) ∧
      (List.ofFn bytes).take 3 = [3, 46, 64] :=
  C16_wrapped_midi_bytes ⟨25, 26, 0, 1, false, 64⟩ [3, 46, 64] 3 0 rfl (by decide)

end midi_dispatcher

/-! ### Claims on the routing of the midi dispatcher -/

namespace midi_dispatcher

open event

theorem routes_at_push_route (routes : Int → Option ChannelRoutes) (midi_input : Int)
    (channel : Nat) (c : InputConnection) (port : Int) (ch : Nat) :
    routes_at (push_route routes midi_input channel c) port ch =
      if port = midi_input ∧ ch = channel then routes_at routes port ch ++ [c]
      else routes_at routes port ch := by
  by_cases hp : port = midi_input
  · subst hp
    by_cases hc : ch = channel
    · simp [routes_at, push_route, hc]
    · simp [routes_at, push_route, hc]
  · simp [routes_at, push_route, hp]

theorem cc_routes_at_push_cc_route (routes : Int → Option (Nat → ChannelRoutes))
    (midi_input : Int) (cc_no channel : Nat) (c : InputConnection) (port : Int)
    (cc ch : Nat) :
    cc_routes_at (push_cc_route routes midi_input cc_no channel c) port cc ch =
      if port = midi_input ∧ cc = cc_no ∧ ch = channel then cc_routes_at routes port cc ch ++ [c]
      else cc_routes_at routes port cc ch := by
  by_cases hp : port = midi_input
  · subst hp
    by_cases hc : cc = cc_no ∧ ch = channel
    · simp [cc_routes_at, push_cc_route, hc]
    · simp only [cc_routes_at, push_cc_route, if_true, hc, if_false, true_and]
  · simp [cc_routes_at, push_cc_route, hp]

theorem table_of_append_singleton (routes : List Route) (r : Route) (kind : RouteKind)
    (port : Int) (ch : Nat) :
    table_of (routes ++ [r]) kind port ch =
      if r.kind = kind ∧ r.midi_input = port ∧ r.channel = ch then
        table_of routes kind port ch ++ [r.connection]
      else table_of routes kind port ch := by
  simp only [table_of, List.filter_append, List.map_append]
  split_ifs with h
  · simp [List.filter_cons, h]
  · simp [List.filter_cons, h]

theorem routes_inv_new : Connected.Inv ⟨MidiDispatcher.new, []⟩ := by
  simp [Connected.Inv, MidiDispatcher.new, routes_at, cc_routes_at, table_of]

/-- Adding a route of one of the three plain tables, with the other tables unchanged, keeps
the invariant. -/
theorem routes_inv_push (s : Connected) (h : Connected.Inv s) (r : Route) (d' : MidiDispatcher)
    (hkb : d'._kb_routes_in = if r.kind = RouteKind.KEYBOARD then
      push_route s.dispatcher._kb_routes_in r.midi_input r.channel r.connection
      else s.dispatcher._kb_routes_in)
    (hraw : d'._raw_routes_in = if r.kind = RouteKind.RAW then
      push_route s.dispatcher._raw_routes_in r.midi_input r.channel r.connection
      else s.dispatcher._raw_routes_in)
    (hpc : d'._pc_routes = if r.kind = RouteKind.PC then
      push_route s.dispatcher._pc_routes r.midi_input r.channel r.connection
      else s.dispatcher._pc_routes)
    (hcc : ∀ port cc ch, cc_routes_at d'._cc_routes port cc ch =
      if r.kind = RouteKind.CC cc ∧ r.midi_input = port ∧ r.channel = ch then
        cc_routes_at s.dispatcher._cc_routes port cc ch ++ [r.connection]
      else cc_routes_at s.dispatcher._cc_routes port cc ch) :
    Connected.Inv ⟨d', s.routes ++ [r]⟩ := by
  obtain ⟨h1, h2, h3, h4⟩ := h
  refine ⟨?_, ?_, ?_, ?_⟩
  · intro port ch
    simp only [hkb, table_of_append_singleton]
    by_cases hk : r.kind = RouteKind.KEYBOARD
    · simp only [hk, if_true, routes_at_push_route, h1, true_and]
      by_cases hc : r.midi_input = port ∧ r.channel = ch
      · rw [if_pos ⟨hc.1.symm, hc.2.symm⟩, if_pos hc]
      · rw [if_neg (fun h' => hc ⟨h'.1.symm, h'.2.symm⟩), if_neg hc]
    · simp only [hk, if_false, false_and, h1]
  · intro port ch
    simp only [hraw, table_of_append_singleton]
    by_cases hk : r.kind = RouteKind.RAW
    · simp only [hk, if_true, routes_at_push_route, h2, true_and]
      by_cases hc : r.midi_input = port ∧ r.channel = ch
      · rw [if_pos ⟨hc.1.symm, hc.2.symm⟩, if_pos hc]
      · rw [if_neg (fun h' => hc ⟨h'.1.symm, h'.2.symm⟩), if_neg hc]
    · simp only [hk, if_false, false_and, h2]
  · intro port ch
    simp only [hpc, table_of_append_singleton]
    by_cases hk : r.kind = RouteKind.PC
    · simp only [hk, if_true, routes_at_push_route, h3, true_and]
      by_cases hc : r.midi_input = port ∧ r.channel = ch
      · rw [if_pos ⟨hc.1.symm, hc.2.symm⟩, if_pos hc]
      · rw [if_neg (fun h' => hc ⟨h'.1.symm, h'.2.symm⟩), if_neg hc]
    · simp only [hk, if_false, false_and, h3]
  · intro port cc ch
    simp only [hcc, table_of_append_singleton, h4]

theorem connect_kb_to_track_cases (eng : EngineNames) (d : MidiDispatcher) (i : Int) (name : String)
    (ch : Nat) :
    ((d.connect_kb_to_track eng i name ch).1 ≠ MidiDispatcherStatus.OK ∧
        (d.connect_kb_to_track eng i name ch).2 = d) ∨
      ∃ id, eng.processor_id_from_name name = some id ∧
        (d.connect_kb_to_track eng i name ch).1 = MidiDispatcherStatus.OK ∧
        (d.connect_kb_to_track eng i name ch).2 =
          { d with _kb_routes_in := push_route d._kb_routes_in i ch ⟨id, 0, 0, 0, false, 0⟩ } := by
  by_cases h1 : i < 0 ∨ d._midi_inputs ≤ i
  · left
    simp [MidiDispatcher.connect_kb_to_track, h1]
  · by_cases h2 : midi.MidiChannel.OMNI < ch
    · left
      simp [MidiDispatcher.connect_kb_to_track, h1, h2]
    · cases hn : eng.processor_id_from_name name with
      | none =>
        left
        simp [MidiDispatcher.connect_kb_to_track, h1, h2, hn]
      | some id =>
        right
        exact ⟨id, rfl, by simp [MidiDispatcher.connect_kb_to_track, h1, h2, hn],
          by simp [MidiDispatcher.connect_kb_to_track, h1, h2, hn]⟩

theorem connect_raw_midi_to_track_cases (eng : EngineNames) (d : MidiDispatcher) (i : Int) (name : String)
    (ch : Nat) :
    ((d.connect_raw_midi_to_track eng i name ch).1 ≠ MidiDispatcherStatus.OK ∧
        (d.connect_raw_midi_to_track eng i name ch).2 = d) ∨
      ∃ id, eng.processor_id_from_name name = some id ∧
        (d.connect_raw_midi_to_track eng i name ch).1 = MidiDispatcherStatus.OK ∧
        (d.connect_raw_midi_to_track eng i name ch).2 =
          { d with _raw_routes_in := push_route d._raw_routes_in i ch ⟨id, 0, 0, 0, false, 0⟩ } := by
  by_cases h1 : i < 0 ∨ d._midi_inputs ≤ i
  · left
    simp [MidiDispatcher.connect_raw_midi_to_track, h1]
  · by_cases h2 : midi.MidiChannel.OMNI < ch
    · left
      simp [MidiDispatcher.connect_raw_midi_to_track, h1, h2]
    · cases hn : eng.processor_id_from_name name with
      | none =>
        left
        simp [MidiDispatcher.connect_raw_midi_to_track, h1, h2, hn]
      | some id =>
        right
        exact ⟨id, rfl, by simp [MidiDispatcher.connect_raw_midi_to_track, h1, h2, hn],
          by simp [MidiDispatcher.connect_raw_midi_to_track, h1, h2, hn]⟩

theorem connect_pc_to_processor_cases (eng : EngineNames) (d : MidiDispatcher) (i : Int) (name : String)
    (ch : Nat) :
    ((d.connect_pc_to_processor eng i name ch).1 ≠ MidiDispatcherStatus.OK ∧
        (d.connect_pc_to_processor eng i name ch).2 = d) ∨
      ∃ id, eng.processor_id_from_name name = some id ∧
        (d.connect_pc_to_processor eng i name ch).1 = MidiDispatcherStatus.OK ∧
        (d.connect_pc_to_processor eng i name ch).2 =
          { d with _pc_routes := push_route d._pc_routes i ch ⟨id, 0, 0, 0, false, 0⟩ } := by
  by_cases h1 : i < 0 ∨ d._midi_inputs ≤ i
  · left
    simp [MidiDispatcher.connect_pc_to_processor, h1]
  · by_cases h2 : midi.MidiChannel.OMNI < ch
    · left
      simp [MidiDispatcher.connect_pc_to_processor, h1, h2]
    · cases hn : eng.processor_id_from_name name with
      | none =>
        left
        simp [MidiDispatcher.connect_pc_to_processor, h1, h2, hn]
      | some id =>
        right
        exact ⟨id, rfl, by simp [MidiDispatcher.connect_pc_to_processor, h1, h2, hn],
          by simp [MidiDispatcher.connect_pc_to_processor, h1, h2, hn]⟩

theorem connect_cc_to_parameter_cases (eng : EngineNames) (d : MidiDispatcher) (i : Int)
    (name par : String) (cc : Nat) (lo hi : ℚ) (rel : Bool) (ch v : Nat) :
    ((d.connect_cc_to_parameter eng i name par cc lo hi rel ch v).1 ≠ MidiDispatcherStatus.OK ∧
        (d.connect_cc_to_parameter eng i name par cc lo hi rel ch v).2 = d) ∨
      ∃ id pid, eng.processor_id_from_name name = some id ∧
        eng.parameter_id_from_name name par = some pid ∧
        (d.connect_cc_to_parameter eng i name par cc lo hi rel ch v).1 =
          MidiDispatcherStatus.OK ∧
        (d.connect_cc_to_parameter eng i name par cc lo hi rel ch v).2 =
          { d with _cc_routes :=
              push_cc_route d._cc_routes i cc ch ⟨id, pid, lo, hi, rel, v⟩ } := by
  by_cases h1 : i < 0 ∨ d._midi_inputs ≤ i
  · left
    simp [MidiDispatcher.connect_cc_to_parameter, h1]
  · by_cases h2 : midi.MidiChannel.OMNI < ch
    · left
      simp [MidiDispatcher.connect_cc_to_parameter, h1, h2]
    · cases hn : eng.processor_id_from_name name with
      | none =>
        left
        simp [MidiDispatcher.connect_cc_to_parameter, h1, h2, hn]
      | some id =>
        cases hq : eng.parameter_id_from_name name par with
        | none =>
          left
          simp [MidiDispatcher.connect_cc_to_parameter, h1, h2, hn, hq]
        | some pid =>
          right
          exact ⟨id, pid, rfl, rfl,
            by simp [MidiDispatcher.connect_cc_to_parameter, h1, h2, hn, hq],
            by simp [MidiDispatcher.connect_cc_to_parameter, h1, h2, hn, hq]⟩

theorem routes_inv_step (eng : EngineNames) (s : Connected) (call : ConnectCall)
    (h : Connected.Inv s) : Connected.Inv (s.step eng call) := by
  cases call with
  | set_midi_inputs n =>
    simpa [Connected.step, MidiDispatcher.call, ConnectCall.route,
      MidiDispatcher.set_midi_inputs, Connected.Inv] using h
  | connect_kb_to_track i name ch =>
    rcases connect_kb_to_track_cases eng s.dispatcher i name ch with
      ⟨hne, heq⟩ | ⟨id, hn, hok, heq⟩
    · simp only [Connected.step, MidiDispatcher.call, if_neg hne, heq]
      exact h
    · simp only [Connected.step, MidiDispatcher.call, hok, heq, if_true, ConnectCall.route,
        hn, Option.map_some', Option.toList_some]
      apply routes_inv_push s h ⟨RouteKind.KEYBOARD, i, ch, ⟨id, 0, 0, 0, false, 0⟩⟩
      · simp
      · simp
      · simp
      · intro port cc ch'
        simp
  | connect_raw_midi_to_track i name ch =>
    rcases connect_raw_midi_to_track_cases eng s.dispatcher i name ch with
      ⟨hne, heq⟩ | ⟨id, hn, hok, heq⟩
    · simp only [Connected.step, MidiDispatcher.call, if_neg hne, heq]
      exact h
    · simp only [Connected.step, MidiDispatcher.call, hok, heq, if_true, ConnectCall.route,
        hn, Option.map_some', Option.toList_some]
      apply routes_inv_push s h ⟨RouteKind.RAW, i, ch, ⟨id, 0, 0, 0, false, 0⟩⟩
      · simp
      · simp
      · simp
      · intro port cc ch'
        simp
  | connect_pc_to_processor i name ch =>
    rcases connect_pc_to_processor_cases eng s.dispatcher i name ch with
      ⟨hne, heq⟩ | ⟨id, hn, hok, heq⟩
    · simp only [Connected.step, MidiDispatcher.call, if_neg hne, heq]
      exact h
    · simp only [Connected.step, MidiDispatcher.call, hok, heq, if_true, ConnectCall.route,
        hn, Option.map_some', Option.toList_some]
      apply routes_inv_push s h ⟨RouteKind.PC, i, ch, ⟨id, 0, 0, 0, false, 0⟩⟩
      · simp
      · simp
      · simp
      · intro port cc ch'
        simp
  | connect_cc_to_parameter i name par cc lo hi rel ch v =>
    rcases connect_cc_to_parameter_cases eng s.dispatcher i name par cc lo hi rel ch v with
      ⟨hne, heq⟩ | ⟨id, pid, hn, hq, hok, heq⟩
    · simp only [Connected.step, MidiDispatcher.call, if_neg hne, heq]
      exact h
    · simp only [Connected.step, MidiDispatcher.call, hok, heq, if_true, ConnectCall.route,
        hn, hq, Option.toList_some]
      apply routes_inv_push s h ⟨RouteKind.CC cc, i, ch, ⟨id, pid, lo, hi, rel, v⟩⟩
      · simp
      · simp
      · simp
      · intro port cc' ch'
        simp only [cc_routes_at_push_cc_route, RouteKind.CC.injEq]
        by_cases hc : port = i ∧ cc' = cc ∧ ch' = ch
        · rw [if_pos hc, if_pos ⟨hc.2.1.symm, hc.1.symm, hc.2.2.symm⟩]
        · rw [if_neg hc, if_neg (fun h' => hc ⟨h'.2.1.symm, h'.1.symm, h'.2.2.symm⟩)]

theorem routes_inv_run (eng : EngineNames) (calls : List ConnectCall) :
    Connected.Inv (Connected.run eng calls) := by
  have : ∀ (s : Connected), Connected.Inv s →
      Connected.Inv (calls.foldl (Connected.step eng) s) := by
    induction calls with
    | nil => exact fun s h => h
    | cons c calls ih => exact fun s h => ih _ (routes_inv_step eng s c h)
  exact this _ routes_inv_new

theorem map_table_of (routes : List Route) (kind : RouteKind) (port : Int) (ch : Nat)
    (f : InputConnection → Event) :
    (table_of routes kind port ch).map f =
      routes.flatMap (fun r =>
        if r.kind = kind ∧ r.midi_input = port ∧ r.channel = ch then [f r.connection]
        else []) := by
  induction routes with
  | nil => simp [table_of]
  | cons r routes ih =>
    simp only [table_of, List.flatMap_cons] at ih ⊢
    rw [← ih]
    by_cases h : r.kind = kind ∧ r.midi_input = port ∧ r.channel = ch
    · simp [List.filter_cons, h]
    · simp [List.filter_cons, h]

theorem send_midi_control_change (dec : Decoder) (d : MidiDispatcher) (port : Int)
    (data : MidiDataByte) (timestamp : Int)
    (h : dec.decode_message_type data = midi.MessageType.CONTROL_CHANGE) :
    (d.send_midi dec port data timestamp).1 =
      raw_events dec d port data timestamp ++
        (cc_routes_at d._cc_routes port (dec.decode_control_change data).controller
            midi.MidiChannel.OMNI ++
          cc_routes_at d._cc_routes port (dec.decode_control_change data).controller
            (dec.decode_control_change data).channel).map
          (fun c => (make_param_change_event c (dec.decode_control_change data) timestamp).1)
    := by
  simp [MidiDispatcher.send_midi, h, raw_events]

theorem send_midi_note_on (dec : Decoder) (d : MidiDispatcher) (port : Int)
    (data : MidiDataByte) (timestamp : Int)
    (h : dec.decode_message_type data = midi.MessageType.NOTE_ON) :
    (d.send_midi dec port data timestamp).1 =
      raw_events dec d port data timestamp ++
        (routes_at d._kb_routes_in port midi.MidiChannel.OMNI ++
          routes_at d._kb_routes_in port (dec.decode_note_on data).channel).map
          (fun c => make_note_on_event c (dec.decode_note_on data) timestamp) := by
  simp [MidiDispatcher.send_midi, h, raw_events]

theorem send_midi_note_off (dec : Decoder) (d : MidiDispatcher) (port : Int)
    (data : MidiDataByte) (timestamp : Int)
    (h : dec.decode_message_type data = midi.MessageType.NOTE_OFF) :
    (d.send_midi dec port data timestamp).1 =
      raw_events dec d port data timestamp ++
        (routes_at d._kb_routes_in port midi.MidiChannel.OMNI ++
          routes_at d._kb_routes_in port (dec.decode_note_off data).channel).map
          (fun c => make_note_off_event c (dec.decode_note_off data) timestamp) := by
  simp [MidiDispatcher.send_midi, h, raw_events]

theorem send_midi_program_change (dec : Decoder) (d : MidiDispatcher) (port : Int)
    (data : MidiDataByte) (timestamp : Int)
    (h : dec.decode_message_type data = midi.MessageType.PROGRAM_CHANGE) :
    (d.send_midi dec port data timestamp).1 =
      raw_events dec d port data timestamp ++
        (routes_at d._pc_routes port midi.MidiChannel.OMNI ++
          routes_at d._pc_routes port (dec.decode_program_change data).channel).map
          (fun c => make_program_change_event c (dec.decode_program_change data) timestamp)
    := by
  simp [MidiDispatcher.send_midi, h, raw_events]

theorem send_midi_other (dec : Decoder) (d : MidiDispatcher) (port : Int)
    (data : MidiDataByte) (timestamp : Int)
    (h1 : dec.decode_message_type data ≠ midi.MessageType.CONTROL_CHANGE)
    (h2 : dec.decode_message_type data ≠ midi.MessageType.NOTE_ON)
    (h3 : dec.decode_message_type data ≠ midi.MessageType.NOTE_OFF)
    (h4 : dec.decode_message_type data ≠ midi.MessageType.PROGRAM_CHANGE) :
    (d.send_midi dec port data timestamp).1 = raw_events dec d port data timestamp := by
  unfold MidiDispatcher.send_midi
  cases h : dec.decode_message_type data <;> simp_all [raw_events]

theorem perm_parts (dec : Decoder) (s : Connected) (h : Connected.Inv s) (port : Int)
    (data : MidiDataByte) (timestamp : Int) (kind : RouteKind) (channel : Nat)
    (f : InputConnection → Event)
    (tableO tableC : List InputConnection)
    (hO : tableO = table_of s.routes kind port midi.MidiChannel.OMNI)
    (hC : tableC = table_of s.routes kind port channel) :
    List.Perm (raw_events dec s.dispatcher port data timestamp ++ (tableO ++ tableC).map f)
      (s.routes.flatMap (fun r => r.parts dec port data timestamp kind channel f)) := by
  obtain ⟨_, h2, _, _⟩ := h
  simp only [raw_events, h2, hO, hC, List.map_append, map_table_of]
  refine List.Perm.trans (List.Perm.append (List.flatMap_append_perm _ _ _)
    (List.flatMap_append_perm _ _ _)) ?_
  exact List.flatMap_append_perm _ _ _

theorem perm_raw (dec : Decoder) (s : Connected) (h : Connected.Inv s) (port : Int)
    (data : MidiDataByte) (timestamp : Int) :
    List.Perm (raw_events dec s.dispatcher port data timestamp)
      (s.routes.flatMap (fun r =>
        (if r.kind = RouteKind.RAW ∧ r.midi_input = port ∧
            r.channel = midi.MidiChannel.OMNI then
          [make_wrapped_midi_event r.connection (List.ofFn data) 4 timestamp] else []) ++
        (if r.kind = RouteKind.RAW ∧ r.midi_input = port ∧
            r.channel = dec.decode_channel (data 0) then
          [make_wrapped_midi_event r.connection (List.ofFn data) 4 timestamp] else []))) := by
  obtain ⟨_, h2, _, _⟩ := h
  simp only [raw_events, h2, List.map_append, map_table_of]
  exact List.flatMap_append_perm _ _ _

theorem parts_note_on (dec : Decoder) (r : Route) (port : Int) (data : MidiDataByte)
    (timestamp : Int) (hch : dec.channels_in_range data)
    (h : dec.decode_message_type data = midi.MessageType.NOTE_ON) :
    r.parts dec port data timestamp RouteKind.KEYBOARD (dec.decode_note_on data).channel
        (fun c => make_note_on_event c (dec.decode_note_on data) timestamp) =
      r.posted dec port data timestamp := by
  obtain ⟨kind, i, ch, c⟩ := r
  obtain ⟨b0, b1, b2, b3, b4⟩ := hch
  cases kind <;>
    simp only [Route.parts, Route.posted, Route.matches, RouteKind.takes, Route.event,
      matches_channel, h, reduceCtorEq, false_and, true_and, and_false, if_false, if_true,
      List.nil_append, List.append_nil, or_false, false_or] <;>
    split_ifs <;> simp_all

theorem parts_note_off (dec : Decoder) (r : Route) (port : Int) (data : MidiDataByte)
    (timestamp : Int) (hch : dec.channels_in_range data)
    (h : dec.decode_message_type data = midi.MessageType.NOTE_OFF) :
    r.parts dec port data timestamp RouteKind.KEYBOARD (dec.decode_note_off data).channel
        (fun c => make_note_off_event c (dec.decode_note_off data) timestamp) =
      r.posted dec port data timestamp := by
  obtain ⟨kind, i, ch, c⟩ := r
  obtain ⟨b0, b1, b2, b3, b4⟩ := hch
  cases kind <;>
    simp only [Route.parts, Route.posted, Route.matches, RouteKind.takes, Route.event,
      matches_channel, h, reduceCtorEq, false_and, true_and, and_false, if_false, if_true,
      List.nil_append, List.append_nil, or_false, false_or] <;>
    split_ifs <;> simp_all

theorem parts_control_change (dec : Decoder) (r : Route) (port : Int) (data : MidiDataByte)
    (timestamp : Int) (hch : dec.channels_in_range data)
    (h : dec.decode_message_type data = midi.MessageType.CONTROL_CHANGE) :
    r.parts dec port data timestamp (RouteKind.CC (dec.decode_control_change data).controller)
        (dec.decode_control_change data).channel
        (fun c => (make_param_change_event c (dec.decode_control_change data) timestamp).1) =
      r.posted dec port data timestamp := by
  obtain ⟨kind, i, ch, c⟩ := r
  obtain ⟨b0, b1, b2, b3, b4⟩ := hch
  cases kind <;>
    simp only [Route.parts, Route.posted, Route.matches, RouteKind.takes, Route.event,
      matches_channel, h, reduceCtorEq, false_and, true_and, and_false, if_false, if_true,
      List.nil_append, List.append_nil, or_false, false_or, RouteKind.CC.injEq] <;>
    split_ifs <;> simp_all

theorem parts_program_change (dec : Decoder) (r : Route) (port : Int) (data : MidiDataByte)
    (timestamp : Int) (hch : dec.channels_in_range data)
    (h : dec.decode_message_type data = midi.MessageType.PROGRAM_CHANGE) :
    r.parts dec port data timestamp RouteKind.PC (dec.decode_program_change data).channel
        (fun c => make_program_change_event c (dec.decode_program_change data) timestamp) =
      r.posted dec port data timestamp := by
  obtain ⟨kind, i, ch, c⟩ := r
  obtain ⟨b0, b1, b2, b3, b4⟩ := hch
  cases kind <;>
    simp only [Route.parts, Route.posted, Route.matches, RouteKind.takes, Route.event,
      matches_channel, h, reduceCtorEq, false_and, true_and, and_false, if_false, if_true,
      List.nil_append, List.append_nil, or_false, false_or] <;>
    split_ifs <;> simp_all

theorem parts_other (dec : Decoder) (r : Route) (port : Int) (data : MidiDataByte)
    (timestamp : Int) (hch : dec.channels_in_range data)
    (h1 : dec.decode_message_type data ≠ midi.MessageType.CONTROL_CHANGE)
    (h2 : dec.decode_message_type data ≠ midi.MessageType.NOTE_ON)
    (h3 : dec.decode_message_type data ≠ midi.MessageType.NOTE_OFF)
    (h4 : dec.decode_message_type data ≠ midi.MessageType.PROGRAM_CHANGE) :
    (if r.kind = RouteKind.RAW ∧ r.midi_input = port ∧
          r.channel = midi.MidiChannel.OMNI then
        [make_wrapped_midi_event r.connection (List.ofFn data) 4 timestamp] else []) ++
      (if r.kind = RouteKind.RAW ∧ r.midi_input = port ∧
          r.channel = dec.decode_channel (data 0) then
        [make_wrapped_midi_event r.connection (List.ofFn data) 4 timestamp] else []) =
      r.posted dec port data timestamp := by
  obtain ⟨kind, i, ch, c⟩ := r
  obtain ⟨b0, b1, b2, b3, b4⟩ := hch
  cases kind <;>
    simp only [Route.posted, Route.matches, RouteKind.takes, Route.event,
      matches_channel, h1, h2, h3, h4, reduceCtorEq, false_and, true_and, and_false, if_false,
      if_true, List.nil_append, List.append_nil, or_false, false_or]
  split_ifs <;> simp_all

/-- What `send_midi` posts on a dispatcher whose tables hold the routes connected: one
event for each route that matches, and no other event. -/
theorem send_midi_perm (dec : Decoder) (s : Connected) (h : Connected.Inv s) (port : Int)
    (data : MidiDataByte) (timestamp : Int) (hch : dec.channels_in_range data) :
    List.Perm (s.dispatcher.send_midi dec port data timestamp).1
      (s.routes.flatMap (fun r => r.posted dec port data timestamp)) := by
  by_cases h1 : dec.decode_message_type data = midi.MessageType.CONTROL_CHANGE
  · rw [send_midi_control_change dec _ port data timestamp h1]
    refine List.Perm.trans (perm_parts dec s h port data timestamp
      (RouteKind.CC (dec.decode_control_change data).controller)
      (dec.decode_control_change data).channel _ _ _ (h.2.2.2 _ _ _) (h.2.2.2 _ _ _)) ?_
    rw [List.flatMap_congr (fun r _ => parts_control_change dec r port data timestamp hch h1)]
  · by_cases h2 : dec.decode_message_type data = midi.MessageType.NOTE_ON
    · rw [send_midi_note_on dec _ port data timestamp h2]
      refine List.Perm.trans (perm_parts dec s h port data timestamp RouteKind.KEYBOARD
        (dec.decode_note_on data).channel _ _ _ (h.1 _ _) (h.1 _ _)) ?_
      rw [List.flatMap_congr (fun r _ => parts_note_on dec r port data timestamp hch h2)]
    · by_cases h3 : dec.decode_message_type data = midi.MessageType.NOTE_OFF
      · rw [send_midi_note_off dec _ port data timestamp h3]
        refine List.Perm.trans (perm_parts dec s h port data timestamp RouteKind.KEYBOARD
          (dec.decode_note_off data).channel _ _ _ (h.1 _ _) (h.1 _ _)) ?_
        rw [List.flatMap_congr (fun r _ => parts_note_off dec r port data timestamp hch h3)]
      · by_cases h4 : dec.decode_message_type data = midi.MessageType.PROGRAM_CHANGE
        · rw [send_midi_program_change dec _ port data timestamp h4]
          refine List.Perm.trans (perm_parts dec s h port data timestamp RouteKind.PC
            (dec.decode_program_change data).channel _ _ _ (h.2.2.1 _ _) (h.2.2.1 _ _)) ?_
          rw [List.flatMap_congr
            (fun r _ => parts_program_change dec r port data timestamp hch h4)]
        · rw [send_midi_other dec _ port data timestamp h1 h2 h3 h4]
          refine List.Perm.trans (perm_raw dec s h port data timestamp) ?_
          rw [List.flatMap_congr
            (fun r _ => parts_other dec r port data timestamp hch h1 h2 h3 h4)]

/-- C17: `send_midi(port, msg)` posts an event for a route if and only if the route matches
the message: it was connected on that same input port, its channel is `OMNI` or equals the
channel of the message, the message is of the type of the route and, for a control-change
route, its controller number equals that of the message. The events posted are, up to
order, one for each matching route among the routes connected; with no matching route, in
particular with no routes at all or only routes on other ports, `send_midi` posts
nothing. -/
theorem C17_send_midi_routes (dec : Decoder) (eng : EngineNames) (calls : List ConnectCall)
    (port : Int) (data : MidiDataByte) (timestamp : Int)
    (hch : dec.channels_in_range data) :
    List.Perm ((Connected.run eng calls).dispatcher.send_midi dec port data timestamp).1
        ((Connected.run eng calls).routes.flatMap
          (fun r => r.posted dec port data timestamp)) ∧
      (∀ r : Route, (r.posted dec port data timestamp = [r.event dec data timestamp] ↔
          (r.midi_input = port ∧ r.kind.takes dec data r.channel)) ∧
        (r.posted dec port data timestamp = [] ↔
          ¬ (r.midi_input = port ∧ r.kind.takes dec data r.channel))) ∧
      ((∀ r ∈ (Connected.run eng calls).routes, ¬ r.matches dec port data) →
        ((Connected.run eng calls).dispatcher.send_midi dec port data timestamp).1 = []) ∧
      ((∀ r ∈ (Connected.run eng calls).routes, r.midi_input ≠ port) →
        ((Connected.run eng calls).dispatcher.send_midi dec port data timestamp).1 = []) ∧
      ((MidiDispatcher.new.send_midi dec port data timestamp).1 = []) := by
  have hperm := send_midi_perm dec _ (routes_inv_run eng calls) port data timestamp hch
  have hnone : (∀ r ∈ (Connected.run eng calls).routes, ¬ r.matches dec port data) →
      ((Connected.run eng calls).dispatcher.send_midi dec port data timestamp).1 = [] := by
    intro hno
    have : (Connected.run eng calls).routes.flatMap
        (fun r => r.posted dec port data timestamp) = [] := by
      rw [List.flatMap_eq_nil_iff]
      intro r hr
      simp [Route.posted, hno r hr]
    rw [this] at hperm
    exact List.Perm.eq_nil hperm
  refine ⟨hperm, ?_, hnone, ?_, ?_⟩
  · intro r
    constructor
    · by_cases hm : r.matches dec port data
      · simp only [Route.posted, hm, if_true, true_iff]
        exact hm
      · simp only [Route.posted, hm, if_false]
        constructor
        · intro h'
          exact absurd h' (by simp)
        · intro h'
          exact absurd h' hm
    · by_cases hm : r.matches dec port data
      · simp only [Route.posted, hm, if_true]
        constructor
        · intro h'
          exact absurd h' (by simp)
        · intro h'
          exact absurd hm h'
      · simp only [Route.posted, hm, if_false, true_iff]
        exact hm
  · intro hport
    exact hnone (fun r hr hm => hport r hr hm.1)
  · have := send_midi_perm dec ⟨MidiDispatcher.new, []⟩ routes_inv_new port data timestamp hch
    simpa using this

/-- Witness for C17: the calls of the unit test TestKeyboardDataConnection: with a keyboard
route connected on input 1 for all channels, a note-off received on input 0 posts
nothing. -/
theorem C17_send_midi_routes_witness :
    ((Connected.run ⟨fun _ => some 25, fun _ _ => some 26⟩
        [.set_midi_inputs 5, .connect_kb_to_track 1 "processor" 16]).dispatcher.send_midi
        status_byte_decoder 0 ![0x83, 60, 45, 0] 0).1 = [] :=
  (C17_send_midi_routes status_byte_decoder ⟨fun _ => some 25, fun _ _ => some 26⟩
    [.set_midi_inputs 5, .connect_kb_to_track 1 "processor" 16] 0 ![0x83, 60, 45, 0] 0
    (by decide)).2.2.2.1 (by decide)

theorem kb_routes_out_step (eng : EngineNames) (s : Connected) (call : ConnectCall) :
    (s.step eng call).dispatcher._kb_routes_out = s.dispatcher._kb_routes_out := by
  cases call with
  | set_midi_inputs n => rfl
  | connect_kb_to_track i name ch =>
    rcases connect_kb_to_track_cases eng s.dispatcher i name ch with
      ⟨_, heq⟩ | ⟨id, _, _, heq⟩ <;>
      simp only [Connected.step, MidiDispatcher.call, heq]
  | connect_raw_midi_to_track i name ch =>
    rcases connect_raw_midi_to_track_cases eng s.dispatcher i name ch with
      ⟨_, heq⟩ | ⟨id, _, _, heq⟩ <;>
      simp only [Connected.step, MidiDispatcher.call, heq]
  | connect_pc_to_processor i name ch =>
    rcases connect_pc_to_processor_cases eng s.dispatcher i name ch with
      ⟨_, heq⟩ | ⟨id, _, _, heq⟩ <;>
      simp only [Connected.step, MidiDispatcher.call, heq]
  | connect_cc_to_parameter i name par cc lo hi rel ch v =>
    rcases connect_cc_to_parameter_cases eng s.dispatcher i name par cc lo hi rel ch v with
      ⟨_, heq⟩ | ⟨id, pid, _, _, _, heq⟩ <;>
      simp only [Connected.step, MidiDispatcher.call, heq]

theorem kb_routes_out_run (eng : EngineNames) (calls : List ConnectCall) :
    (Connected.run eng calls).dispatcher._kb_routes_out = fun _ => none := by
  have : ∀ (s : Connected),
      (calls.foldl (Connected.step eng) s).dispatcher._kb_routes_out =
        s.dispatcher._kb_routes_out := by
    induction calls with
    | nil => exact fun s => rfl
    | cons c calls ih => exact fun s => (ih _).trans (kb_routes_out_step eng s c)
  exact this _

/-- C18: `MidiDispatcher::process(event)` for a keyboard event whose track has no
keyboard-out connection (no entry in the keyboard-out table, or an empty one) returns
`EventStatus::HANDLED_OK` and sends nothing to the midi frontend; a new dispatcher, also
after any calls connecting inputs, has no keyboard-out connection. -/
theorem C18_process_without_connection
    (encode : OutputConnection → KeyboardEvent → Option MidiDataByte) (d : MidiDispatcher)
    (typed_event : KeyboardEvent)
    (hno : d._kb_routes_out typed_event.processor_id = none ∨
      d._kb_routes_out typed_event.processor_id = some []) :
    d.process encode (Event.keyboard typed_event) = (EventStatus.HANDLED_OK, []) ∧
      ∀ (eng : EngineNames) (calls : List ConnectCall),
        (Connected.run eng calls).dispatcher.process encode (Event.keyboard typed_event) =
          (EventStatus.HANDLED_OK, []) := by
  constructor
  · rcases hno with h | h
    · simp [MidiDispatcher.process, h]
    · simp [MidiDispatcher.process, h]
  · intro eng calls
    have hout : (Connected.run eng calls).dispatcher._kb_routes_out = fun _ => none :=
      kb_routes_out_run eng calls
    simp [MidiDispatcher.process, hout]

/-- Witness for C18: the keyboard event of the unit test TestKeyboardDataOutConnection on a
new dispatcher. -/
theorem C18_process_without_connection_witness :
    MidiDispatcher.new.process (fun _ _ => some ![0x90, 48, 64, 0])
        (Event.keyboard (KeyboardEvent.with_note KeyboardSubtype.NOTE_ON 0 12 48 (1 / 2) 0)) =
      (EventStatus.HANDLED_OK, []) :=
  (C18_process_without_connection (fun _ _ => some ![0x90, 48, 64, 0]) MidiDispatcher.new
    (KeyboardEvent.with_note KeyboardSubtype.NOTE_ON 0 12 48 (1 / 2) 0) (Or.inl rfl)).1

end midi_dispatcher

/-! ### Claims on the tempo event and the audio frontend -/

namespace engine

open event

theorem foldl_apply_append_tempo (queue : List RtEvent) (t : Transport)
    (sample_offset : Int) (tempo : ℚ) :
    ((queue ++ [RtEvent.make_tempo_event sample_offset tempo]).foldl
      AudioEngine.apply_rt_event t).current_tempo = tempo := by
  simp [List.foldl_append, AudioEngine.apply_rt_event, Transport.set_tempo,
    Transport.current_tempo]

/-- C19: with realtime enabled and room in the ring, posting a `SetEngineTempoEvent` with
tempo `tempo` (140 in scenario 3) and then running one `process_chunk` leaves
`transport.current_tempo() == tempo`; the RT event produced by
`SetEngineTempoEvent::to_rt_event` carries the tempo of the event unchanged, and after
`Transport::set_tempo(tempo)` `current_tempo()` returns `tempo`. -/
theorem C19_tempo_event (e : AudioEngine) (tempo : ℚ) (timestamp sample_offset : Int)
    (hrt : e._realtime = true) (hroom : e._main_in_queue.length < AudioEngine.RING_CAPACITY) :
    (∃ e', e.post_event ⟨tempo, timestamp⟩ sample_offset = some e' ∧
        e'.process_chunk._transport.current_tempo = tempo) ∧
      (SetEngineTempoEvent.to_rt_event ⟨tempo, timestamp⟩ sample_offset =
        RtEvent.make_tempo_event sample_offset tempo) ∧
      (SetEngineTempoEvent.to_rt_event ⟨tempo, timestamp⟩ sample_offset).tempo = some tempo ∧
      ∀ t : Transport, (t.set_tempo tempo).current_tempo = tempo := by
  refine ⟨⟨{ e with _main_in_queue := e._main_in_queue ++
      [SetEngineTempoEvent.to_rt_event ⟨tempo, timestamp⟩ sample_offset] }, ?_, ?_⟩,
    rfl, rfl, fun _ => rfl⟩
  · simp [AudioEngine.post_event, SetEngineTempoEvent.maps_to_rt_event, hrt, hroom]
  · exact foldl_apply_append_tempo _ _ _ _

/-- Witness for C19: scenario 3 of the spec: a new transport at 48000 Hz (tempo 120),
realtime enabled, a playing-mode event already in the ring; after posting the tempo event
of 140 and one `process_chunk` the tempo is 140. -/
theorem C19_tempo_event_witness :
    ∃ e', AudioEngine.post_event
        ⟨true, [RtEvent.make_playing_mode_event 0 PlayingMode.STOPPED], Transport.new 48000 4⟩
        ⟨140, 0⟩ 0 = some e' ∧
      e'.process_chunk._transport.current_tempo = 140 :=
  (C19_tempo_event
    ⟨true, [RtEvent.make_playing_mode_event 0 PlayingMode.STOPPED], Transport.new 48000 4⟩
    140 0 0 rfl (by decide)).1

end engine

namespace audio_frontend

/-- C20, at the failing input: `XenomaiRaspaFrontend::_internal_process_callback` makes no
`update_time` call at all, whatever the event queue and the buffers hold: its last call is
`process_chunk` and every call before it is a `send_rt_event`; with an empty event queue
`process_chunk` is its only call. -/
theorem C20_callback_without_update_time {RtEvent : Type} (_event_queue : List RtEvent)
    (input output : List ℚ) :
    (∀ call ∈ _internal_process_callback _event_queue input output,
        call.is_update_time = false) ∧
      (_internal_process_callback _event_queue input output).getLast? =
        some (EngineCall.process_chunk input (output.map (fun _ => 0))) ∧
      (_internal_process_callback _event_queue input output).dropLast =
        _event_queue.map EngineCall.send_rt_event ∧
      _internal_process_callback ([] : List RtEvent) input output =
        [EngineCall.process_chunk input (output.map (fun _ => 0))] := by
  refine ⟨?_, ?_, ?_, rfl⟩
  · intro call hcall
    simp only [_internal_process_callback, List.mem_append, List.mem_map,
      List.mem_singleton] at hcall
    rcases hcall with ⟨ev, _, rfl⟩ | rfl <;> rfl
  · simp [_internal_process_callback]
  · simp [_internal_process_callback]

end audio_frontend

/-! ### Claims on the rounds and the frame of `wait_for_response` -/

namespace receiver

theorem completions_nil_elim (S id : Nat) (rl : List Node) (ev : List RtEvent)
    (h : completions S id rl ev = []) :
    (∀ m ∈ rl, m.id ≠ id) ∧ ∀ e ∈ ev, S ≤ e.type → e.event_id ≠ id := by
  constructor
  · intro m hm hid
    have : m.status ∈ completions S id rl ev :=
      (mem_completions S id rl ev m.status).2 (Or.inl ⟨m, hm, hid, rfl⟩)
    rw [h] at this
    exact absurd this (List.not_mem_nil _)
  · intro e he h1 hid
    have : (e.status == EventStatus.HANDLED_OK) ∈ completions S id rl ev :=
      (mem_completions S id rl ev _).2 (Or.inr ⟨e, he, ⟨h1, hid⟩, rfl⟩)
    rw [h] at this
    exact absurd this (List.not_mem_nil _)

/-- A loop that finds no completion with the awaited id completes all its rounds, popping
every event polled. -/
theorem wait_loop_none_found (S id n : Nat) (rl : List Node) (q : List RtEvent)
    (arr : List (List RtEvent)) (h1 : ∀ m ∈ rl, m.id ≠ id)
    (h2 : ∀ e ∈ q ++ (arr.take n).flatten, S ≤ e.type → e.event_id ≠ id) :
    (wait_loop S id (n + 1) rl q arr).retries = n + 1 ∧
      (wait_loop S id (n + 1) rl q arr).popped = q ++ (arr.take n).flatten := by
  induction n generalizing rl q arr with
  | zero =>
    have hq : ∀ e ∈ q, S ≤ e.type → e.event_id ≠ id :=
      fun e he => h2 e (List.mem_append_left _ he)
    have hd := drain_returned_none S id q rl hq
    have hs : scan id (drain S id q rl).receive_list = none := by
      rw [scan_none_iff, drain_receive_list, (drain_none S id q rl hd).2.1]
      intro m hm
      rcases List.mem_append.1 hm with hm | hm
      · exact h1 m hm
      · exact stash_id_ne S id q m hm
    rw [wait_loop_sleep S id 0 rl q arr hd hs]
    simp [wait_loop]
  | succ n ih =>
    have hq : ∀ e ∈ q, S ≤ e.type → e.event_id ≠ id :=
      fun e he => h2 e (List.mem_append_left _ he)
    have hd := drain_returned_none S id q rl hq
    have hrl : ∀ m ∈ rl ++ stash S id q, m.id ≠ id := by
      intro m hm
      rcases List.mem_append.1 hm with hm | hm
      · exact h1 m hm
      · exact stash_id_ne S id q m hm
    have hs : scan id (drain S id q rl).receive_list = none := by
      rw [scan_none_iff, drain_receive_list, (drain_none S id q rl hd).2.1]
      exact hrl
    rw [wait_loop_sleep S id (n + 1) rl q arr hd hs]
    have hrest : ∀ e ∈ arr.headD [] ++ (arr.tail.take n).flatten,
        S ≤ e.type → e.event_id ≠ id := by
      intro e he
      apply h2 e
      rw [take_succ_flatten]
      exact List.mem_append_right _ he
    obtain ⟨a, b⟩ := ih (rl ++ stash S id q) (arr.headD []) arr.tail hrl hrest
    refine ⟨by simpa using a, ?_⟩
    simp only [b, take_succ_flatten]

/-- C21: `wait_for_response` always terminates: it performs at most `MAX_RETRIES` = 100
polling rounds, each draining a finite queue, and sleeps `timeout / 100` after each
completed round, at most `timeout` in all; a call that completes 100 rounds returns false;
and when no completion with the awaited id is in the receive list or arrives during those
rounds, it returns false after exactly 100 rounds, having drained all that arrived. -/
theorem C21_wait_for_response_rounds (STOP_ENGINE id : Nat) (receive_list : List Node)
    (queue : List RtEvent) (arrivals : List (List RtEvent)) (timeout : Nat) :
    MAX_RETRIES = 100 ∧
      (wait_for_response STOP_ENGINE id receive_list queue arrivals).retries ≤ 100 ∧
      (wait_for_response STOP_ENGINE id receive_list queue arrivals).rounds ≤ 100 ∧
      (wait_for_response STOP_ENGINE id receive_list queue arrivals).slept timeout ≤ timeout ∧
      ((wait_for_response STOP_ENGINE id receive_list queue arrivals).retries = 100 →
        (wait_for_response STOP_ENGINE id receive_list queue arrivals).result = false) ∧
      (completions STOP_ENGINE id receive_list (polled queue arrivals) = [] →
        (wait_for_response STOP_ENGINE id receive_list queue arrivals).result = false ∧
        (wait_for_response STOP_ENGINE id receive_list queue arrivals).retries = 100 ∧
        (wait_for_response STOP_ENGINE id receive_list queue arrivals).rounds = 100 ∧
        (wait_for_response STOP_ENGINE id receive_list queue arrivals).popped =
          polled queue arrivals) := by
  have hle := wait_loop_retries_le STOP_ENGINE id MAX_RETRIES receive_list queue arrivals
  have hw : wait_loop STOP_ENGINE id MAX_RETRIES receive_list queue arrivals =
      wait_for_response STOP_ENGINE id receive_list queue arrivals := rfl
  rw [hw] at hle
  have hto : (wait_for_response STOP_ENGINE id receive_list queue arrivals).retries = 100 →
      (wait_for_response STOP_ENGINE id receive_list queue arrivals).result = false :=
    fun h => (wait_loop_timeout STOP_ENGINE id MAX_RETRIES receive_list queue arrivals h).1
  refine ⟨rfl, hle, ?_, ?_, hto, ?_⟩
  · simp only [WaitResult.rounds]
    split_ifs with h
    · exact le_refl _
    · have : (wait_for_response STOP_ENGINE id receive_list queue arrivals).retries ≤
          MAX_RETRIES := hle
      have h100 : MAX_RETRIES = 100 := rfl
      omega
  · simp only [WaitResult.slept]
    calc (wait_for_response STOP_ENGINE id receive_list queue arrivals).retries *
          (timeout / MAX_RETRIES)
        ≤ MAX_RETRIES * (timeout / MAX_RETRIES) := Nat.mul_le_mul_right _ hle
      _ ≤ timeout := Nat.mul_div_le timeout MAX_RETRIES
  · intro hnone
    obtain ⟨h1, h2⟩ := completions_nil_elim STOP_ENGINE id receive_list _ hnone
    obtain ⟨a, b⟩ := wait_loop_none_found STOP_ENGINE id 99 receive_list queue arrivals h1 h2
    have a' : (wait_for_response STOP_ENGINE id receive_list queue arrivals).retries = 100 := a
    refine ⟨hto a', a', ?_, b⟩
    simp only [WaitResult.rounds, a']
    rfl

/-- Witness for C21: a call on an empty queue to which nothing arrives. -/
theorem C21_wait_for_response_rounds_witness :
    (wait_for_response 20 1 [⟨3, true⟩] [⟨20, 4, .HANDLED_OK⟩] []).result = false ∧
      (wait_for_response 20 1 [⟨3, true⟩] [⟨20, 4, .HANDLED_OK⟩] []).retries = 100 :=
  ⟨((C21_wait_for_response_rounds 20 1 [⟨3, true⟩] [⟨20, 4, .HANDLED_OK⟩] [] 1000).2.2.2.2.2
      (by decide)).1,
   ((C21_wait_for_response_rounds 20 1 [⟨3, true⟩] [⟨20, 4, .HANDLED_OK⟩] [] 1000).2.2.2.2.2
      (by decide)).2.1⟩

end receiver

namespace receiver

/-- Ahead of the awaited completion, the stash keeps the returnable events. -/
theorem stash_eq_returnable (S id : Nat) (l : List RtEvent)
    (h : ∀ x ∈ l, S ≤ x.type → x.event_id ≠ id) :
    stash S id l = (l.filter (fun x => S ≤ x.type)).map Node.ofEvent := by
  simp only [stash]
  congr 1
  apply List.filter_congr
  intro x hx
  by_cases hS : S ≤ x.type
  · simp [hS, h x hx hS]
  · simp [hS]

/-- A loop that pops the awaited completion has popped nothing behind it and has added
to the receive list the stash of what was ahead of it. -/
theorem wait_loop_popped_awaited (S id n : Nat) (rl : List Node) (q : List RtEvent)
    (arr : List (List RtEvent)) (e : RtEvent)
    (he : e ∈ (wait_loop S id n rl q arr).popped) (h1 : S ≤ e.type) (h2 : e.event_id = id) :
    ∃ ahead, (wait_loop S id n rl q arr).popped = ahead ++ [e] ∧
      (∀ x ∈ ahead, S ≤ x.type → x.event_id ≠ id) ∧
      (wait_loop S id n rl q arr).receive_list = rl ++ stash S id ahead := by
  induction n generalizing rl q arr with
  | zero => simp [wait_loop] at he
  | succ n ih =>
    rcases wait_loop_cases S id rl q with ⟨b, h⟩ | ⟨h, b, rl', hs⟩ | ⟨h, hs⟩
    · rw [wait_loop_returned S id n rl q arr b h] at he ⊢
      obtain ⟨init, x, hp, hx1, hx2, _, hinit⟩ := drain_some S id q rl b h
      have hex : e = x := by
        simp only [hp, List.mem_append, List.mem_singleton] at he
        rcases he with he | he
        · exact absurd h2 (hinit e he h1)
        · exact he
      subst hex
      refine ⟨init, hp, hinit, ?_⟩
      show (drain S id q rl).receive_list = rl ++ stash S id init
      rw [drain_receive_list, hp, stash_append,
        stash_cons_skip S id e [] (fun hc => hc.2 h2), stash_nil, List.append_nil]
    · rw [wait_loop_scanned S id n rl q arr b rl' h hs] at he
      obtain ⟨_, hp, hq⟩ := drain_none S id q rl h
      have he' : e ∈ q := by simpa [hp] using he
      exact absurd h2 (hq e he' h1)
    · obtain ⟨_, _, hq⟩ := drain_none S id q rl h
      rw [wait_loop_sleep S id n rl q arr h hs] at he ⊢
      have he' : e ∈ (wait_loop S id n (rl ++ stash S id q) (arr.headD []) arr.tail).popped := by
        simp only [List.mem_append] at he
        rcases he with he | he
        · exact absurd h2 (hq e he h1)
        · exact he
      obtain ⟨ahead, hp, ha, hr⟩ := ih (rl ++ stash S id q) (arr.headD []) arr.tail he'
      refine ⟨q ++ ahead, ?_, ?_, ?_⟩
      · simp only [hp, List.append_assoc]
      · intro x hx
        rcases List.mem_append.1 hx with hx | hx
        · exact hq x hx
        · exact ha x hx
      · simp only [hr, stash_append, List.append_assoc]

/-- C25: when `wait_for_response` pops the awaited completion from the queue it returns
at once with that completion's status: the completion is the last event popped, the events
queued behind it stay in the queue in their order, the receive list gains exactly the
returnable events (type at or above `STOP_ENGINE`) that were ahead of it, all with other
ids, in queue order, and the events ahead of it that are not returnable are dropped. -/
theorem C25_awaited_popped_returns_at_once (STOP_ENGINE id : Nat) (receive_list : List Node)
    (queue : List RtEvent) (arrivals : List (List RtEvent)) (e : RtEvent)
    (he : e ∈ (wait_for_response STOP_ENGINE id receive_list queue arrivals).popped)
    (h1 : STOP_ENGINE ≤ e.type) (h2 : e.event_id = id) :
    ∃ ahead,
      (wait_for_response STOP_ENGINE id receive_list queue arrivals).popped = ahead ++ [e] ∧
      (∀ x ∈ ahead, STOP_ENGINE ≤ x.type → x.event_id ≠ id) ∧
      (wait_for_response STOP_ENGINE id receive_list queue arrivals).result =
        (e.status == EventStatus.HANDLED_OK) ∧
      queue ++ (arrivals.take
          (wait_for_response STOP_ENGINE id receive_list queue arrivals).retries).flatten =
        ahead ++ e :: (wait_for_response STOP_ENGINE id receive_list queue arrivals).queue ∧
      (wait_for_response STOP_ENGINE id receive_list queue arrivals).receive_list =
        receive_list ++
          (ahead.filter (fun x => STOP_ENGINE ≤ x.type)).map Node.ofEvent := by
  obtain ⟨ahead, hp, ha, hr⟩ :=
    wait_loop_popped_awaited STOP_ENGINE id MAX_RETRIES receive_list queue arrivals e he h1 h2
  have hs := wait_loop_split STOP_ENGINE id MAX_RETRIES receive_list queue arrivals
  have hres :=
    (wait_loop_awaited STOP_ENGINE id MAX_RETRIES receive_list queue arrivals e he h1 h2).2
  refine ⟨ahead, hp, ha, hres, ?_, ?_⟩
  · show queue ++ (arrivals.take
        (wait_loop STOP_ENGINE id MAX_RETRIES receive_list queue arrivals).retries).flatten = _
    rw [hs, hp, List.append_assoc]
    rfl
  · rw [← stash_eq_returnable STOP_ENGINE id ahead ha]
    exact hr

/-- Witness for C25: the awaited completion (id 7) is third in the queue, behind an event
that is not returnable and a completion with another id, and ahead of one more event. -/
theorem C25_awaited_popped_returns_at_once_witness :
    ∃ ahead,
      (wait_for_response 20 7 [⟨1, true⟩]
        [⟨3, 7, .HANDLED_OK⟩, ⟨21, 5, .HANDLED_ERROR⟩, ⟨20, 7, .HANDLED_OK⟩, ⟨22, 9, .HANDLED_OK⟩]
        [[⟨20, 8, .HANDLED_OK⟩]]).popped = ahead ++ [⟨20, 7, .HANDLED_OK⟩] ∧
      (wait_for_response 20 7 [⟨1, true⟩]
        [⟨3, 7, .HANDLED_OK⟩, ⟨21, 5, .HANDLED_ERROR⟩, ⟨20, 7, .HANDLED_OK⟩, ⟨22, 9, .HANDLED_OK⟩]
        [[⟨20, 8, .HANDLED_OK⟩]]).receive_list =
        [⟨1, true⟩] ++ (ahead.filter (fun x => 20 ≤ x.type)).map Node.ofEvent := by
  obtain ⟨ahead, hp, _, _, _, hr⟩ := C25_awaited_popped_returns_at_once 20 7 [⟨1, true⟩]
    [⟨3, 7, .HANDLED_OK⟩, ⟨21, 5, .HANDLED_ERROR⟩, ⟨20, 7, .HANDLED_OK⟩, ⟨22, 9, .HANDLED_OK⟩]
    [[⟨20, 8, .HANDLED_OK⟩]] ⟨20, 7, .HANDLED_OK⟩ (by decide) (by decide) rfl
  exact ⟨ahead, hp, hr⟩

end receiver

/-! ### Claims on the pitch bend constants and on `playing()` in master mode -/

namespace midi

/-- C23: `MAX_PITCH_BEND` is 16384 = 2^14, one more than the greatest 14-bit value
2^14 - 1 = 16383: every value `lsb + 128 * msb` made of two 7-bit data bytes, and so every
value of a `PitchBendMessage` decoded from them, is below `MAX_PITCH_BEND`, the greatest
being `MAX_PITCH_BEND - 1`; `PITCH_BEND_MIDDLE` = 8192 is the half of `MAX_PITCH_BEND`. -/
theorem C23_max_pitch_bend :
    MAX_PITCH_BEND = 16384 ∧ MAX_PITCH_BEND = 2 ^ 14 ∧ MAX_PITCH_BEND ≠ 2 ^ 14 - 1 ∧
      (∀ lsb msb : Fin 128, lsb.val + 128 * msb.val < MAX_PITCH_BEND) ∧
      (∀ (channel : Nat) (lsb msb : Fin 128),
        (PitchBendMessage.mk channel (lsb.val + 128 * msb.val)).value ≠ MAX_PITCH_BEND) ∧
      (127 : Fin 128).val + 128 * (127 : Fin 128).val = MAX_PITCH_BEND - 1 ∧
      PITCH_BEND_MIDDLE = 8192 ∧ 2 * PITCH_BEND_MIDDLE = MAX_PITCH_BEND := by
  refine ⟨rfl, rfl, by decide, ?_, ?_, rfl, rfl, rfl⟩
  · intro lsb msb
    have h1 := lsb.isLt
    have h2 := msb.isLt
    simp only [MAX_PITCH_BEND]
    omega
  · intro _ lsb msb
    have h1 := lsb.isLt
    have h2 := msb.isLt
    simp only [MAX_PITCH_BEND]
    omega

end midi

namespace engine

/-- C24: in master mode (sync mode `INTERNAL`) `playing()` returns false once the playing
mode is set to `STOPPED`: a newly constructed transport is in sync mode `INTERNAL`, stays
so after `set_playing_mode(STOPPED)`, and `playing()` then returns false; on every
transport `set_playing_mode(mode)` leaves the sync mode as it was and `playing()` returns
whether `mode` is not `STOPPED`, whatever the sync mode. -/
theorem C24_playing_in_master_mode (sample_rate beats_per_bar : ℚ) :
    (((Transport.new sample_rate beats_per_bar).set_playing_mode
        PlayingMode.STOPPED).sync_mode = SyncMode.INTERNAL ∧
      ((Transport.new sample_rate beats_per_bar).set_playing_mode
        PlayingMode.STOPPED).playing = false) ∧
    ∀ (t : Transport) (mode : PlayingMode),
      (t.set_playing_mode mode).sync_mode = t.sync_mode ∧
      (t.set_playing_mode mode).playing = (mode != PlayingMode.STOPPED) :=
  ⟨⟨rfl, rfl⟩, fun _ _ => ⟨rfl, rfl⟩⟩

end engine

/-! ### Claims on clearing a record and on the groups of `_update_timings` -/

namespace performance

theorem mem_of_find {V : Type} (m : IntMap V) (key : Int) (value : V)
    (h : IntMap.find m key = some value) : (key, value) ∈ m := by
  induction m with
  | nil => simp [IntMap.find] at h
  | cons e m ih =>
    obtain ⟨k, v⟩ := e
    by_cases hk : key = k
    · simp only [IntMap.find, hk, if_true, Option.some.injEq] at h
      simp [hk, h]
    · simp only [IntMap.find, hk, if_false] at h
      exact List.mem_cons_of_mem _ (ih h)

theorem mem_set {V : Type} (m : IntMap V) (key : Int) (value : V) (entry : Int × V)
    (h : entry ∈ IntMap.set m key value) : entry = (key, value) ∨ entry ∈ m := by
  induction m with
  | nil =>
    simp only [IntMap.set, List.mem_singleton] at h
    exact Or.inl h
  | cons e m ih =>
    obtain ⟨k, v⟩ := e
    by_cases h1 : key < k
    · simp only [IntMap.set, h1, if_true, List.mem_cons] at h
      rcases h with h | h | h
      · exact Or.inl h
      · exact Or.inr (by simp [h])
      · exact Or.inr (List.mem_cons_of_mem _ h)
    · by_cases h2 : key = k
      · subst h2
        simp only [IntMap.set, h1, if_true, if_false, List.mem_cons] at h
        rcases h with h | h
        · exact Or.inl h
        · exact Or.inr (List.mem_cons_of_mem _ h)
      · simp only [IntMap.set, h1, h2, if_false, List.mem_cons] at h
        rcases h with h | h
        · exact Or.inr (by simp [h])
        · rcases ih h with h | h
          · exact Or.inl h
          · exact Or.inr (List.mem_cons_of_mem _ h)

/-- The grouping loop keeps every group non-empty and made of log points of its key. -/
theorem foldl_sort_groups (drained : List TimingLogPoint)
    (sorted_data : IntMap (List TimingLogPoint))
    (h : ∀ node ∈ sorted_data, node.2 ≠ [] ∧ ∀ p ∈ node.2, p.id = node.1) :
    ∀ node ∈ drained.foldl
        (fun sorted_data log_point =>
          IntMap.set sorted_data log_point.id
            ((IntMap.find sorted_data log_point.id).getD [] ++ [log_point]))
        sorted_data,
      node.2 ≠ [] ∧ ∀ p ∈ node.2, p.id = node.1 := by
  induction drained generalizing sorted_data with
  | nil => exact h
  | cons log_point drained ih =>
    apply ih
    intro node hnode
    rcases mem_set _ _ _ _ hnode with rfl | hold
    · refine ⟨by simp, ?_⟩
      intro p hp
      rcases List.mem_append.1 hp with hp | hp
      · cases hf : IntMap.find sorted_data log_point.id with
        | none => simp [hf] at hp
        | some group =>
          rw [hf] at hp
          exact (h _ (mem_of_find _ _ _ hf)).2 p hp
      · simp only [List.mem_singleton] at hp
        rw [hp]
    · exact h node hold

theorem sort_data_groups (drained : List TimingLogPoint) :
    ∀ node ∈ PerformanceTimer.sort_data drained,
      node.2 ≠ [] ∧ ∀ p ∈ node.2, p.id = node.1 :=
  foldl_sort_groups drained [] (by simp)

/-- The aggregation loop leaves alone the record of an id that no group has. -/
theorem find_foldl_update (default_timings : ProcessTimings) (_period : ℚ)
    (groups : IntMap (List TimingLogPoint)) (m : IntMap TimingNode) (id : Int)
    (h : ∀ node ∈ groups, node.1 ≠ id) :
    IntMap.find (groups.foldl (PerformanceTimer.update_node default_timings _period) m) id =
      IntMap.find m id := by
  induction groups generalizing m with
  | nil => rfl
  | cons node groups ih =>
    simp only [List.foldl_cons]
    rw [ih _ (fun n hn => h n (List.mem_cons_of_mem _ hn))]
    simp only [PerformanceTimer.update_node, find_set]
    rw [if_neg (fun hc => h node (List.mem_cons_self _ _) hc.symm)]

/-- C27: `clear_timings_for_node(id)` returns true if and only if the map has a record for
`id`; then the timings of that record are the default `ProcessTimings` and the record is
kept (`timings_for_node(id)` returns the default timings), the records of the other ids
and the period are as before; when it returns false the timer is unchanged. -/
theorem C27_clear_timings_for_node (default_timings : ProcessTimings) (t : PerformanceTimer)
    (id : Int) :
    ((t.clear_timings_for_node default_timings id).1 = true ↔
        (t.timings_for_node id).isSome = true) ∧
      ((t.clear_timings_for_node default_timings id).1 = true →
        (t.clear_timings_for_node default_timings id).2.timings_for_node id =
            some default_timings ∧
          (∀ other, other ≠ id →
            IntMap.find (t.clear_timings_for_node default_timings id).2._timings other =
              IntMap.find t._timings other) ∧
          (∀ key, key ∈ IntMap.keys (t.clear_timings_for_node default_timings id).2._timings ↔
            key ∈ IntMap.keys t._timings) ∧
          (t.clear_timings_for_node default_timings id).2._period = t._period) ∧
      ((t.clear_timings_for_node default_timings id).1 = false →
        (t.clear_timings_for_node default_timings id).2 = t) := by
  have hkeys := mem_keys_clear_timings_for_node default_timings t id
  cases h : IntMap.find t._timings id with
  | none =>
    simp only [PerformanceTimer.clear_timings_for_node, PerformanceTimer.timings_for_node, h]
    simp
  | some node =>
    simp only [PerformanceTimer.clear_timings_for_node, h] at hkeys
    simp only [PerformanceTimer.clear_timings_for_node, PerformanceTimer.timings_for_node, h,
      find_set]
    refine ⟨by simp, fun _ => ⟨by simp, ?_, hkeys, trivial⟩, by simp⟩
    intro other ho
    rw [if_neg ho]

/-- Witness for C27: a map with records for the nodes 3 and 5, cleared for node 3. -/
theorem C27_clear_timings_for_node_witness :
    (PerformanceTimer.clear_timings_for_node ⟨0, 100, 0⟩
        ⟨1000, [(3, ⟨⟨1, 2, 3⟩⟩), (5, ⟨⟨4, 5, 6⟩⟩)]⟩ 3).2.timings_for_node 3 =
      some ⟨0, 100, 0⟩ :=
  ((C27_clear_timings_for_node ⟨0, 100, 0⟩
    ⟨1000, [(3, ⟨⟨1, 2, 3⟩⟩), (5, ⟨⟨4, 5, 6⟩⟩)]⟩ 3).2.1 rfl).1

/-- C30: `_update_timings` never passes an empty list to `_calculate_timings`: every node
of the sorted data holds at least one log point, all of its node id and all from the
drained ring, so the divisor `entries.size()` of the average is not 0; and the record of a
node id without a log point in the drained ring is as before (absent if it was absent). -/
theorem C30_update_timings_groups (default_timings : ProcessTimings) (t : PerformanceTimer)
    (drained : List TimingLogPoint) :
    (t._update_timings default_timings drained)._timings =
        (PerformanceTimer.sort_data drained).foldl
          (fun _timings node =>
            IntMap.set _timings node.1
              ⟨_merge_timings ((IntMap.find _timings node.1).getD ⟨default_timings⟩).timings
                (_calculate_timings t._period node.2)⟩)
          t._timings ∧
      (∀ node ∈ PerformanceTimer.sort_data drained,
        node.2 ≠ [] ∧ (node.2.length : ℚ) ≠ 0 ∧ 1 ≤ node.2.length ∧
          (∀ p ∈ node.2, p.id = node.1) ∧ ∃ p ∈ drained, p.id = node.1) ∧
      ∀ id, (∀ p ∈ drained, p.id ≠ id) →
        IntMap.find (t._update_timings default_timings drained)._timings id =
          IntMap.find t._timings id := by
  refine ⟨rfl, ?_, ?_⟩
  · intro node hnode
    obtain ⟨h1, h2⟩ := sort_data_groups drained node hnode
    have hlen : 1 ≤ node.2.length := by
      cases hl : node.2 with
      | nil => exact absurd hl h1
      | cons _ _ => simp
    refine ⟨h1, ?_, hlen, h2, ?_⟩
    · have : (0 : ℚ) < (node.2.length : ℚ) := by exact_mod_cast hlen
      exact ne_of_gt this
    · apply (mem_keys_sort_data drained node.1).1
      exact List.mem_map.2 ⟨node, hnode, rfl⟩
  · intro id hid
    apply find_foldl_update
    intro node hnode hc
    obtain ⟨p, hp, hpid⟩ := (mem_keys_sort_data drained node.1).1
      (List.mem_map.2 ⟨node, hnode, rfl⟩)
    exact hid p hp (hpid.trans hc)

/-- Witness for C30: log points of the nodes 1 and 2 leave the record of node 3 alone. -/
theorem C30_update_timings_groups_witness :
    IntMap.find (PerformanceTimer._update_timings ⟨0, 100, 0⟩
        ⟨1000, [(3, ⟨⟨1, 2, 3⟩⟩)]⟩ [⟨1, 500⟩, ⟨2, 700⟩, ⟨1, 900⟩])._timings 3 =
      IntMap.find (PerformanceTimer.mk 1000 [(3, ⟨⟨1, 2, 3⟩⟩)])._timings 3 :=
  (C30_update_timings_groups ⟨0, 100, 0⟩ ⟨1000, [(3, ⟨⟨1, 2, 3⟩⟩)]⟩
    [⟨1, 500⟩, ⟨2, 700⟩, ⟨1, 900⟩]).2.2 3 (by decide)

end performance

/-! ### Claim on `EventFifo::send_event` -/

/-- C28: `EventFifo::send_event` is `push` with the result dropped: on a full fifo (100
events held) it leaves the fifo unchanged, the event being dropped with nothing returned;
on a fifo that is not full the push it makes returns true and the event becomes the newest
element, the events held before staying in their order. -/
theorem C28_send_event {BaseEvent : Type} (f : EventFifo BaseEvent)
    (event : Option BaseEvent) :
    f.send_event event = (f.push event).2 ∧
      (f.contents.length = MAX_EVENTS_IN_QUEUE →
        (f.push event).1 = false ∧ f.send_event event = f ∧
          (f.send_event event).contents = f.contents) ∧
      (f.contents.length ≠ MAX_EVENTS_IN_QUEUE →
        (f.push event).1 = true ∧ (f.send_event event).contents = f.contents ++ [event]) := by
  have hiff := memory_relaxed_aquire_release.CircularFifo.push_false_iff f._fifo event
  refine ⟨rfl, ?_, ?_⟩
  · intro hfull
    have h1 : (f._fifo.push event).1 = false := hiff.2 hfull
    have h2 := memory_relaxed_aquire_release.CircularFifo.push_false f._fifo event h1
    have h3 : f.send_event event = f := by
      simp only [EventFifo.send_event, EventFifo.push, h2]
    exact ⟨h1, h3, by rw [h3]⟩
  · intro hroom
    have h1 : (f._fifo.push event).1 = true := by
      cases hp : (f._fifo.push event).1 with
      | true => rfl
      | false => exact absurd (hiff.1 hp) hroom
    exact ⟨h1, memory_relaxed_aquire_release.CircularFifo.push_true f._fifo event h1⟩

/-- Witness for C28: `send_event` on a fifo filled by 100 pushes and on a new fifo. -/
theorem C28_send_event_witness :
    (FifoRun.run (List.replicate 100 (FifoCall.push (some 0)))
        (EventFifo.new (fun _ => (none : Option Nat)))).fifo.send_event (some 1) =
      (FifoRun.run (List.replicate 100 (FifoCall.push (some 0)))
        (EventFifo.new (fun _ => (none : Option Nat)))).fifo ∧
    ((EventFifo.new (fun _ => (none : Option Nat))).send_event (some 1)).contents =
      (EventFifo.new (fun _ => (none : Option Nat))).contents ++ [some 1] :=
  ⟨((C28_send_event (FifoRun.run (List.replicate 100 (FifoCall.push (some 0)))
      (EventFifo.new (fun _ => (none : Option Nat)))).fifo (some 1)).2.1 (by decide)).2.1,
   ((C28_send_event (EventFifo.new (fun _ => (none : Option Nat))) (some 1)).2.2
      (by decide)).2⟩

/-! ### Claim on the event classes -/

namespace event

/-- C29: for every class of event.h both `maps_to_rt_event()` and
`process_asynchronously()` resolve to a declaration and are never both true. The engine
events (`EngineEvent` and the add/remove track, add/remove processor and program change
events) and the asynchronous work events (`AsynchronousWorkEvent`, processor work and blob
delete) are processed asynchronously and do not map to an rt event; the keyboard,
parameter change (with the string and data property changes), bypass, tempo, time
signature, playing mode, sync mode and asynchronous work completion events map to an rt
event and are not processed asynchronously; `ParameterChangeNotificationEvent`, like
`Event` and the engine notifications, does neither. -/
theorem C29_maps_or_asynchronous :
    ∀ c : EventClass,
      (c.maps_to_rt_event == some true && c.process_asynchronously == some true) = false ∧
      (c.maps_to_rt_event, c.process_asynchronously) =
        match c with
        | .EngineEvent | .AddTrackEvent | .RemoveTrackEvent | .AddProcessorEvent
        | .RemoveProcessorEvent | .ProgramChangeEvent | .AsynchronousWorkEvent
        | .AsynchronousProcessorWorkEvent | .AsynchronousBlobDeleteEvent =>
          (some false, some true)
        | .KeyboardEvent | .ParameterChangeEvent | .StringPropertyChangeEvent
        | .DataPropertyChangeEvent | .SetProcessorBypassEvent | .SetEngineTempoEvent
        | .SetEngineTimeSignatureEvent | .SetEnginePlayingModeStateEvent
        | .SetEngineSyncModeEvent | .AsynchronousProcessorWorkCompletionEvent =>
          (some true, some false)
        | .ParameterChangeNotificationEvent | .Event | .EngineNotificationEvent
        | .ClippingNotificationEvent =>
          (some false, some false) := by
  intro c
  cases c <;> exact ⟨rfl, rfl⟩

end event

/-! ### Claim on `clear_connections` -/

namespace midi_dispatcher

open event

theorem table_of_filter_cleared (routes : List Route) (kind : RouteKind) (port : Int)
    (ch : Nat) :
    table_of (routes.filter (fun r => !r.kind.cleared)) kind port ch =
      if kind.cleared = true then [] else table_of routes kind port ch := by
  induction routes with
  | nil => simp [table_of]
  | cons r routes ih =>
    simp only [table_of] at ih ⊢
    by_cases hc : r.kind.cleared = true
    · rw [List.filter_cons_of_neg (by simp [hc]), ih]
      by_cases hk : kind.cleared = true
      · simp [hk]
      · have hne : r.kind ≠ kind := fun h => hk (h ▸ hc)
        simp [hk, List.filter_cons, hne]
    · rw [List.filter_cons_of_pos (by simp [hc])]
      by_cases hk : kind.cleared = true
      · have hne : r.kind ≠ kind := fun h => hc (h ▸ hk)
        simp only [hk, if_true] at ih ⊢
        rw [List.filter_cons_of_neg (by simp [hne]), ih]
      · have hk' : kind.cleared = false := by simpa using hk
        simp only [hk', Bool.false_eq_true, if_false] at ih ⊢
        by_cases hm : r.kind = kind ∧ r.midi_input = port ∧ r.channel = ch
        · rw [List.filter_cons_of_pos (by simpa using hm),
            List.filter_cons_of_pos (by simpa using hm)]
          simp only [List.map_cons, ih]
        · rw [List.filter_cons_of_neg (by simpa using hm),
            List.filter_cons_of_neg (by simpa using hm)]
          exact ih

theorem routes_inv_clear (s : Connected) (h : Connected.Inv s) :
    Connected.Inv s.clear_connections := by
  obtain ⟨_, h2, h3, _⟩ := h
  refine ⟨?_, ?_, ?_, ?_⟩
  · intro port ch
    simp only [Connected.clear_connections, MidiDispatcher.clear_connections,
      table_of_filter_cleared]
    simp [routes_at, RouteKind.cleared]
  · intro port ch
    simp only [Connected.clear_connections, MidiDispatcher.clear_connections,
      table_of_filter_cleared]
    simpa [RouteKind.cleared] using h2 port ch
  · intro port ch
    simp only [Connected.clear_connections, MidiDispatcher.clear_connections,
      table_of_filter_cleared]
    simpa [RouteKind.cleared] using h3 port ch
  · intro port cc ch
    simp only [Connected.clear_connections, MidiDispatcher.clear_connections,
      table_of_filter_cleared]
    simp [cc_routes_at, RouteKind.cleared]

theorem routes_inv_foldl (eng : EngineNames) (later : List ConnectCall) (s : Connected)
    (h : Connected.Inv s) : Connected.Inv (later.foldl (Connected.step eng) s) := by
  induction later generalizing s with
  | nil => exact h
  | cons c later ih => exact ih _ (routes_inv_step eng s c h)

/-- Connect calls add routes behind the routes there are, each the route of a call. -/
theorem routes_foldl_step (eng : EngineNames) (later : List ConnectCall) (s : Connected) :
    ∃ added, (later.foldl (Connected.step eng) s).routes = s.routes ++ added ∧
      ∀ r ∈ added, ∃ c ∈ later, c.route eng = some r := by
  induction later generalizing s with
  | nil => exact ⟨[], by simp, by simp⟩
  | cons c later ih =>
    obtain ⟨added, h1, h2⟩ := ih (s.step eng c)
    by_cases hok : (s.dispatcher.call eng c).1 = MidiDispatcherStatus.OK
    · refine ⟨(c.route eng).toList ++ added, ?_, ?_⟩
      · rw [List.foldl_cons, h1]
        simp only [Connected.step, if_pos hok, List.append_assoc]
      · intro r hr
        rcases List.mem_append.1 hr with hr | hr
        · exact ⟨c, List.mem_cons_self _ _, by simpa using hr⟩
        · obtain ⟨c', hc', hr'⟩ := h2 r hr
          exact ⟨c', List.mem_cons_of_mem _ hc', hr'⟩
    · refine ⟨added, ?_, ?_⟩
      · rw [List.foldl_cons, h1]
        simp only [Connected.step, if_neg hok]
      · intro r hr
        obtain ⟨c', hc', hr'⟩ := h2 r hr
        exact ⟨c', List.mem_cons_of_mem _ hc', hr'⟩

/-- C22: after `clear_connections()` no route made by `connect_kb_to_track` or
`connect_cc_to_parameter` before the call is connected: for every input port and every
message, what `send_midi` posts after the call and any later connect calls is, up to order,
one event for each matching route among the raw and program-change routes connected before
the call and the routes connected after it. Right after the call a note-on, note-off or
control-change message posts the wrapped-midi events of the raw routes only, and nothing
when only keyboard and control-change routes were connected. -/
theorem C22_clear_connections (dec : Decoder) (eng : EngineNames)
    (calls later : List ConnectCall) (port : Int) (data : MidiDataByte) (timestamp : Int)
    (hch : dec.channels_in_range data) :
    List.Perm ((Connected.run_cleared eng calls later).dispatcher.send_midi dec port data
          timestamp).1
        ((Connected.run_cleared eng calls later).routes.flatMap
          (fun r => r.posted dec port data timestamp)) ∧
      (∃ added, (Connected.run_cleared eng calls later).routes =
          (Connected.run eng calls).routes.filter (fun r => !r.kind.cleared) ++ added ∧
        ∀ r ∈ added, ∃ c ∈ later, c.route eng = some r) ∧
      (∀ r ∈ (Connected.run eng calls).routes.filter (fun r => !r.kind.cleared),
        r.kind = RouteKind.RAW ∨ r.kind = RouteKind.PC) ∧
      ((dec.decode_message_type data = midi.MessageType.NOTE_ON ∨
          dec.decode_message_type data = midi.MessageType.NOTE_OFF ∨
          dec.decode_message_type data = midi.MessageType.CONTROL_CHANGE) →
        ((Connected.run_cleared eng calls []).dispatcher.send_midi dec port data timestamp).1 =
          raw_events dec (Connected.run eng calls).dispatcher port data timestamp) ∧
      ((∀ r ∈ (Connected.run eng calls).routes, r.kind.cleared = true) →
        ((Connected.run_cleared eng calls []).dispatcher.send_midi dec port data timestamp).1 =
          []) := by
  have hinv : ∀ l, Connected.Inv (Connected.run_cleared eng calls l) := fun l =>
    routes_inv_foldl eng l _ (routes_inv_clear _ (routes_inv_run eng calls))
  refine ⟨send_midi_perm dec _ (hinv later) port data timestamp hch,
    routes_foldl_step eng later _, ?_, ?_, ?_⟩
  · intro r hr
    have hc := (List.mem_filter.1 hr).2
    cases hk : r.kind with
    | KEYBOARD => simp [hk, RouteKind.cleared] at hc
    | CC cc => simp [hk, RouteKind.cleared] at hc
    | PC => exact Or.inr rfl
    | RAW => exact Or.inl rfl
  · intro htype
    have hd : (Connected.run_cleared eng calls []).dispatcher =
        (Connected.run eng calls).dispatcher.clear_connections := rfl
    rw [hd]
    rcases htype with h | h | h
    · rw [send_midi_note_on dec _ port data timestamp h]
      simp [MidiDispatcher.clear_connections, routes_at, raw_events]
    · rw [send_midi_note_off dec _ port data timestamp h]
      simp [MidiDispatcher.clear_connections, routes_at, raw_events]
    · rw [send_midi_control_change dec _ port data timestamp h]
      simp [MidiDispatcher.clear_connections, cc_routes_at, raw_events]
  · intro hall
    have hperm := send_midi_perm dec _ (hinv []) port data timestamp hch
    have hnil : (Connected.run_cleared eng calls []).routes = [] := by
      show (Connected.run eng calls).routes.filter (fun r => !r.kind.cleared) = []
      rw [List.filter_eq_nil_iff]
      intro r hr
      simp [hall r hr]
    rw [hnil] at hperm
    exact List.Perm.eq_nil (by simpa using hperm)

/-- Witness for C22: the calls of the unit test TestKeyboardDataConnection: a keyboard
route on input 1 for all channels is connected and `clear_connections()` called; the
note-on of channel 2 received on input 1 then posts nothing. -/
theorem C22_clear_connections_witness :
    ((Connected.run_cleared ⟨fun _ => some 25, fun _ _ => some 26⟩
        [.set_midi_inputs 5, .connect_kb_to_track 1 "processor" 16] []).dispatcher.send_midi
        status_byte_decoder 1 ![0x92, 62, 55, 0] 0).1 = [] :=
  (C22_clear_connections status_byte_decoder ⟨fun _ => some 25, fun _ _ => some 26⟩
    [.set_midi_inputs 5, .connect_kb_to_track 1 "processor" 16] [] 1 ![0x92, 62, 55, 0] 0
    (by decide)).2.2.2.2 (by decide)

end midi_dispatcher

/-! ### Claim on `PerformanceTimer::enable` -/

namespace performance

theorem worker_enabled (default_timings : ProcessTimings) (s : RunningTimer) (n : Nat) :
    (RunningTimer._worker default_timings s n)._enabled = s._enabled ∧
      (RunningTimer._worker default_timings s n)._process_thread = s._process_thread := by
  induction n generalizing s with
  | zero => exact ⟨rfl, rfl⟩
  | succ n ih =>
    simp only [RunningTimer._worker]
    exact ih (s._update_timings default_timings)

/-- C26: `enable` leaves the flag `_enabled` equal to its argument and keeps the invariant
that a worker thread runs exactly when the flag is true. `enable(true)` on an enabled timer
and `enable(false)` on a disabled timer change nothing and take no step (no worker is
started, `_update_timings` is not called), so `enable` is idempotent; `enable(true)` on a
disabled timer starts one worker and changes neither the results nor the ring;
`enable(false)` on an enabled timer joins the worker and then calls `_update_timings`
exactly once, which leaves the ring empty. -/
theorem C26_enable (default_timings : ProcessTimings) (s : RunningTimer)
    (enabled : Bool) (iterations again : Nat) (hinv : s.Inv) :
    (s.enable default_timings enabled iterations).1._enabled = enabled ∧
      (s.enable default_timings enabled iterations).1.Inv ∧
      (s._enabled = enabled → s.enable default_timings enabled iterations = (s, [])) ∧
      ((s.enable default_timings enabled iterations).1.enable default_timings enabled again =
        ((s.enable default_timings enabled iterations).1, [])) ∧
      (s._enabled = false →
        s.enable default_timings true iterations =
          ({ s with _enabled := true, _process_thread := true },
            [EnableStep.thread_started])) ∧
      (s._enabled = true →
        (s.enable default_timings false iterations).2 =
            [EnableStep.thread_joined, EnableStep.update_timings_called] ∧
          (s.enable default_timings false iterations).1._process_thread = false ∧
          (s.enable default_timings false iterations).1._entry_queue = [] ∧
          (s.enable default_timings false iterations).1 =
            ({ RunningTimer._worker default_timings { s with _enabled := false } iterations
                with _process_thread := false })._update_timings default_timings) := by
  have hnoop : ∀ (u : RunningTimer) (b : Bool) (n : Nat), u._enabled = b →
      u.enable default_timings b n = (u, []) := by
    intro u b n hu
    cases b <;> simp [RunningTimer.enable, hu]
  have hflag : ∀ (u : RunningTimer) (b : Bool) (n : Nat),
      (u.enable default_timings b n).1._enabled = b := by
    intro u b n
    cases b <;> cases hu : u._enabled <;>
      simp [RunningTimer.enable, hu, RunningTimer._update_timings]
    split_ifs
    · exact (worker_enabled default_timings _ n).1
    · rfl
  have hthread : s._process_thread = s._enabled := hinv
  refine ⟨hflag s enabled iterations, ?_, hnoop s enabled iterations,
    hnoop _ enabled again (hflag s enabled iterations), ?_, ?_⟩
  · cases enabled <;> cases hs : s._enabled <;>
      simp [RunningTimer.enable, RunningTimer.Inv, RunningTimer._update_timings, hs,
        hthread, (worker_enabled default_timings _ iterations).1]
  · intro hs
    simp [RunningTimer.enable, hs]
  · intro hs
    simp [RunningTimer.enable, RunningTimer._update_timings, hs, hthread]

/-- Witness for C26: an enabled timer with two log points in the ring is disabled. -/
theorem C26_enable_witness :
    (RunningTimer.enable ⟨0, 100, 0⟩ ⟨⟨1000, []⟩, true, true, [⟨1, 500⟩, ⟨2, 700⟩]⟩
        false 1).2 = [EnableStep.thread_joined, EnableStep.update_timings_called] ∧
      (RunningTimer.enable ⟨0, 100, 0⟩ ⟨⟨1000, []⟩, true, true, [⟨1, 500⟩, ⟨2, 700⟩]⟩
        false 1).1._entry_queue = [] :=
  ⟨((C26_enable ⟨0, 100, 0⟩ ⟨⟨1000, []⟩, true, true, [⟨1, 500⟩, ⟨2, 700⟩]⟩ false 1 0
      rfl).2.2.2.2.2 rfl).1,
   ((C26_enable ⟨0, 100, 0⟩ ⟨⟨1000, []⟩, true, true, [⟨1, 500⟩, ⟨2, 700⟩]⟩ false 1 0
      rfl).2.2.2.2.2 rfl).2.2.1⟩

end performance

end sushi
